import Mathlib

/-!
# Chunkserver of bfs: a shallow embedding of `src/chunkserver/chunkserver_impl.cc`

The file embeds the `BlockManager` class and the RPC handlers of `ChunkServerImpl`
as pure state-passing functions and proves properties of them.

Conventions of the embedding:

* `int64_t` / `int32_t` values are `Int`; the one place where a signed value is
  converted to an unsigned one (`GetStorePath`) reduces modulo `2 ^ 64` explicitly.
* A `Block*` is an address (`Nat`) into a heap of `Block` objects; the registry
  `_block_map` maps block ids to addresses.
* The leveldb database `_metadb` is an association list kept in bytewise key order.
* Results of calls that leave the program (leveldb writes, `remove(3)`, the methods of
  `Block` that touch the disk, the clock) are arguments of the embedded function.
* A protobuf `Closure* done` is the number of times it has been run.
-/

namespace bfs

/-! ## Data model -/

/-- Modelled from the spec: the fixed-size block descriptor `BlockMeta` of
`chunkserver/data_block.h` (not part of the sources at hand): block id, total size and
version, all 64-bit signed. -/
structure BlockMeta where
  block_id : Int
  block_size : Int
  version : Int
deriving DecidableEq, Repr

/-- Modelled from the spec: the default constructor of `BlockMeta`, which the spec describes
as `BlockMeta{block_id, version=0, size=0}` for a block under construction. -/
def BlockMeta.init : BlockMeta := { block_id := 0, block_size := 0, version := 0 }

/-- Modelled from the spec: the in-memory `Block` handle of `chunkserver/data_block.h`
(not part of the sources at hand): its descriptor, the file that holds its data, the
reference count, the deleted and sealed flags, and the bytes it occupies on disk. -/
structure Block where
  meta : BlockMeta
  file_path : String
  refs : Int
  deleted : Bool
  finished : Bool
  disk_used : Int
deriving DecidableEq, Repr

/-- A value stored in `_metadb`: the byte image of a `BlockMeta` (`sizeof(meta)` bytes) or
the eight bytes of a namespace version. -/
inductive DbValue where
  | meta (m : BlockMeta)
  | version (v : Int)
deriving DecidableEq, Repr

/-- A leveldb key: a byte string. -/
abbrev DbKey := List Char

/-- State of `class BlockManager`, together with the process state its methods reach:
the heap of `Block` objects, the files on disk and the global counter `g_find_ops`. -/
structure BlockManager where
  store_path_list : List String
  block_map : List (Int × Nat)
  heap : List (Nat × Block)
  next_addr : Nat
  metadb : List (DbKey × DbValue)
  files : List String
  namespace_version : Int
  disk_quota : Int
  g_find_ops : Int
deriving DecidableEq, Repr

/-- The fields of a `WriteBlockRequest` message. -/
structure WriteBlockRequest where
  sequence_id : Int
  block_id : Int
  databuf : List UInt8
  offset : Int
  packet_seq : Int
  is_last : Bool
  chunkservers : List String
deriving DecidableEq, Repr

/-- The fields of a `WriteBlockResponse` message; an optional field that is not set is
`none`. -/
structure WriteBlockResponse where
  sequence_id : Option Int
  status : Option Int
  timestamp : List Int
deriving DecidableEq, Repr

/-- The fields of a `ReadBlockRequest` message. -/
structure ReadBlockRequest where
  sequence_id : Int
  block_id : Int
  offset : Int
  read_len : Int
  require_block_version : Bool
deriving DecidableEq, Repr

/-- The fields of a `ReadBlockResponse` message. -/
structure ReadBlockResponse where
  sequence_id : Option Int
  status : Option Int
  databuf : Option (List UInt8)
  block_version : Option Int
  timestamp : List Int
deriving DecidableEq, Repr

/-- The fields of a `GetBlockInfoRequest` message. -/
structure GetBlockInfoRequest where
  sequence_id : Int
  block_id : Int
deriving DecidableEq, Repr

/-- The fields of a `GetBlockInfoResponse` message. -/
structure GetBlockInfoResponse where
  sequence_id : Option Int
  status : Option Int
  block_size : Option Int
  timestamp : List Int
deriving DecidableEq, Repr

/-- The fields of a `ReplicaInfo` message: a block to pull and the chunkservers that hold
it. -/
structure ReplicaInfo where
  block_id : Int
  chunkserver_address : List String
deriving DecidableEq, Repr

/-- The fields of a `ReportBlockInfo` message. -/
structure ReportBlockInfo where
  block_id : Int
  block_size : Int
  version : Int
deriving DecidableEq, Repr

/-- The fields of a `BlockReportRequest` message; `disk_quota` is not set by
`ReportFinish`. -/
structure BlockReportRequest where
  chunkserver_id : Int
  chunkserver_addr : String
  disk_quota : Option Int
  namespace_version : Int
  blocks : List ReportBlockInfo
  is_complete : Bool
deriving DecidableEq, Repr

/-- The fields of a `BlockReportResponse` message. -/
structure BlockReportResponse where
  status : Int
  namespace_version : Int
  chunkserver_id : Int
  obsolete_blocks : List Int
  new_replicas : List ReplicaInfo
deriving DecidableEq, Repr

/-- A closure bound with `boost::bind` and handed to a thread pool. -/
inductive Task where
  | WriteBlock (request : WriteBlockRequest)
  | LocalWriteBlock (request : WriteBlockRequest)
  | WriteNext (next_server : String) (next_request request : WriteBlockRequest)
  | ReadBlock (request : ReadBlockRequest)
  | GetBlockInfo (request : GetBlockInfoRequest)
  | SendBlockReport
  | RemoveObsoleteBlocks (blocks : List Int)
  | PullNewBlocks (new_replica_info : List ReplicaInfo)
deriving DecidableEq, Repr

/-- Modelled from the spec: `ThreadPool` of `common/thread_pool.h` (not part of the sources
at hand), which exposes `add_task`, `delay_task(ms, fn)` and `pending_num`: the queued
tasks and the delayed tasks with their delay in milliseconds. -/
structure ThreadPool where
  queue : List Task
  delayed : List (Int × Task)
deriving DecidableEq, Repr

/-- Modelled from the spec: `ThreadPool::AddTask` appends to the queue. -/
def ThreadPool.AddTask (p : ThreadPool) (t : Task) : ThreadPool :=
  { p with queue := p.queue ++ [t] }

/-- Modelled from the spec: `ThreadPool::DelayTask(ms, fn)` records a delayed task. -/
def ThreadPool.DelayTask (p : ThreadPool) (ms : Int) (t : Task) : ThreadPool :=
  { p with delayed := p.delayed ++ [(ms, t)] }

/-- Modelled from the spec: `ThreadPool::PendingNum`, the pending queue length. -/
def ThreadPool.PendingNum (p : ThreadPool) : Int := p.queue.length

/-- What the handlers do outside the process, in program order. -/
inductive Event where
  | AsyncWriteBlock (next_server : String) (next_request : WriteBlockRequest)
  | BlockWrite (block_id packet_seq offset : Int) (len : Nat)
  | BlockRead (block_id offset read_len : Int)
  | ReportFinish (block_id : Int)
  | BlockReport (request : BlockReportRequest)
  | PullRead (chunkserver : String) (request : ReadBlockRequest)
  | PullBlockReport (chunkserver_id : Int) (blocks : List Int)
deriving DecidableEq, Repr

/-- State of `class ChunkServerImpl`, the gflags it reads and the global counters it
updates. `last_report_blockid` is the static local of `SendBlockReport`, which starts
at -1. -/
structure ChunkServerImpl where
  chunkserver_id : Int
  block_manager : BlockManager
  work_thread_pool : ThreadPool
  read_thread_pool : ThreadPool
  write_thread_pool : ThreadPool
  FLAGS_chunkserver_max_pending_buffers : Int
  g_block_buffers : Int
  g_refuse_ops : Int
  g_read_ops : Int
  g_write_ops : Int
  g_rpc_count : Int
  g_rpc_delay : Int
  g_rpc_delay_all : Int
  events : List Event
  data_server_addr : String := ""
  last_report_blockid : Int := -1
deriving DecidableEq, Repr

/-- One RPC being served: the response message under construction and how often the
completion closure `done` has been run. -/
structure Call (ρ : Type) where
  response : ρ
  done : Nat
deriving DecidableEq, Repr

/-- How a call of a handler ends: it returns its result, or an exception leaves it with
the chunkserver in the state given. -/
inductive Ended (α : Type) where
  | returned (result : α)
  | threw (state : ChunkServerImpl)
deriving DecidableEq, Repr

/-! ## Formatting and parsing of block keys -/

/-- The ASCII digit of a value below ten. -/
def digitChar (d : Nat) : Char := Char.ofNat (48 + d)

/-- Decimal digits of `n`, most significant first; `fuel` bounds the number of digits. -/
def natDigits : Nat → Nat → List Char
  | 0, _ => []
  | fuel + 1, n =>
    if n < 10 then [digitChar n] else natDigits fuel (n / 10) ++ [digitChar (n % 10)]

/-- What `%ld` prints for a 64-bit value: a minus sign for a negative value and the
decimal digits of its magnitude (at most nineteen). -/
def formatLong (v : Int) : List Char :=
  if v < 0 then '-' :: natDigits 19 v.natAbs else natDigits 19 v.natAbs

/-- Right-justifies `s` in a field of width `w`, padding with spaces; a longer `s` is kept
whole. -/
def padLeft (w : Nat) (s : List Char) : List Char :=
  List.replicate (w - s.length) ' ' ++ s

/-- `snprintf(buf, size, "%13ld", v)` read back as a C string: the formatted text cut to
the `size - 1` characters the buffer has room for. -/
def snprintf13ld (size : Nat) (v : Int) : List Char :=
  (padLeft 13 (formatLong v)).take (size - 1)

/-- White space skipped by a `scanf` conversion. -/
def isSpaceChar (c : Char) : Bool :=
  c.toNat = 32 || (9 ≤ c.toNat && c.toNat ≤ 13)

/-- Value of the longest prefix of decimal digits, continuing from `acc`. -/
def scanDigits : List Char → Nat → Nat
  | [], acc => acc
  | c :: cs, acc => if c.isDigit then scanDigits cs (acc * 10 + (c.toNat - 48)) else acc

/-- `sscanf(s, "%ld", &x)`: skips white space, reads an optional sign and at least one
digit; `none` when it does not return 1. A value outside the range of `long` is not
clamped (the keys of interest hold 64-bit values). -/
def sscanfLd (s : List Char) : Option Int :=
  match s.dropWhile isSpaceChar with
  | [] => none
  | c :: cs =>
    if c = '-' then
      match cs with
      | [] => none
      | d :: _ => if d.isDigit then some (-(scanDigits cs 0 : Int)) else none
    else if c = '+' then
      match cs with
      | [] => none
      | d :: _ => if d.isDigit then some (scanDigits cs 0 : Int) else none
    else if c.isDigit then some (scanDigits (c :: cs) 0 : Int) else none

/-! ## Ordered maps: `std::map` and the leveldb table -/

section OrderedMap

variable {κ β : Type} [LT κ] [DecidableRel (α := κ) (· < ·)] [DecidableEq κ]

/-- Stores `v` under `k` in a list kept in ascending key order, replacing a row with the
same key. -/
def kvPut (k : κ) (v : β) : List (κ × β) → List (κ × β)
  | [] => [(k, v)]
  | p :: rest =>
    if k < p.1 then (k, v) :: p :: rest
    else if k = p.1 then (k, v) :: rest
    else p :: kvPut k v rest

omit [LT κ] [DecidableRel (α := κ) (· < ·)] in
/-- Removes the row stored under `k`, if any. -/
def kvErase (k : κ) : List (κ × β) → List (κ × β)
  | [] => []
  | p :: rest => if p.1 = k then kvErase k rest else p :: kvErase k rest

omit [LT κ] [DecidableRel (α := κ) (· < ·)] in
/-- The value stored under `k`, if any. -/
def kvFind (k : κ) : List (κ × β) → Option β
  | [] => none
  | p :: rest => if p.1 = k then some p.2 else kvFind k rest

omit [DecidableEq κ] in
/-- The rows an iterator yields after `Seek(k)`: those whose key is not below `k`, in key
order. -/
def kvSeek (k : κ) : List (κ × β) → List (κ × β)
  | [] => []
  | p :: rest => if p.1 < k then kvSeek k rest else p :: kvSeek k rest

end OrderedMap

/-! ## Block objects -/

/-- Zero-padded decimal digits of `n` in a field of `w` characters (`n < 10 ^ w`). -/
def zeroPad : Nat → Nat → List Char
  | 0, _ => []
  | w + 1, n => zeroPad w (n / 10) ++ [digitChar (n % 10)]

/-- Modelled from the spec: the data file of a block, `NNN/<block_id>` under its store
path, the three-digit directory derived from `block_id mod 1000` (`Block::GetFilePath` is
not part of the sources at hand). -/
def BuildFilePath (store_path : String) (block_id : Int) : String :=
  store_path ++ String.mk (zeroPad 3 (block_id % 1000).toNat) ++ "/"
    ++ String.mk (formatLong block_id)

/-- Modelled from the spec: the constructor `Block(meta, store_path, ...)`: a handle with no
reference yet, neither deleted nor sealed. -/
def Block.create (m : BlockMeta) (store_path : String) : Block :=
  { meta := m, file_path := BuildFilePath store_path m.block_id, refs := 0,
    deleted := false, finished := false, disk_used := 0 }

/-- The object at an address. -/
def heapGet (heap : List (Nat × Block)) (addr : Nat) : Option Block :=
  kvFind addr heap

/-- Overwrites the object at an address. -/
def heapSet (heap : List (Nat × Block)) (addr : Nat) (b : Block) : List (Nat × Block) :=
  heap.map (fun p => if p.1 = addr then (addr, b) else p)

/-- Frees the object at an address (`delete block`). -/
def heapFree (heap : List (Nat × Block)) (addr : Nat) : List (Nat × Block) :=
  kvErase addr heap

namespace BlockManager

/-- The expression `new Block(meta, store_path, _thread_pool, _file_cache)`. -/
def NewBlock (bm : BlockManager) (m : BlockMeta) (store_path : String) :
    Nat × BlockManager :=
  (bm.next_addr,
    { bm with heap := (bm.next_addr, Block.create m store_path) :: bm.heap,
              next_addr := bm.next_addr + 1 })

/-- Modelled from the spec: `Block::AddRef` adds one reference. -/
def AddRef (bm : BlockManager) (addr : Nat) : BlockManager :=
  match heapGet bm.heap addr with
  | none => bm
  | some b => { bm with heap := heapSet bm.heap addr { b with refs := b.refs + 1 } }

/-- Modelled from the spec: `Block::DecRef` drops one reference; "a handle is freed when
its count hits zero". -/
def DecRef (bm : BlockManager) (addr : Nat) : BlockManager :=
  match heapGet bm.heap addr with
  | none => bm
  | some b =>
    if b.refs - 1 = 0 then { bm with heap := heapFree bm.heap addr }
    else { bm with heap := heapSet bm.heap addr { b with refs := b.refs - 1 } }

/-- Modelled from the spec: `Block::SetDeleted` flags the handle deleted and tells whether
this call did it ("if already deleted elsewhere, return false"). -/
def SetDeleted (bm : BlockManager) (addr : Nat) : Bool × BlockManager :=
  match heapGet bm.heap addr with
  | none => (false, bm)
  | some b =>
    if b.deleted then (false, bm)
    else (true, { bm with heap := heapSet bm.heap addr { b with deleted := true } })

/-- The reference count of the object at `addr`, if it is allocated. -/
def refs (bm : BlockManager) (addr : Nat) : Option Int :=
  (heapGet bm.heap addr).map Block.refs

/-- Index `block_id % _store_path_list.size()`: the signed id is converted to the unsigned
type of `size()` before the remainder is taken. -/
def GetStorePathIndex (bm : BlockManager) (block_id : Int) : Nat :=
  (block_id % 2 ^ 64).toNat % bm.store_path_list.length

/-- `BlockManager::GetStorePath`. -/
def GetStorePath (bm : BlockManager) (block_id : Int) : String :=
  bm.store_path_list.getD (bm.GetStorePathIndex block_id) ""

/-- The reserved key of the namespace version: eight NUL bytes and `version`. -/
def version_key : DbKey := List.replicate 8 (Char.ofNat 0) ++ "version".toList

/-- `BlockManager::BlockId2Str`: `%13ld` into a buffer of 64 bytes. -/
def BlockId2Str (block_id : Int) : DbKey := snprintf13ld 64 block_id

/-- `BlockManager::SyncBlockMeta`; `put_ok` tells whether the leveldb `Put` succeeds (a
failed `Put` leaves the table as it was). The elapsed time it reports is not modelled. -/
def SyncBlockMeta (bm : BlockManager) (m : BlockMeta) (put_ok : Bool) :
    Bool × BlockManager :=
  let idstr := BlockId2Str m.block_id
  if put_ok then (true, { bm with metadb := kvPut idstr (DbValue.meta m) bm.metadb })
  else (false, bm)

/-- `BlockManager::SetNameSpaceVersion`; `put_ok` tells whether the leveldb `Put`
succeeds. -/
def SetNameSpaceVersion (bm : BlockManager) (version : Int) (put_ok : Bool) :
    Bool × BlockManager :=
  if put_ok then
    (true, { bm with metadb := kvPut version_key (DbValue.version version) bm.metadb,
                     namespace_version := version })
  else (false, bm)

/-- `BlockManager::FindBlock`; `put_ok` is the outcome of the leveldb `Put` made when the
block is created. Returns the handle, if any. -/
def FindBlock (bm : BlockManager) (block_id : Int) (create_if_missing : Bool)
    (put_ok : Bool) : Option Nat × BlockManager :=
  let bm := { bm with g_find_ops := bm.g_find_ops + 1 }
  let r : Option Nat × BlockManager :=
    match kvFind block_id bm.block_map with
    | some addr => (some addr, bm)
    | none =>
      if create_if_missing then
        let m : BlockMeta := { BlockMeta.init with block_id := block_id, version := 0 }
        let (addr, bm) := bm.NewBlock m (bm.GetStorePath block_id)
        -- for block_map
        let bm := bm.AddRef addr
        let bm := { bm with block_map := kvPut block_id addr bm.block_map }
        let (ok, bm) := bm.SyncBlockMeta m put_ok
        if ok then (some addr, bm)
        else
          let bm := { bm with heap := heapFree bm.heap addr }
          (none, { bm with block_map := kvErase block_id bm.block_map })
      else (none, bm)
  -- for user
  match r with
  | (some addr, bm) => (some addr, bm.AddRef addr)
  | (none, bm) => (none, bm)

/-- The loop of `BlockManager::LoadStorage` over the rows that follow the version key.
`none` is a failed `assert`; otherwise the flag tells whether every key was parsed, and
the count is `block_num`. -/
def LoadStorageLoop : List (DbKey × DbValue) → BlockManager → Int →
    Option (Bool × BlockManager × Int)
  | [], bm, block_num => some (true, bm, block_num)
  | (key, value) :: rest, bm, block_num =>
    match sscanfLd key with
    | none => some (false, bm, block_num)
    | some block_id =>
      match value with
      | DbValue.version _ => none
      | DbValue.meta m =>
        if m.block_id = block_id then
          let (addr, bm) := bm.NewBlock m (bm.GetStorePath block_id)
          let bm := bm.AddRef addr
          let bm := { bm with block_map := kvPut block_id addr bm.block_map }
          LoadStorageLoop rest bm (block_num + 1)
        else none

/-- `BlockManager::LoadStorage`; `open_ok` tells whether `leveldb::DB::Open` succeeds and
`g_data_size` is the value of that global counter. `none` is a failed `assert`. -/
def LoadStorage (bm : BlockManager) (open_ok : Bool) (g_data_size : Int) :
    Option (Bool × BlockManager) :=
  if !open_ok then some (false, bm)
  else
    let bm :=
      match kvFind version_key bm.metadb with
      | some (DbValue.version v) => { bm with namespace_version := v }
      | _ => bm
    match LoadStorageLoop (kvSeek (version_key ++ [Char.ofNat 0]) bm.metadb) bm 0 with
    | none => none
    | some (false, bm, _) => some (false, bm)
    | some (true, bm, _) => some (true, { bm with disk_quota := bm.disk_quota + g_data_size })

/-- The loop of `BlockManager::ListBlocks` over the rows from the sought key on. `none`
is a failed `assert`; otherwise the return value and the metas pushed so far. -/
def ListBlocksLoop : List (DbKey × DbValue) → Int → List BlockMeta →
    Option (Bool × List BlockMeta)
  | [], _, blocks => some (true, blocks)
  | (key, value) :: rest, num, blocks =>
    match sscanfLd key with
    | none => some (false, blocks)
    | some block_id =>
      match value with
      | DbValue.version _ => none
      | DbValue.meta m =>
        if m.block_id = block_id then
          if num - 1 ≤ 0 then some (true, blocks ++ [m])
          else ListBlocksLoop rest (num - 1) (blocks ++ [m])
        else none

/-- `BlockManager::ListBlocks(&blocks, offset, num)` called with an empty vector. -/
def ListBlocks (bm : BlockManager) (offset : Int) (num : Int) :
    Option (Bool × List BlockMeta) :=
  ListBlocksLoop (kvSeek (BlockId2Str offset) bm.metadb) num []

/-- Modelled from the spec: `Block::Close` "flushes and atomically seals"; `close_ok` is its
return value, and a successful close marks the handle sealed. -/
def BlockClose (bm : BlockManager) (addr : Nat) (close_ok : Bool) : Bool × BlockManager :=
  match heapGet bm.heap addr with
  | none => (false, bm)
  | some b =>
    if close_ok then (true, { bm with heap := heapSet bm.heap addr { b with finished := true } })
    else (false, bm)

/-- `BlockManager::CloseBlock`; `close_ok` is what `Block::Close` returns and `put_ok` the
outcome of the leveldb `Put`. -/
def CloseBlock (bm : BlockManager) (addr : Nat) (close_ok put_ok : Bool) :
    Bool × BlockManager :=
  match bm.BlockClose addr close_ok with
  | (false, bm) => (false, bm)
  | (true, bm) =>
    match heapGet bm.heap addr with
    | none => (false, bm)
    | some b => bm.SyncBlockMeta b.meta put_ok

/-- The call `remove(file_path)`: it fails with `ENOENT` (2) when the file does not exist,
fails with the error `fail` when one is given, and otherwise unlinks the file. Returns
the return value, `errno` and the files left. -/
def removeFile (files : List String) (file_path : String) (fail : Option Int) :
    Int × Int × List String :=
  if file_path ∈ files then
    match fail with
    | some e => (-1, e, files)
    | none => (0, 0, files.filter (fun f => decide (f ≠ file_path)))
  else (-1, 2, files)

/-- `BlockManager::RemoveBlock`; `unlink_fail` is the error `remove(3)` fails with, if it
does, and `delete_ok` tells whether the leveldb `Delete` succeeds (a failed `Delete` leaves
the table as it was). The file cache and the log lines are not modelled: the outcome of
`remove` only selects which line is logged. -/
def RemoveBlock (bm : BlockManager) (block_id : Int) (unlink_fail : Option Int)
    (delete_ok : Bool) : Bool × BlockManager :=
  match kvFind block_id bm.block_map with
  | none => (false, bm)
  | some addr =>
    match bm.SetDeleted addr with
    | (false, bm) => (false, bm)
    | (true, bm) =>
      let bm := bm.AddRef addr
      let file_path := ((heapGet bm.heap addr).map Block.file_path).getD ""
      let (_, _, files) := removeFile bm.files file_path unlink_fail
      let bm := { bm with files := files }
      let idstr := snprintf13ld 14 block_id
      if delete_ok then
        let bm := { bm with metadb := kvErase idstr bm.metadb }
        let bm := { bm with block_map := kvErase block_id bm.block_map }
        let bm := bm.DecRef addr
        (true, bm.DecRef addr)
      else
        (false, bm.DecRef addr)

/-- Modelled from the spec: `Block::SetVersion` records the version in the descriptor
(`Block::SetSliceNum`, called with it, only concerns the sliding window, whose state shows
through `Block::IsComplete`). -/
def BlockSetVersion (bm : BlockManager) (addr : Nat) (version : Int) : BlockManager :=
  match heapGet bm.heap addr with
  | none => bm
  | some b =>
    { bm with heap := heapSet bm.heap addr { b with meta := { b.meta with version := version } } }

/-- Modelled from the spec: `Block::GetVersion`, the version accessor of a handle. -/
def BlockGetVersion (bm : BlockManager) (addr : Nat) : Int :=
  ((heapGet bm.heap addr).map (fun b => b.meta.version)).getD 0

end BlockManager

/-! ## The RPC handlers of `ChunkServerImpl` -/

/-- What the calls that `LocalWriteBlock` makes into leveldb, `Block` and the clock return:
the leveldb `Put` of `FindBlock`, `Block::Write`, `Block::IsComplete`, `Block::Close`, the
leveldb `Put` of `CloseBlock`, and the clock at the end. -/
structure LocalWriteEnv where
  put_ok : Bool
  write_ok : Bool
  is_complete : Bool
  close_ok : Bool
  close_put_ok : Bool
  time_end : Int
deriving DecidableEq, Repr

/-- What `Block::Read(buf, read_len, offset)` does: the length it returns and the content
of the buffer afterwards. -/
structure ReadEnv where
  now : Int
  len : Int
  buf : List UInt8
deriving DecidableEq, Repr

namespace ChunkServerImpl

/-- `ChunkServerImpl::WriteNext`: issues the asynchronous `WriteBlock` request to the next
chunkserver; its completion runs `WriteNextCallback`. -/
def WriteNext (cs : ChunkServerImpl) (next_server : String)
    (next_request _request : WriteBlockRequest) : ChunkServerImpl :=
  { cs with events := cs.events ++ [Event.AsyncWriteBlock next_server next_request] }

/-- `ChunkServerImpl::WriteBlock`; `now` is the clock. -/
def WriteBlock (cs : ChunkServerImpl) (now : Int) (request : WriteBlockRequest)
    (call : Call WriteBlockResponse) : ChunkServerImpl × Call WriteBlockResponse :=
  if call.response.sequence_id.isNone then
    let response := { call.response with sequence_id := some request.sequence_id }
    -- Flow control
    if cs.g_block_buffers > cs.FLAGS_chunkserver_max_pending_buffers
        ∨ cs.work_thread_pool.PendingNum > cs.FLAGS_chunkserver_max_pending_buffers then
      let response := { response with status := some 500 }
      ({ cs with g_refuse_ops := cs.g_refuse_ops + 1 },
        { response := response, done := call.done + 1 })
    else
      let response := { response with timestamp := response.timestamp ++ [now] }
      ({ cs with work_thread_pool := cs.work_thread_pool.AddTask (Task.WriteBlock request) },
        { call with response := response })
  else
    let response := { call.response with timestamp := call.response.timestamp ++ [now] }
    if request.chunkservers.length ≠ 0 then
      -- New request for next chunkserver
      let next_request := { request with chunkservers := request.chunkservers.drop 1 }
      let next_server := request.chunkservers.headD ""
      (cs.WriteNext next_server next_request request, { call with response := response })
    else
      ({ cs with work_thread_pool :=
            cs.work_thread_pool.AddTask (Task.LocalWriteBlock request) },
        { call with response := response })

/-- `ChunkServerImpl::WriteNextCallback`. `SEND_BUFFER_FULL` is the value of
`sofa::pbrpc::RPC_ERROR_SEND_BUFFER_FULL`; `next_response` is the child's response, whose
`status()` reads 0 when the field is not set. -/
def WriteNextCallback (cs : ChunkServerImpl) (SEND_BUFFER_FULL : Int)
    (next_request : WriteBlockRequest) (next_response : WriteBlockResponse)
    (failed : Bool) (error : Int) (next_server : String) (request : WriteBlockRequest)
    (call : Call WriteBlockResponse) : ChunkServerImpl × Call WriteBlockResponse :=
  -- If RPC_ERROR_SEND_BUFFER_FULL retry send.
  if failed ∧ error = SEND_BUFFER_FULL then
    ({ cs with work_thread_pool :=
          cs.work_thread_pool.DelayTask 10 (Task.WriteNext next_server next_request request) },
      call)
  else if failed ∨ next_response.status.getD 0 ≠ 0 then
    let status :=
      if next_response.status.getD 0 = 0 then error else next_response.status.getD 0
    (cs, { response := { call.response with status := some status }, done := call.done + 1 })
  else
    ({ cs with work_thread_pool :=
          cs.work_thread_pool.AddTask (Task.LocalWriteBlock request) },
      call)

/-- `ChunkServerImpl::ReportFinish`: the one-block report sent to the nameserver (its
outcome is ignored by the caller). -/
def ReportFinish (cs : ChunkServerImpl) (block_id : Int) : ChunkServerImpl :=
  { cs with events := cs.events ++ [Event.ReportFinish block_id] }

/-- `ChunkServerImpl::LocalWriteBlock`. The time stamps it takes only feed the log line and
the two delay counters. -/
def LocalWriteBlock (cs : ChunkServerImpl) (env : LocalWriteEnv) (request : WriteBlockRequest)
    (call : Call WriteBlockResponse) : ChunkServerImpl × Call WriteBlockResponse :=
  let block_id := request.block_id
  let packet_seq := request.packet_seq
  let response :=
    if call.response.status.isNone then { call.response with status := some 0 }
    else call.response
  -- search
  match cs.block_manager.FindBlock block_id true env.put_ok with
  | (none, bm) =>
    ({ cs with block_manager := bm },
      { response := { response with status := some 8404 }, done := call.done + 1 })
  | (some block, bm) =>
    let cs := { cs with
      block_manager := bm,
      events := cs.events ++
        [Event.BlockWrite block_id packet_seq request.offset request.databuf.length] }
    if !env.write_ok then
      ({ cs with block_manager := cs.block_manager.DecRef block },
        { response := { response with status := some 812 }, done := call.done + 1 })
    else
      let cs :=
        if request.is_last then
          { cs with block_manager := cs.block_manager.BlockSetVersion block packet_seq }
        else cs
      -- If complete, close block, and report only once(close block return true).
      let cs :=
        if env.is_complete then
          match cs.block_manager.CloseBlock block env.close_ok env.close_put_ok with
          | (true, bm) => ({ cs with block_manager := bm }).ReportFinish block_id
          | (false, bm) => { cs with block_manager := bm }
        else cs
      let cs := { cs with
        g_rpc_delay := cs.g_rpc_delay + (response.timestamp.getD 0 0 - request.sequence_id),
        g_rpc_delay_all := cs.g_rpc_delay_all + (env.time_end - request.sequence_id),
        g_rpc_count := cs.g_rpc_count + 1,
        g_write_ops := cs.g_write_ops + 1 }
      ({ cs with block_manager := cs.block_manager.DecRef block },
        { response := response, done := call.done + 1 })

/-- `ChunkServerImpl::ReadBlock`. The expression `new char[read_len]` throws when
`read_len` is negative, which leaves the handler before `Block::Read` is called; the
allocation of a length that is not negative is taken to succeed. -/
def ReadBlock (cs : ChunkServerImpl) (env : ReadEnv) (request : ReadBlockRequest)
    (call : Call ReadBlockResponse) : Ended (ChunkServerImpl × Call ReadBlockResponse) :=
  if call.response.sequence_id.isNone then
    let response := { call.response with
      sequence_id := some request.sequence_id,
      timestamp := call.response.timestamp ++ [env.now] }
    Ended.returned
      ({ cs with read_thread_pool := cs.read_thread_pool.AddTask (Task.ReadBlock request) },
        { call with response := response })
  else
    let block_id := request.block_id
    match cs.block_manager.FindBlock block_id false false with
    | (none, bm) =>
      Ended.returned
        ({ cs with block_manager := bm },
          { response := { call.response with status := some 404 }, done := call.done + 1 })
    | (some block, bm) =>
      if request.read_len < 0 then
        -- char* buf = new char[read_len];
        Ended.threw { cs with block_manager := bm }
      else
        let cs := { cs with
          block_manager := bm,
          events := cs.events ++ [Event.BlockRead block_id request.offset request.read_len] }
        let len := env.len
        if len ≥ 0 then
          let response := { call.response with databuf := some (env.buf.take len.toNat) }
          let response :=
            if request.require_block_version then
              { response with block_version := some (cs.block_manager.BlockGetVersion block) }
            else response
          let cs := { cs with g_read_ops := cs.g_read_ops + 1 }
          Ended.returned
            ({ cs with block_manager := cs.block_manager.DecRef block },
              { response := { response with status := some 0 }, done := call.done + 1 })
        else
          Ended.returned
            ({ cs with block_manager := cs.block_manager.DecRef block },
              { response := { call.response with status := some 882 },
                done := call.done + 1 })

end ChunkServerImpl

/-! ## Sample states -/

/-- A manager with three store paths and nothing stored. -/
def emptyManager : BlockManager :=
  { store_path_list := ["/a/", "/b/", "/c/"], block_map := [], heap := [], next_addr := 0,
    metadb := [], files := [], namespace_version := 0, disk_quota := 0, g_find_ops := 0 }

/-- A manager holding block 5: one registry entry with the registry's reference, its
metadata row and its data file. -/
def sampleManager : BlockManager :=
  { store_path_list := ["/a/", "/b/", "/c/"],
    block_map := [(5, 0)],
    heap := [(0, { meta := { block_id := 5, block_size := 4, version := 0 },
                   file_path := "/c/005/5", refs := 1, deleted := false, finished := false,
                   disk_used := 4 })],
    next_addr := 1,
    metadb := [(BlockManager.BlockId2Str 5,
                DbValue.meta { block_id := 5, block_size := 4, version := 0 })],
    files := ["/c/005/5"], namespace_version := 7, disk_quota := 0, g_find_ops := 0 }

/-- An empty thread pool. -/
def idlePool : ThreadPool := { queue := [], delayed := [] }

/-- A chunkserver around `sampleManager` that allows two pending buffers and has three
outstanding. -/
def sampleServer : ChunkServerImpl :=
  { chunkserver_id := 3, block_manager := sampleManager, work_thread_pool := idlePool,
    read_thread_pool := idlePool, write_thread_pool := idlePool,
    FLAGS_chunkserver_max_pending_buffers := 2, g_block_buffers := 3, g_refuse_ops := 0,
    g_read_ops := 0, g_write_ops := 0, g_rpc_count := 0, g_rpc_delay := 0,
    g_rpc_delay_all := 0, events := [] }

/-- A write of four bytes to block 5, packet 0, with no downstream chain. -/
def sampleWrite : WriteBlockRequest :=
  { sequence_id := 100, block_id := 5, databuf := [65, 65, 65, 65], offset := 0,
    packet_seq := 0, is_last := false, chunkservers := [] }

/-- The same write addressed to block 6, which `sampleManager` does not hold. -/
def sampleWriteNew : WriteBlockRequest := { sampleWrite with block_id := 6 }

/-- Outcomes for a local write whose metadata `Put` fails. -/
def envPutFails : LocalWriteEnv :=
  { put_ok := false, write_ok := true, is_complete := false, close_ok := false,
    close_put_ok := false, time_end := 110 }

/-- Outcomes for a local write that `Block::Write` rejects. -/
def envWriteRejected : LocalWriteEnv :=
  { put_ok := true, write_ok := false, is_complete := false, close_ok := false,
    close_put_ok := false, time_end := 110 }

/-- Outcomes for a local write that is accepted and completes the block. -/
def envAccepted : LocalWriteEnv :=
  { put_ok := true, write_ok := true, is_complete := true, close_ok := true,
    close_put_ok := true, time_end := 110 }

/-- A write call as the RPC layer hands it over: an empty response, `done` not yet run. -/
def freshWriteCall : Call WriteBlockResponse :=
  { response := { sequence_id := none, status := none, timestamp := [] }, done := 0 }

/-- A write call after its first pass through `WriteBlock`. -/
def queuedWriteCall : Call WriteBlockResponse :=
  { response := { sequence_id := some 100, status := none, timestamp := [101, 102] },
    done := 0 }

/-- A child response carrying `status`. -/
def childResponse (status : Int) : WriteBlockResponse :=
  { sequence_id := some 100, status := some status, timestamp := [] }

/-- A read of eight bytes from block 5 asking for the version. -/
def sampleRead : ReadBlockRequest :=
  { sequence_id := 200, block_id := 5, offset := 0, read_len := 8,
    require_block_version := true }

/-- A read call after its first pass through `ReadBlock`. -/
def queuedReadCall : Call ReadBlockResponse :=
  { response := { sequence_id := some 200, status := none, databuf := none,
                  block_version := none, timestamp := [201] },
    done := 0 }

/-- The same read addressed to block 9, which `sampleManager` does not hold. -/
def sampleReadMissing : ReadBlockRequest := { sampleRead with block_id := 9 }

/-- A read that fails: `Block::Read` returns -1. -/
def sampleReadError : ReadEnv := { now := 202, len := -1, buf := [0, 0, 0, 0, 0, 0, 0, 0] }

/-- A read that returns four bytes into a buffer of eight. -/
def sampleReadEnv : ReadEnv := { now := 202, len := 4, buf := [65, 66, 67, 68, 0, 0, 0, 0] }

/-- A manager that holds blocks `10 ^ 12` and `10 ^ 13`, each created by `FindBlock` and
released by its creator. -/
def wideManager : BlockManager :=
  (((emptyManager.FindBlock (10 ^ 12) true true).2.DecRef 0).FindBlock (10 ^ 13) true
    true).2.DecRef 1

/-! ## Registry and metadata store agreement -/

/-- The rows of the metadata store that describe block `id`. -/
def metaRows (id : Int) (db : List (DbKey × DbValue)) : List (DbKey × DbValue) :=
  db.filter (fun kv =>
    match kv.2 with
    | DbValue.meta m => decide (m.block_id = id)
    | DbValue.version _ => false)

/-- Block `id` is in the registry exactly when the metadata store holds exactly one row for
it. -/
def RegistryAgrees (bm : BlockManager) (id : Int) : Prop :=
  (kvFind id bm.block_map).isSome = true ↔ (metaRows id bm.metadb).length = 1

instance (bm : BlockManager) (id : Int) : Decidable (RegistryAgrees bm id) := by
  unfold RegistryAgrees
  exact inferInstance

/-! ## Well-formed metadata stores -/

/-- The descriptor held by a row of the metadata store, if it is a block row. -/
def rowMeta (kv : DbKey × DbValue) : Option BlockMeta :=
  match kv.2 with
  | DbValue.meta m => some m
  | DbValue.version _ => none

/-- The row is what `SyncBlockMeta` writes for a block whose id is in `[0, 10 ^ 13)`: the
descriptor stored under the key of its id. -/
def isBlockRow (kv : DbKey × DbValue) : Bool :=
  match kv.2 with
  | DbValue.meta m =>
    decide (0 ≤ m.block_id ∧ m.block_id < 10 ^ 13 ∧ kv.1 = BlockManager.BlockId2Str m.block_id)
  | DbValue.version _ => false

/-- The table is in key order without repeated keys, as leveldb iterates it, and holds
only the namespace-version row and rows of blocks with ids in `[0, 10 ^ 13)`. -/
def StoreWellFormed (db : List (DbKey × DbValue)) : Prop :=
  db.Pairwise (fun x y => x.1 < y.1)
  ∧ ∀ kv ∈ db, kv.1 = BlockManager.version_key ∨ isBlockRow kv = true

instance (db : List (DbKey × DbValue)) : Decidable (StoreWellFormed db) := by
  unfold StoreWellFormed
  exact inferInstance

/-- A store with the namespace version and the rows of blocks 3, 5 and 12. -/
def sampleStore : BlockManager :=
  (((((emptyManager.SetNameSpaceVersion 7 true).2.SyncBlockMeta
    { block_id := 12, block_size := 1, version := 1 } true).2.SyncBlockMeta
    { block_id := 3, block_size := 2, version := 2 } true).2.SyncBlockMeta
    { block_id := 5, block_size := 3, version := 0 } true).2)

/-- A store with the rows of blocks `9999999999999` and `10 ^ 13`. -/
def wideStore : BlockManager :=
  ((emptyManager.SyncBlockMeta { block_id := 9999999999999, block_size := 0, version := 0 }
    true).2.SyncBlockMeta { block_id := 10 ^ 13, block_size := 0, version := 0 } true).2

/-! ## Retrying the forward to the next chunkserver -/

namespace ChunkServerImpl

/-- The work pool runs the delayed task that was queued last, when that is a bound
`WriteNext`: the task leaves the pool and `WriteNext` is called with the bound arguments. -/
def RunDelayedWriteNext (cs : ChunkServerImpl) : ChunkServerImpl :=
  match cs.work_thread_pool.delayed.getLast? with
  | some (_, Task.WriteNext next_server next_request request) =>
    ({ cs with work_thread_pool :=
        { cs.work_thread_pool with delayed := cs.work_thread_pool.delayed.dropLast } }).WriteNext
      next_server next_request request
  | _ => cs

/-- The forward to the next chunkserver fails `k` times in a row with the send-buffer-full
error: each time the RPC layer runs `WriteNextCallback` with `failed = true` and that
error, and the work pool then runs the task the callback queued. -/
def RetryRounds (SEND_BUFFER_FULL : Int) (next_request : WriteBlockRequest)
    (next_response : WriteBlockResponse) (next_server : String) (request : WriteBlockRequest) :
    Nat → ChunkServerImpl × Call WriteBlockResponse → ChunkServerImpl × Call WriteBlockResponse
  | 0, s => s
  | k + 1, s =>
    let r := s.1.WriteNextCallback SEND_BUFFER_FULL next_request next_response true
      SEND_BUFFER_FULL next_server request s.2
    RetryRounds SEND_BUFFER_FULL next_request next_response next_server request k
      (r.1.RunDelayedWriteNext, r.2)

end ChunkServerImpl

/-- A chunkserver around `sampleManager` configured with `max_pending_buffers = 0`, with no
outstanding buffer and an empty work pool. -/
def idleServer : ChunkServerImpl :=
  { sampleServer with FLAGS_chunkserver_max_pending_buffers := 0, g_block_buffers := 0 }

/-- The same chunkserver with one outstanding write buffer. -/
def loadedServer : ChunkServerImpl := { idleServer with g_block_buffers := 1 }

/-- A write of four bytes to block 5 with the chain `peerA`, `peerB`. -/
def chainWrite : WriteBlockRequest := { sampleWrite with chunkservers := ["peerA", "peerB"] }

/-- The child request made from `chainWrite`: the same write with the chain `peerB`. -/
def chainChild : WriteBlockRequest := { sampleWrite with chunkservers := ["peerB"] }

/-! ## The block report -/

/-- What the calls made by `SendBlockReport` return: the response of the nameserver
(`none` when `SendRequest` fails) and the outcome of the leveldb `Put` of
`SetNameSpaceVersion`. -/
structure BlockReportEnv where
  rpc : Option BlockReportResponse
  put_ok : Bool
deriving DecidableEq, Repr

/-- The `ReportBlockInfo` that `SendBlockReport` fills in for a listed block. -/
def ReportBlockInfo.ofMeta (m : BlockMeta) : ReportBlockInfo :=
  { block_id := m.block_id, block_size := m.block_size, version := m.version }

/-- The constant `kUnknownChunkServerId`. -/
def kUnknownChunkServerId : Int := -1

namespace ChunkServerImpl

/-- The first part of `ChunkServerImpl::SendBlockReport`: it lists at most
`blockreport_size` blocks from the cursor on (the return value of `ListBlocks` is not
looked at), fills in the request and moves the cursor. `none` is a failed `assert` in
`ListBlocks`. -/
def BuildBlockReport (cs : ChunkServerImpl) (blockreport_size : Int) :
    Option (BlockReportRequest × ChunkServerImpl) :=
  match cs.block_manager.ListBlocks (cs.last_report_blockid + 1) blockreport_size with
  | none => none
  | some (_, blocks) =>
    let blocks_num : Int := blocks.length
    let request : BlockReportRequest :=
      { chunkserver_id := cs.chunkserver_id,
        chunkserver_addr := cs.data_server_addr,
        disk_quota := some cs.block_manager.disk_quota,
        namespace_version := cs.block_manager.namespace_version,
        blocks := blocks.map ReportBlockInfo.ofMeta,
        is_complete := false }
    if blocks_num < blockreport_size then
      some ({ request with is_complete := true }, { cs with last_report_blockid := -1 })
    else
      match blocks.getLast? with
      | some last => some (request, { cs with last_report_blockid := last.block_id })
      | none => some (request, cs)

/-- The part of `ChunkServerImpl::SendBlockReport` that handles the response of the
nameserver; `put_ok` is the outcome of the leveldb `Put` of `SetNameSpaceVersion`. `none`
is `LOG(FATAL, ...)`, which ends the process. -/
def HandleBlockReportResponse (cs : ChunkServerImpl) (response : BlockReportResponse)
    (put_ok : Bool) : Option ChunkServerImpl :=
  if response.status ≠ 0 then none
  else
    let new_version := response.namespace_version
    let identity : Option ChunkServerImpl :=
      if cs.block_manager.namespace_version ≠ new_version then
        -- NameSpace change, chunkserver is empty.
        match cs.block_manager.SetNameSpaceVersion new_version put_ok with
        | (false, _) => none
        | (true, bm) =>
          some { cs with block_manager := bm, chunkserver_id := response.chunkserver_id }
      else if cs.chunkserver_id = kUnknownChunkServerId
          ∧ response.chunkserver_id ≠ kUnknownChunkServerId then
        -- Chunkserver restart
        some { cs with chunkserver_id := response.chunkserver_id }
      else if response.chunkserver_id = kUnknownChunkServerId then
        -- Namespace change, chunkserver has old blocks.
        some cs
      else if cs.chunkserver_id ≠ response.chunkserver_id then
        -- Nameserver restart, chunkserver id change.
        some { cs with chunkserver_id := response.chunkserver_id }
      else some cs
    match identity with
    | none => none
    | some cs =>
      -- deal with obsolete blocks
      let cs :=
        if response.obsolete_blocks ≠ [] then
          { cs with write_thread_pool :=
              cs.write_thread_pool.AddTask (Task.RemoveObsoleteBlocks response.obsolete_blocks) }
        else cs
      let cs :=
        if response.new_replicas ≠ [] then
          { cs with write_thread_pool :=
              cs.write_thread_pool.AddTask (Task.PullNewBlocks response.new_replicas) }
        else cs
      some cs

/-- `ChunkServerImpl::SendBlockReport`; `blockreport_size` and `blockreport_interval` are
the values of the gflags of these names. -/
def SendBlockReport (cs : ChunkServerImpl) (blockreport_size blockreport_interval : Int)
    (env : BlockReportEnv) : Option ChunkServerImpl :=
  match cs.BuildBlockReport blockreport_size with
  | none => none
  | some (request, cs) =>
    let cs := { cs with events := cs.events ++ [Event.BlockReport request] }
    let handled : Option ChunkServerImpl :=
      match env.rpc with
      | none => some cs
      | some response => cs.HandleBlockReportResponse response env.put_ok
    match handled with
    | none => none
    | some cs =>
      some { cs with work_thread_pool :=
        cs.work_thread_pool.DelayTask (blockreport_interval * 1000) Task.SendBlockReport }

/-- The requests built by `n` block-report cycles in a row while the stored blocks stay
the same. `none` is a failed `assert` in `ListBlocks`. -/
def BlockReportCycles (blockreport_size : Int) :
    Nat → ChunkServerImpl → Option (List BlockReportRequest × ChunkServerImpl)
  | 0, cs => some ([], cs)
  | n + 1, cs =>
    match cs.BuildBlockReport blockreport_size with
    | none => none
    | some (request, cs) =>
      match BlockReportCycles blockreport_size n cs with
      | none => none
      | some (requests, cs) => some (request :: requests, cs)

end ChunkServerImpl

/-- The descriptors of the stored blocks with ids from `start` on, in key order. -/
def storedFrom (bm : BlockManager) (start : Int) : List BlockMeta :=
  (kvSeek (BlockManager.BlockId2Str start) bm.metadb).filterMap rowMeta

/-- The first `n` consecutive runs of `size` elements of a list (the last ones may be
shorter or empty). -/
def runsOf {α : Type} (size : Nat) : Nat → List α → List (List α)
  | 0, _ => []
  | n + 1, l => l.take size :: runsOf size n (l.drop size)

/-- A chunkserver whose store holds the namespace version 7 and the rows of blocks 3, 5
and 12, with chunkserver id 3. -/
def reportServer : ChunkServerImpl :=
  { sampleServer with block_manager := { sampleStore with namespace_version := 7 } }

/-- A chunkserver whose store holds the rows of blocks -5 and 12. -/
def negativeServer : ChunkServerImpl :=
  { sampleServer with block_manager :=
      ((emptyManager.SyncBlockMeta { block_id := -5, block_size := 0, version := 0 }
        true).2.SyncBlockMeta { block_id := 12, block_size := 0, version := 0 } true).2 }

/-- The node of the namespace-reset scenario: namespace version 7, chunkserver id 3,
blocks 1 and 2 in the registry and in the store. -/
def resetServer : ChunkServerImpl :=
  { sampleServer with
    block_manager :=
      ((((emptyManager.SetNameSpaceVersion 7 true).2.FindBlock 1 true true).2.DecRef
        0).FindBlock 2 true true).2.DecRef 1,
    chunkserver_id := 3 }

/-- A block-report response with status 0 and nothing to delete or pull. -/
def reportResponse (namespace_version chunkserver_id : Int) : BlockReportResponse :=
  { status := 0, namespace_version := namespace_version, chunkserver_id := chunkserver_id,
    obsolete_blocks := [], new_replicas := [] }

/-! ## `GetBlockInfo`, `RemoveObsoleteBlocks` and `PullNewBlocks` -/

/-- What one turn of the `while` loop of `PullNewBlocks` gets from outside: the reply of
the peer (`none` when `SendRequest` fails), and what `Block::Write`, `Block::IsComplete`,
`Block::Close` and the leveldb `Put` of `CloseBlock` return. -/
structure PullStep where
  reply : Option ReadBlockResponse
  write_ok : Bool
  is_complete : Bool
  close_ok : Bool
  close_put_ok : Bool
deriving DecidableEq, Repr

/-- The test `!ret || response.status() != 0` on the reply of a turn. -/
def PullStep.failed (step : PullStep) : Bool :=
  match step.reply with
  | none => true
  | some response => decide (response.status.getD 0 ≠ 0)

/-- The bytes `response.databuf()` of the reply of a turn. -/
def PullStep.databuf (step : PullStep) : List UInt8 :=
  (step.reply.bind (fun r => r.databuf)).getD []

/-- The field `response.block_version()` of the reply of a turn. -/
def PullStep.block_version (step : PullStep) : Int :=
  (step.reply.bind (fun r => r.block_version)).getD 0

/-- What `PullNewBlocks` gets from outside for one block: the outcome of the leveldb `Put`
of `FindBlock`, whether `GetStub` succeeds for each address of the first search, the turns
of the loop, and the outcomes of `remove(3)` and of the leveldb `Delete` should the block be
removed again. -/
structure PullEnv where
  put_ok : Bool
  stubs : List Bool
  steps : List PullStep
  unlink_fail : Option Int
  delete_ok : Bool
deriving DecidableEq, Repr

/-- The local variables of the `while` loop of `PullNewBlocks` at the head of the loop, and
whether the loop is still running. Three fields are counters kept for the proofs: the bytes
and the chunks `Block::Write` has accepted and the empty replies received. `stub_deleted`
tells whether the stub `chunkserver` has been deleted and no new one made since. -/
structure PullState where
  seq : Int
  offset : Int
  success : Bool
  pre_index : Nat
  running : Bool
  appended_bytes : Int
  appended_chunks : Int
  empty_replies : Int
  stub_deleted : Bool
deriving DecidableEq, Repr

/-- The locals before the first turn: `seq = -1`, `offset = 0`, `success = true`,
`pre_index = init_index`, and `chunkserver` the stub that the first search made. -/
def PullState.start (init_index : Nat) : PullState :=
  { seq := -1, offset := 0, success := true, pre_index := init_index, running := true,
    appended_bytes := 0, appended_chunks := 0, empty_replies := 0, stub_deleted := false }

/-- The `ReadBlockRequest` the next turn of the loop sends: `++seq`, the current offset,
256 KiB, the version required. -/
def PullState.request (st : PullState) (block_id : Int) : ReadBlockRequest :=
  { sequence_id := st.seq + 1, block_id := block_id, offset := st.offset,
    read_len := 256 * 1024, require_block_version := true }

/-- The first `for` loop of `PullNewBlocks`: the index of the first of `n` addresses for
which `GetStub` succeeds, counted from `i`; `n` when there is none. -/
def firstStub (stubs : List Bool) (n : Nat) : Nat → Nat → Nat
  | 0, i => i
  | fuel + 1, i => if i < n then (if stubs.getD i false then i else firstStub stubs n fuel (i + 1)) else i

namespace ChunkServerImpl

/-- `ChunkServerImpl::GetBlockInfo`; `now` is the clock. -/
def GetBlockInfo (cs : ChunkServerImpl) (now : Int) (request : GetBlockInfoRequest)
    (call : Call GetBlockInfoResponse) : ChunkServerImpl × Call GetBlockInfoResponse :=
  if call.response.sequence_id.isNone then
    let response := { call.response with
      sequence_id := some request.sequence_id,
      timestamp := call.response.timestamp ++ [now] }
    ({ cs with read_thread_pool := cs.read_thread_pool.AddTask (Task.GetBlockInfo request) },
      { call with response := response })
  else
    match cs.block_manager.FindBlock request.block_id false false with
    | (none, bm) =>
      ({ cs with block_manager := bm },
        { response := { call.response with status := some 404 }, done := call.done + 1 })
    | (some block, bm) =>
      let block_size := ((heapGet bm.heap block).map (fun b => b.meta.block_size)).getD 0
      let response := { call.response with block_size := some block_size, status := some 0 }
      ({ cs with block_manager := bm.DecRef block }, { response := response, done := call.done + 1 })

/-- `ChunkServerImpl::RemoveObsoleteBlocks`; for each block, the outcomes of `remove(3)` and
of the leveldb `Delete` (a block without outcomes is taken to be removed without error).
The results of `RemoveBlock` are only logged. -/
def RemoveObsoleteBlocks (cs : ChunkServerImpl) :
    List Int → List (Option Int × Bool) → ChunkServerImpl
  | [], _ => cs
  | block_id :: blocks, outcomes =>
    let outcome := outcomes.headD (none, true)
    RemoveObsoleteBlocks
      { cs with block_manager := (cs.block_manager.RemoveBlock block_id outcome.1 outcome.2).2 }
      blocks outcomes.tail

/-- The end of a turn of the `while (1)` loop of `PullNewBlocks`: the test
`block->IsComplete() && _block_manager->CloseBlock(block)`, which leaves the loop, and
otherwise `offset += len`. -/
def PullTurnEnd (block : Nat) (step : PullStep) (len : Int)
    (s : ChunkServerImpl × PullState) : ChunkServerImpl × PullState :=
  if step.is_complete then
    match s.1.block_manager.CloseBlock block step.close_ok step.close_put_ok with
    | (true, bm) => ({ s.1 with block_manager := bm }, { s.2 with running := false })
    | (false, bm) => ({ s.1 with block_manager := bm }, { s.2 with offset := s.2.offset + len })
  else (s.1, { s.2 with offset := s.2.offset + len })

/-- One turn of the `while (1)` loop of `PullNewBlocks` for the block `block_id` with the
handle `block`, pulled from the chunkservers `addrs`, of which `init_index` was chosen
first. The request goes to the address at `pre_index`. After a failed request the stub
`chunkserver` is deleted; when the loop goes on, `GetStub` makes the stub of the next
chunkserver (the code does not test its outcome, and a stub that could not be made shows
as the failure of the next request); when the loop is left there, the stub stays deleted. A reply is shorter than 2 ^ 31 bytes, the limit of a protobuf
message, so its length fits the `int32_t len`. -/
def PullIter (block_id : Int) (block : Nat) (addrs : List String) (init_index : Nat)
    (step : PullStep) (s : ChunkServerImpl × PullState) : ChunkServerImpl × PullState :=
  let cs := s.1
  let st := s.2
  let request := st.request block_id
  let seq := st.seq + 1
  let cs := { cs with events := cs.events ++ [Event.PullRead (addrs.getD st.pre_index "") request] }
  if step.failed then
    -- try another chunkserver, reset seq
    let seq := seq - 1
    -- delete chunkserver;
    let pre_index := (st.pre_index + 1) % addrs.length
    if pre_index = init_index then
      (cs, { st with seq := seq, pre_index := pre_index, success := false, running := false,
                     stub_deleted := true })
    else
      -- GetStub makes the stub of the next chunkserver
      (cs, { st with seq := seq, pre_index := pre_index, stub_deleted := false })
  else
    let databuf := step.databuf
    let len : Int := databuf.length
    if len ≠ 0 then
      let cs := { cs with events := cs.events
        ++ [Event.BlockWrite block_id seq st.offset databuf.length] }
      if !step.write_ok then
        (cs, { st with seq := seq, success := false, running := false })
      else
        PullTurnEnd block step len
          (cs, { st with seq := seq, appended_bytes := st.appended_bytes + len,
                         appended_chunks := st.appended_chunks + 1 })
    else
      let cs := { cs with
        block_manager := cs.block_manager.BlockSetVersion block step.block_version }
      PullTurnEnd block step len
        (cs, { st with seq := seq, empty_replies := st.empty_replies + 1 })

/-- The `while (1)` loop of `PullNewBlocks` over the turns given; it stops at the first
`break`, or with `running` still set when the turns run out before a `break`. -/
def PullLoop (block_id : Int) (block : Nat) (addrs : List String) (init_index : Nat) :
    List PullStep → ChunkServerImpl × PullState → ChunkServerImpl × PullState
  | [], s => s
  | step :: steps, s =>
    if s.2.running then
      PullLoop block_id block addrs init_index steps
        (PullIter block_id block addrs init_index step s)
    else s

/-- The body of the `for` loop of `PullNewBlocks` for one replica; `reported` are the
blocks added to the pull report so far. `none` when the function does not return: the
turns given do not take the `while` loop to a `break`, or the loop is left after a failed
request with the stub deleted, and the `delete chunkserver` that follows the loop deletes it
a second time, which is undefined behaviour. The log lines are not modelled. -/
def PullOneBlock (cs : ChunkServerImpl) (info : ReplicaInfo) (env : PullEnv)
    (reported : List Int) : Option (ChunkServerImpl × List Int) :=
  let block_id := info.block_id
  match cs.block_manager.FindBlock block_id true env.put_ok with
  | (none, bm) => some ({ cs with block_manager := bm }, reported)
  | (some block, bm) =>
    let cs := { cs with block_manager := bm }
    let n := info.chunkserver_address.length
    let init_index := firstStub env.stubs n n 0
    if init_index = n then
      -- remove this block
      let bm := cs.block_manager.DecRef block
      let bm := (bm.RemoveBlock block_id env.unlink_fail env.delete_ok).2
      some ({ cs with block_manager := bm }, reported ++ [block_id])
    else
      let s := PullLoop block_id block info.chunkserver_address init_index env.steps
        (cs, PullState.start init_index)
      if s.2.running then none
      else if s.2.stub_deleted then
        -- delete chunkserver; on the stub that the last turn deleted
        none
      else
        let bm := s.1.block_manager.DecRef block
        let bm :=
          if !s.2.success then (bm.RemoveBlock block_id env.unlink_fail env.delete_ok).2
          else bm
        some ({ s.1 with block_manager := bm }, reported ++ [block_id])

/-- The `for` loop of `PullNewBlocks` over the replicas, with the outcomes for each. -/
def PullBlocks : List ReplicaInfo → List PullEnv → ChunkServerImpl × List Int →
    Option (ChunkServerImpl × List Int)
  | [], _, s => some s
  | _ :: _, [], _ => none
  | info :: infos, env :: envs, s =>
    match PullOneBlock s.1 info env s.2 with
    | none => none
    | some s => PullBlocks infos envs s

/-- `ChunkServerImpl::PullNewBlocks`; `envs` holds the outcomes for each replica. The
outcome of the final `PullBlockReport` request is only logged. `none` when the function
does not return, see `PullOneBlock`. -/
def PullNewBlocks (cs : ChunkServerImpl) (new_replica_info : List ReplicaInfo)
    (envs : List PullEnv) : Option ChunkServerImpl :=
  match PullBlocks new_replica_info envs (cs, []) with
  | none => none
  | some (cs1, reported) =>
    some { cs1 with events := cs1.events ++ [Event.PullBlockReport cs.chunkserver_id reported] }

end ChunkServerImpl
/-! ## Reference counts of the registry and sealed blocks -/

/-- The registry is sound and its reference counts are balanced: every block of the
registry is allocated at an address handed out before, no two ids share an object, and the
reference count of each object is 1, the registry's own reference, or 2 for the one object
of which a caller holds the handle `held`. -/
def RegistryRefs (bm : BlockManager) (held : Option Nat) : Prop :=
  (∀ id addr, kvFind id bm.block_map = some addr →
      addr < bm.next_addr
      ∧ ∃ b, heapGet bm.heap addr = some b ∧ b.refs = if held = some addr then 2 else 1)
  ∧ (∀ id1 id2 addr, kvFind id1 bm.block_map = some addr →
      kvFind id2 bm.block_map = some addr → id1 = id2)

/-- Two states of the block manager with the same registry and the same objects, except
for the object at `addr`. -/
def SameElsewhere (bm bm1 : BlockManager) (addr : Nat) : Prop :=
  bm1.block_map = bm.block_map ∧ bm1.next_addr = bm.next_addr
  ∧ ∀ a, a ≠ addr → heapGet bm1.heap a = heapGet bm.heap a

/-- Whether the block is in the registry and sealed (`Block::Close` has succeeded on it). -/
def BlockManager.sealed (bm : BlockManager) (block_id : Int) : Bool :=
  match kvFind block_id bm.block_map with
  | none => false
  | some addr =>
    match heapGet bm.heap addr with
    | none => false
    | some b => b.finished

/-- How often `ReportFinish` has been sent for the block. -/
def ChunkServerImpl.reportsSent (cs : ChunkServerImpl) (block_id : Int) : Nat :=
  cs.events.count (Event.ReportFinish block_id)

/-- One local append: the outcomes of the calls it makes, the request and the call. -/
structure LocalWrite where
  env : LocalWriteEnv
  request : WriteBlockRequest
  call : Call WriteBlockResponse
deriving DecidableEq, Repr

/-- A sequence of local appends, run one after the other. -/
def ChunkServerImpl.LocalWrites (cs : ChunkServerImpl) : List LocalWrite → ChunkServerImpl
  | [] => cs
  | w :: ws => ChunkServerImpl.LocalWrites (cs.LocalWriteBlock w.env w.request w.call).1 ws

/-- Whether `LocalWriteBlock` gets a handle from `FindBlock`: the block is in the registry,
or the metadata write of its creation succeeds. -/
def ChunkServerImpl.finds (cs : ChunkServerImpl) (w : LocalWrite) : Bool :=
  (kvFind w.request.block_id cs.block_manager.block_map).isSome || w.env.put_ok

/-- Whether the append reaches `Block::Close` and `Block::Close` succeeds. -/
def ChunkServerImpl.closes (cs : ChunkServerImpl) (w : LocalWrite) : Bool :=
  cs.finds w && w.env.write_ok && w.env.is_complete && w.env.close_ok

/-- `Block::Close` succeeds at most once per block: along the sequence it succeeds only on
a block that is not sealed yet. -/
def ChunkServerImpl.closesOnce (cs : ChunkServerImpl) : List LocalWrite → Bool
  | [] => true
  | w :: ws =>
    (!(cs.closes w) || !(cs.block_manager.sealed w.request.block_id))
    && ChunkServerImpl.closesOnce (cs.LocalWriteBlock w.env w.request w.call).1 ws

/-- The operations that take a handle from `FindBlock`, and `RemoveBlock`, each with the
outcomes of the calls it makes. -/
inductive Op where
  | LocalWriteBlock (env : LocalWriteEnv) (request : WriteBlockRequest)
      (call : Call WriteBlockResponse)
  | ReadBlock (env : ReadEnv) (request : ReadBlockRequest) (call : Call ReadBlockResponse)
  | GetBlockInfo (now : Int) (request : GetBlockInfoRequest)
      (call : Call GetBlockInfoResponse)
  | PullNewBlocks (new_replica_info : List ReplicaInfo) (envs : List PullEnv)
  | RemoveBlock (block_id : Int) (unlink_fail : Option Int) (delete_ok : Bool)
  | RemoveObsoleteBlocks (blocks : List Int) (outcomes : List (Option Int × Bool))
deriving DecidableEq, Repr

/-- Runs one operation; `none` when the operation does not return: `PullNewBlocks` does
not, see `PullOneBlock`, or an exception leaves `ReadBlock`. -/
def Op.run (op : Op) (cs : ChunkServerImpl) : Option ChunkServerImpl :=
  match op with
  | Op.LocalWriteBlock env request call => some (cs.LocalWriteBlock env request call).1
  | Op.ReadBlock env request call =>
    match cs.ReadBlock env request call with
    | Ended.returned r => some r.1
    | Ended.threw _ => none
  | Op.GetBlockInfo now request call => some (cs.GetBlockInfo now request call).1
  | Op.PullNewBlocks new_replica_info envs => cs.PullNewBlocks new_replica_info envs
  | Op.RemoveBlock block_id unlink_fail delete_ok =>
    some { cs with
      block_manager := (cs.block_manager.RemoveBlock block_id unlink_fail delete_ok).2 }
  | Op.RemoveObsoleteBlocks blocks outcomes => some (cs.RemoveObsoleteBlocks blocks outcomes)

/-- A sequential run of operations. -/
def runOps : List Op → ChunkServerImpl → Option ChunkServerImpl
  | [], cs => some cs
  | op :: ops, cs =>
    match op.run cs with
    | none => none
    | some cs1 => runOps ops cs1

/-- Outcomes for a local write that completes the block and whose `Block::Close` succeeds
while the metadata write of `CloseBlock` fails. -/
def envSealedUnsynced : LocalWriteEnv :=
  { put_ok := true, write_ok := true, is_complete := true, close_ok := true,
    close_put_ok := false, time_end := 110 }

/-- Outcomes for a local write to a complete block on which `Block::Close` fails. -/
def envCloseFails : LocalWriteEnv :=
  { put_ok := true, write_ok := true, is_complete := true, close_ok := false,
    close_put_ok := true, time_end := 110 }

/-- Two appends to block 5: the first seals it and `CloseBlock` returns true, the second
finds `Block::Close` failing. -/
def sealingRun : List LocalWrite :=
  [{ env := envAccepted, request := sampleWrite, call := queuedWriteCall },
   { env := envCloseFails, request := sampleWrite, call := queuedWriteCall }]

/-- Two appends to block 5: the first seals it but the metadata write of `CloseBlock`
fails, the second finds `Block::Close` failing. -/
def unsyncedRun : List LocalWrite :=
  [{ env := envSealedUnsynced, request := sampleWrite, call := queuedWriteCall },
   { env := envCloseFails, request := sampleWrite, call := queuedWriteCall }]

/-! ## Sample pulls and runs -/

/-- A reply with status 0 that carries `data` and the block version 3. -/
def pullReply (data : List UInt8) : ReadBlockResponse :=
  { sequence_id := some 0, status := some 0, databuf := some data, block_version := some 3,
    timestamp := [] }

/-- A turn in which the peer sends `data`, the local write is accepted and the block is
not complete yet. -/
def pullData (data : List UInt8) : PullStep :=
  { reply := some (pullReply data), write_ok := true, is_complete := false, close_ok := false,
    close_put_ok := false }

/-- A turn in which the peer answers with status 1. -/
def pullRefused : PullStep :=
  { reply := some { pullReply [] with status := some 1 }, write_ok := true,
    is_complete := false, close_ok := false, close_put_ok := false }

/-- A turn in which the request is not answered. -/
def pullTimeout : PullStep :=
  { reply := none, write_ok := true, is_complete := false, close_ok := false,
    close_put_ok := false }

/-- A turn in which the peer sends an empty reply and the block is not complete. -/
def pullEmpty : PullStep := pullData []

/-- A turn in which the peer sends the empty reply that ends the block, and the block is
closed. -/
def pullEnd : PullStep :=
  { reply := some (pullReply []), write_ok := true, is_complete := true, close_ok := true,
    close_put_ok := true }

/-- The pull of block 77 from the peers A and B: A sends the first chunk and answers the
second request with status 1; B sends the second chunk and the end. -/
def failoverPull : PullEnv :=
  { put_ok := true, stubs := [true, true],
    steps := [pullData [65, 65], pullRefused, pullData [66], pullEnd],
    unlink_fail := none, delete_ok := true }

/-- A turn in which the peer sends `data` and the local write is rejected. -/
def pullRejected (data : List UInt8) : PullStep := { pullData data with write_ok := false }

/-- The pull of block 78 from the single peer A, which does not answer. -/
def failedPull : PullEnv :=
  { put_ok := true, stubs := [true], steps := [pullTimeout], unlink_fail := none,
    delete_ok := true }

/-- The pull of block 78 from the single peer A, whose first chunk the local write
rejects. -/
def rejectedPull : PullEnv :=
  { put_ok := true, stubs := [true], steps := [pullRejected [67]], unlink_fail := none,
    delete_ok := true }

/-- The pull of block 79, for which no stub can be made. -/
def unreachablePull : PullEnv :=
  { put_ok := true, stubs := [false], steps := [], unlink_fail := none, delete_ok := true }

/-- A read of block 5 with the length -1. -/
def sampleReadNegative : ReadBlockRequest := { sampleRead with read_len := -1 }

/-- A `GetBlockInfo` call after its first pass through the handler. -/
def queuedInfoCall : Call GetBlockInfoResponse :=
  { response := { sequence_id := some 100, status := none, block_size := none,
                  timestamp := [201] },
    done := 0 }

/-- A run through all the handlers and their error paths: a write that creates and seals
block 6, a rejected write to block 5, a read and a failed read of block 5, a
`GetBlockInfo`, a pull that completes block 77 after a change of peer, fails on block 78
by a rejected write and finds no peer for block 79, the removal of block 5 and a removal
of block 6 in which the leveldb `Delete` fails. -/
def sampleOps : List Op :=
  [Op.LocalWriteBlock envAccepted sampleWriteNew queuedWriteCall,
   Op.LocalWriteBlock envWriteRejected sampleWrite queuedWriteCall,
   Op.ReadBlock sampleReadEnv sampleRead queuedReadCall,
   Op.ReadBlock sampleReadError sampleRead queuedReadCall,
   Op.GetBlockInfo 203 { sequence_id := 100, block_id := 5 } queuedInfoCall,
   Op.PullNewBlocks
     [{ block_id := 77, chunkserver_address := ["A", "B"] },
      { block_id := 78, chunkserver_address := ["A"] },
      { block_id := 79, chunkserver_address := ["A"] }]
     [failoverPull, rejectedPull, unreachablePull],
   Op.RemoveBlock 5 none true,
   Op.RemoveBlock 6 none false]

/-- A turn in which the peer sends the empty reply that ends the block, `Block::Close`
succeeds, and the metadata write of `CloseBlock` fails. -/
def pullEndUnsynced : PullStep := { pullEnd with close_put_ok := false }

/-- The pull of block 77 from the peers A and B in which the metadata write of
`CloseBlock` fails: A sends one chunk, then the empty reply that ends the block, then an
empty reply again, and then a chunk that the local write rejects. -/
def unsyncedPull : PullEnv :=
  { put_ok := true, stubs := [true, true],
    steps := [pullData [65, 65], pullEndUnsynced, pullEmpty, pullRejected [66]],
    unlink_fail := none, delete_ok := true }

/-- The chunkserver `sampleServer` after `PullNewBlocks` has created block 77; its handle
is the address 1. -/
def pullingServer : ChunkServerImpl :=
  { sampleServer with block_manager := (sampleManager.FindBlock 77 true true).2 }

/-! ## Theorems -/

/-! ### Ordered maps and the heap: basic facts -/

section OrderedMapFacts

variable {κ β : Type} [LT κ] [DecidableRel (α := κ) (· < ·)] [DecidableEq κ]

theorem kvFind_kvPut_same (k : κ) (v : β) (m : List (κ × β)) :
    kvFind k (kvPut k v m) = some v := by
  induction m with
  | nil => simp [kvPut, kvFind]
  | cons p rest ih =>
    unfold kvPut
    by_cases h1 : k < p.1
    · simp [h1, kvFind]
    · by_cases h2 : k = p.1
      · rw [if_neg h1, if_pos h2]; simp [kvFind]
      · have h3 : ¬ p.1 = k := fun h => h2 h.symm
        simp [h1, h2, kvFind, h3, ih]

theorem kvFind_kvPut_other (k k0 : κ) (v : β) (m : List (κ × β)) (h : k0 ≠ k) :
    kvFind k0 (kvPut k v m) = kvFind k0 m := by
  have hk : ¬ k = k0 := fun e => h e.symm
  induction m with
  | nil => simp [kvPut, kvFind, hk]
  | cons p rest ih =>
    unfold kvPut
    by_cases h1 : k < p.1
    · simp [h1, kvFind, hk]
    · by_cases h2 : k = p.1
      · have h3 : ¬ p.1 = k0 := fun e => hk (h2.trans e)
        rw [if_neg h1, if_pos h2]
        simp [kvFind, h3, hk]
      · simp [h1, h2, kvFind, ih]

omit [LT κ] [DecidableRel (α := κ) (· < ·)] in
theorem kvErase_absent (k : κ) (m : List (κ × β)) (h : kvFind k m = none) :
    kvErase k m = m := by
  induction m with
  | nil => rfl
  | cons p rest ih =>
    by_cases hp : p.1 = k
    · simp [kvFind, hp] at h
    · simp only [kvFind, hp, if_false] at h
      simp [kvErase, hp, ih h]

theorem kvErase_kvPut_absent (k : κ) (v : β) (m : List (κ × β)) (h : kvFind k m = none) :
    kvErase k (kvPut k v m) = m := by
  induction m with
  | nil => simp [kvPut, kvErase]
  | cons p rest ih =>
    by_cases hp : p.1 = k
    · simp [kvFind, hp] at h
    · have hp2 : ¬ k = p.1 := fun e => hp e.symm
      have hrest : kvFind k rest = none := by simpa [kvFind, hp] using h
      unfold kvPut
      by_cases h1 : k < p.1
      · rw [if_pos h1]
        have := kvErase_absent k (p :: rest) h
        simp [kvErase, hp] at this ⊢
        exact this
      · rw [if_neg h1, if_neg hp2]
        simp [kvErase, hp, ih hrest]

omit [LT κ] [DecidableRel (α := κ) (· < ·)] in
theorem kvFind_kvErase_same (k : κ) (m : List (κ × β)) : kvFind k (kvErase k m) = none := by
  induction m with
  | nil => rfl
  | cons p rest ih =>
    by_cases hp : p.1 = k
    · simp [kvErase, hp, ih]
    · simp [kvErase, hp, kvFind, ih]

omit [LT κ] [DecidableRel (α := κ) (· < ·)] in
theorem kvFind_kvErase_other (k k0 : κ) (m : List (κ × β)) (h : k0 ≠ k) :
    kvFind k0 (kvErase k m) = kvFind k0 m := by
  induction m with
  | nil => rfl
  | cons p rest ih =>
    by_cases hp : p.1 = k
    · have h3 : ¬ p.1 = k0 := fun e => h (e.symm.trans hp)
      have h4 : ¬ k = k0 := fun e => h e.symm
      simp [kvErase, hp, kvFind, ih, h4]
    · simp [kvErase, hp, kvFind, ih]

end OrderedMapFacts

section Seek

variable {κ β : Type} [LT κ] [DecidableRel (α := κ) (· < ·)]

theorem kvSeek_sublist (k : κ) (m : List (κ × β)) : (kvSeek k m).Sublist m := by
  induction m with
  | nil => exact List.Sublist.slnil
  | cons p rest ih =>
    unfold kvSeek
    by_cases h : p.1 < k
    · simp only [h, if_true]; exact List.Sublist.cons _ ih
    · simp only [h, if_false]; exact List.Sublist.cons₂ _ ih

theorem kvSeek_not_lt (k : κ) (m : List (κ × β)) : ∀ kv ∈ kvSeek k m, ¬ kv.1 < k := by
  induction m with
  | nil => intro kv h; simp [kvSeek] at h
  | cons p rest ih =>
    intro kv hmem
    unfold kvSeek at hmem
    by_cases h : p.1 < k
    · simp only [h, if_true] at hmem; exact ih kv hmem
    · simp only [h, if_false, List.mem_cons] at hmem
      rcases hmem with rfl | hmem
      · exact h
      · exact ih kv hmem

end Seek

section PutSorted

variable {κ β : Type} [LinearOrder κ] [DecidableRel (α := κ) (· < ·)] [DecidableEq κ]

theorem kvPut_keys (k : κ) (v : β) (m : List (κ × β)) :
    ∀ p ∈ kvPut k v m, p = (k, v) ∨ p ∈ m := by
  induction m with
  | nil => intro p hp; simp [kvPut] at hp; exact Or.inl hp
  | cons q rest ih =>
    intro p hp
    unfold kvPut at hp
    by_cases h1 : k < q.1
    · rw [if_pos h1] at hp
      rcases List.mem_cons.1 hp with hp | hp
      · exact Or.inl hp
      · exact Or.inr hp
    · by_cases h2 : k = q.1
      · rw [if_neg h1, if_pos h2] at hp
        rcases List.mem_cons.1 hp with hp | hp
        · exact Or.inl hp
        · exact Or.inr (List.mem_cons_of_mem _ hp)
      · rw [if_neg h1, if_neg h2] at hp
        rcases List.mem_cons.1 hp with hp | hp
        · exact Or.inr (hp ▸ List.mem_cons_self _ _)
        · rcases ih p hp with h | h
          · exact Or.inl h
          · exact Or.inr (List.mem_cons_of_mem _ h)

/-- A `Put` keeps the table in strict key order. -/
theorem kvPut_sorted (k : κ) (v : β) (m : List (κ × β))
    (h : m.Pairwise (fun x y => x.1 < y.1)) :
    (kvPut k v m).Pairwise (fun x y => x.1 < y.1) := by
  induction m with
  | nil => simp [kvPut]
  | cons q rest ih =>
    rw [List.pairwise_cons] at h
    unfold kvPut
    by_cases h1 : k < q.1
    · rw [if_pos h1]
      refine List.pairwise_cons.2 ⟨?_, List.pairwise_cons.2 h⟩
      intro p hp
      rcases List.mem_cons.1 hp with rfl | hp
      · exact h1
      · exact lt_trans h1 (h.1 p hp)
    · by_cases h2 : k = q.1
      · rw [if_neg h1, if_pos h2]
        refine List.pairwise_cons.2 ⟨?_, h.2⟩
        intro p hp
        exact h2 ▸ h.1 p hp
      · rw [if_neg h1, if_neg h2]
        refine List.pairwise_cons.2 ⟨?_, ih h.2⟩
        intro p hp
        rcases kvPut_keys k v rest p hp with rfl | hp
        · exact lt_of_le_of_ne (not_lt.1 h1) (fun e => h2 e.symm)
        · exact h.1 p hp

end PutSorted

theorem heapGet_heapSet_same (heap : List (Nat × Block)) (addr : Nat) (b b0 : Block)
    (h : heapGet heap addr = some b0) : heapGet (heapSet heap addr b) addr = some b := by
  induction heap with
  | nil => simp [heapGet, kvFind] at h
  | cons p rest ih =>
    unfold heapGet heapSet at *
    by_cases hp : p.1 = addr
    · simp [kvFind, hp]
    · simp only [kvFind, hp, if_false] at h
      simp [kvFind, hp, ih h]

theorem heapGet_heapSet_other (heap : List (Nat × Block)) (addr a0 : Nat) (b : Block)
    (h : a0 ≠ addr) : heapGet (heapSet heap addr b) a0 = heapGet heap a0 := by
  induction heap with
  | nil => rfl
  | cons p rest ih =>
    unfold heapGet heapSet at *
    by_cases hp : p.1 = addr
    · have h3 : ¬ p.1 = a0 := fun e => h (e.symm.trans hp)
      have h4 : ¬ addr = a0 := fun e => h e.symm
      simp [kvFind, hp, h3, h4, ih]
    · simp [kvFind, hp, ih]

/-! ### Reference counts and the steps of `FindBlock` and `RemoveBlock` -/

theorem AddRef_block_map (bm : BlockManager) (addr : Nat) :
    (bm.AddRef addr).block_map = bm.block_map := by
  unfold BlockManager.AddRef
  cases heapGet bm.heap addr <;> rfl

theorem AddRef_metadb (bm : BlockManager) (addr : Nat) :
    (bm.AddRef addr).metadb = bm.metadb := by
  unfold BlockManager.AddRef
  cases heapGet bm.heap addr <;> rfl

theorem AddRef_files (bm : BlockManager) (addr : Nat) :
    (bm.AddRef addr).files = bm.files := by
  unfold BlockManager.AddRef
  cases heapGet bm.heap addr <;> rfl

theorem DecRef_block_map (bm : BlockManager) (addr : Nat) :
    (bm.DecRef addr).block_map = bm.block_map := by
  unfold BlockManager.DecRef
  cases heapGet bm.heap addr with
  | none => rfl
  | some b => dsimp only; split <;> rfl

theorem DecRef_metadb (bm : BlockManager) (addr : Nat) :
    (bm.DecRef addr).metadb = bm.metadb := by
  unfold BlockManager.DecRef
  cases heapGet bm.heap addr with
  | none => rfl
  | some b => dsimp only; split <;> rfl

theorem DecRef_files (bm : BlockManager) (addr : Nat) :
    (bm.DecRef addr).files = bm.files := by
  unfold BlockManager.DecRef
  cases heapGet bm.heap addr with
  | none => rfl
  | some b => dsimp only; split <;> rfl

theorem AddRef_eq (bm : BlockManager) (addr : Nat) (b : Block)
    (h : heapGet bm.heap addr = some b) :
    bm.AddRef addr = { bm with heap := heapSet bm.heap addr { b with refs := b.refs + 1 } } := by
  simp [BlockManager.AddRef, h]

theorem SetDeleted_eq (bm : BlockManager) (addr : Nat) (b : Block)
    (h : heapGet bm.heap addr = some b) :
    bm.SetDeleted addr
      = if b.deleted then (false, bm)
        else (true, { bm with heap := heapSet bm.heap addr { b with deleted := true } }) := by
  simp [BlockManager.SetDeleted, h]

/-- A lookup without creation: the handle found in the registry, with one more
reference. -/
theorem FindBlock_no_create (bm : BlockManager) (block_id : Int) (put_ok : Bool) :
    bm.FindBlock block_id false put_ok
      = match kvFind block_id bm.block_map with
        | some addr => (some addr, ({ bm with g_find_ops := bm.g_find_ops + 1 }).AddRef addr)
        | none => (none, { bm with g_find_ops := bm.g_find_ops + 1 }) := by
  unfold BlockManager.FindBlock
  cases h : kvFind block_id bm.block_map <;> simp [h]

/-- A lookup that finds the id: the registry's handle with one more reference. -/
theorem FindBlock_hit (bm : BlockManager) (block_id : Int) (create_if_missing put_ok : Bool)
    (addr : Nat) (h : kvFind block_id bm.block_map = some addr) :
    bm.FindBlock block_id create_if_missing put_ok
      = (some addr, ({ bm with g_find_ops := bm.g_find_ops + 1 }).AddRef addr) := by
  unfold BlockManager.FindBlock
  simp [h]

/-- A creating lookup of an id the registry does not hold, when the metadata write
succeeds. -/
theorem FindBlock_create_ok (bm : BlockManager) (block_id : Int)
    (h : kvFind block_id bm.block_map = none) :
    bm.FindBlock block_id true true
      = (some bm.next_addr,
          { bm with
            g_find_ops := bm.g_find_ops + 1,
            heap := (bm.next_addr,
                { Block.create { block_id := block_id, block_size := 0, version := 0 }
                    (bm.GetStorePath block_id) with refs := 2 })
              :: heapSet (heapSet bm.heap bm.next_addr
                  { Block.create { block_id := block_id, block_size := 0, version := 0 }
                      (bm.GetStorePath block_id) with refs := 1 }) bm.next_addr
                  { Block.create { block_id := block_id, block_size := 0, version := 0 }
                      (bm.GetStorePath block_id) with refs := 2 },
            next_addr := bm.next_addr + 1,
            block_map := kvPut block_id bm.next_addr bm.block_map,
            metadb := kvPut (BlockManager.BlockId2Str block_id)
              (DbValue.meta { block_id := block_id, block_size := 0, version := 0 })
              bm.metadb }) := by
  unfold BlockManager.FindBlock
  simp [h, BlockManager.NewBlock, BlockManager.AddRef, BlockManager.SyncBlockMeta, heapGet,
    heapSet, kvFind, BlockMeta.init, Block.create, BlockManager.GetStorePath,
    BlockManager.GetStorePathIndex]

/-- A creating lookup of an id the registry does not hold, when the metadata write fails:
the registry and the metadata store are rolled back. -/
theorem FindBlock_create_fail (bm : BlockManager) (block_id : Int)
    (h : kvFind block_id bm.block_map = none) :
    (bm.FindBlock block_id true false).1 = none
    ∧ (bm.FindBlock block_id true false).2.block_map = bm.block_map
    ∧ (bm.FindBlock block_id true false).2.metadb = bm.metadb := by
  unfold BlockManager.FindBlock
  simp [h, BlockManager.NewBlock, BlockManager.AddRef, BlockManager.SyncBlockMeta, heapGet,
    heapSet, kvFind, kvErase_kvPut_absent]

/-- The steps of `RemoveBlock` on a block that is in the registry and allocated. -/
theorem RemoveBlock_eq (bm : BlockManager) (block_id : Int) (unlink_fail : Option Int)
    (delete_ok : Bool) (addr : Nat) (b : Block)
    (hmap : kvFind block_id bm.block_map = some addr)
    (hheap : heapGet bm.heap addr = some b) :
    bm.RemoveBlock block_id unlink_fail delete_ok
      = if b.deleted then (false, bm)
        else if delete_ok then
          (true,
            (({ bm with
                heap := heapSet (heapSet bm.heap addr { b with deleted := true }) addr
                  { b with deleted := true, refs := b.refs + 1 },
                files := (BlockManager.removeFile bm.files b.file_path unlink_fail).2.2,
                metadb := kvErase (snprintf13ld 14 block_id) bm.metadb,
                block_map := kvErase block_id bm.block_map } : BlockManager).DecRef
              addr).DecRef addr)
        else
          (false,
            ({ bm with
                heap := heapSet (heapSet bm.heap addr { b with deleted := true }) addr
                  { b with deleted := true, refs := b.refs + 1 },
                files := (BlockManager.removeFile bm.files b.file_path unlink_fail).2.2 }
              : BlockManager).DecRef addr) := by
  have h1 : heapGet (heapSet bm.heap addr { b with deleted := true }) addr
      = some { b with deleted := true } := heapGet_heapSet_same _ _ _ _ hheap
  have h2 : heapGet (heapSet (heapSet bm.heap addr { b with deleted := true }) addr
      { b with deleted := true, refs := b.refs + 1 }) addr
      = some { b with deleted := true, refs := b.refs + 1 } :=
    heapGet_heapSet_same _ _ _ _ h1
  unfold BlockManager.RemoveBlock
  rw [hmap]
  simp only [SetDeleted_eq bm addr b hheap]
  cases hd : b.deleted with
  | true => simp
  | false =>
    simp only [Bool.false_eq_true, if_false]
    rw [AddRef_eq _ addr { b with deleted := true } h1]
    simp only [h2, Option.map, Option.getD]

/-! ### Block keys: length, order and parsing -/

theorem digitChar_lt : ∀ b, b < 10 → ∀ a, a < b → digitChar a < digitChar b := by decide

theorem space_lt_digitChar : ∀ d, d < 10 → ' ' < digitChar d := by decide

theorem digitChar_isDigit : ∀ d, d < 10 → (digitChar d).isDigit = true := by decide

theorem digitChar_toNat : ∀ d, d < 10 → (digitChar d).toNat - 48 = d := by decide

theorem digitChar_not_space : ∀ d, d < 10 → isSpaceChar (digitChar d) = false := by decide

theorem digitChar_not_sign : ∀ d, d < 10 → digitChar d ≠ '-' ∧ digitChar d ≠ '+' := by decide

/-- On lists of equal length the lexicographic order is decided before the end. -/
theorem lex_append_of_length_eq {x y : List Char} (h : x < y) (hlen : x.length = y.length)
    (s t : List Char) : x ++ s < y ++ t := by
  induction x generalizing y with
  | nil =>
    cases y with
    | nil => exact absurd h (lt_irrefl _)
    | cons b bs => simp at hlen
  | cons a as ih =>
    cases y with
    | nil => simp at hlen
    | cons b bs =>
      have hlen2 : as.length = bs.length := by simpa using hlen
      cases h with
      | cons h2 => exact List.Lex.cons (ih h2 hlen2)
      | rel h2 => exact List.Lex.rel h2

theorem natDigits_length (w : Nat) : ∀ fuel n, 1 ≤ w → w ≤ fuel → n < 10 ^ w →
    1 ≤ (natDigits fuel n).length ∧ (natDigits fuel n).length ≤ w := by
  induction w with
  | zero => intro fuel n h; omega
  | succ w ih =>
    intro fuel n _ hf hn
    obtain ⟨f, rfl⟩ : ∃ f, fuel = f + 1 := ⟨fuel - 1, by omega⟩
    unfold natDigits
    by_cases h10 : n < 10
    · simp [h10]
    · have hw : 1 ≤ w := by
        rcases Nat.eq_zero_or_pos w with h0 | h0
        · subst h0; simp at hn; omega
        · exact h0
      have hdiv : n / 10 < 10 ^ w := by
        rw [Nat.div_lt_iff_lt_mul (by norm_num)]
        rw [pow_succ] at hn; exact hn
      have := ih f (n / 10) hw (by omega) hdiv
      simp [h10]
      omega

theorem padLeft_length (w : Nat) (s : List Char) (h : s.length ≤ w) :
    (padLeft w s).length = w := by
  simp [padLeft]; omega

theorem padLeft_natDigits_small (w f n : Nat) (h : n < 10) :
    padLeft (w + 1) (natDigits (f + 1) n) = List.replicate w ' ' ++ [digitChar n] := by
  simp [padLeft, natDigits, h]

theorem padLeft_natDigits_large (w f n : Nat) (hw : 1 ≤ w) (hf : w ≤ f) (h : ¬ n < 10)
    (hn : n < 10 ^ (w + 1)) :
    padLeft (w + 1) (natDigits (f + 1) n)
      = padLeft w (natDigits f (n / 10)) ++ [digitChar (n % 10)] := by
  have hdiv : n / 10 < 10 ^ w := by
    rw [Nat.div_lt_iff_lt_mul (by norm_num)]
    rw [pow_succ] at hn; exact hn
  have hl := natDigits_length w f (n / 10) hw hf hdiv
  simp only [padLeft, natDigits, h, if_false, List.length_append, List.length_singleton]
  have : w + 1 - ((natDigits f (n / 10)).length + 1) = w - (natDigits f (n / 10)).length := by
    omega
  rw [this, List.append_assoc]

theorem replicate_lt_key (w : Nat) : ∀ f n, 1 ≤ w → w ≤ f → n < 10 ^ w →
    List.replicate w ' ' < padLeft w (natDigits f n) := by
  induction w with
  | zero => intro f n h; omega
  | succ w ih =>
    intro fuel n _ hf hn
    obtain ⟨f, rfl⟩ : ∃ f, fuel = f + 1 := ⟨fuel - 1, by omega⟩
    rw [List.replicate_succ']
    by_cases h10 : n < 10
    · rw [padLeft_natDigits_small w f n h10]
      exact List.Lex.append_left _ (List.Lex.rel (space_lt_digitChar n h10)) _
    · have hw : 1 ≤ w := by
        rcases Nat.eq_zero_or_pos w with h0 | h0
        · subst h0; simp at hn; omega
        · exact h0
      have hdiv : n / 10 < 10 ^ w := by
        rw [Nat.div_lt_iff_lt_mul (by norm_num)]
        rw [pow_succ] at hn; exact hn
      rw [padLeft_natDigits_large w f n hw (by omega) h10 hn]
      have hl := natDigits_length w f (n / 10) hw (by omega) hdiv
      apply lex_append_of_length_eq (ih f (n / 10) hw (by omega) hdiv)
      rw [padLeft_length w _ hl.2]; simp

/-- Keys of equal width are ordered like the numbers they hold. -/
theorem key_lt (w : Nat) : ∀ f a b, 1 ≤ w → w ≤ f → a < b → b < 10 ^ w →
    padLeft w (natDigits f a) < padLeft w (natDigits f b) := by
  induction w with
  | zero => intro f a b h; omega
  | succ w ih =>
    intro fuel a b _ hf hab hb
    obtain ⟨f, rfl⟩ : ∃ f, fuel = f + 1 := ⟨fuel - 1, by omega⟩
    by_cases hb10 : b < 10
    · rw [padLeft_natDigits_small w f a (by omega), padLeft_natDigits_small w f b hb10]
      exact List.Lex.append_left _ (List.Lex.rel (digitChar_lt b hb10 a hab)) _
    · have hw : 1 ≤ w := by
        rcases Nat.eq_zero_or_pos w with h0 | h0
        · subst h0; simp at hb; omega
        · exact h0
      have hbdiv : b / 10 < 10 ^ w := by
        rw [Nat.div_lt_iff_lt_mul (by norm_num)]
        rw [pow_succ] at hb; exact hb
      have hlb := natDigits_length w f (b / 10) hw (by omega) hbdiv
      rw [padLeft_natDigits_large w f b hw (by omega) hb10 hb]
      by_cases ha10 : a < 10
      · rw [padLeft_natDigits_small w f a ha10]
        apply lex_append_of_length_eq (replicate_lt_key w f (b / 10) hw (by omega) hbdiv)
        rw [padLeft_length w _ hlb.2]; simp
      · have ha : a < 10 ^ (w + 1) := by omega
        have hadiv : a / 10 < 10 ^ w := by
          rw [Nat.div_lt_iff_lt_mul (by norm_num)]
          rw [pow_succ] at ha; exact ha
        have hla := natDigits_length w f (a / 10) hw (by omega) hadiv
        rw [padLeft_natDigits_large w f a hw (by omega) ha10 ha]
        rcases Nat.lt_or_ge (a / 10) (b / 10) with hlt | hge
        · apply lex_append_of_length_eq (ih f (a / 10) (b / 10) hw (by omega) hlt hbdiv)
          rw [padLeft_length w _ hla.2, padLeft_length w _ hlb.2]
        · have heq : a / 10 = b / 10 := by omega
          rw [heq]
          have hmod : a % 10 < b % 10 := by omega
          exact List.Lex.append_left _
            (List.Lex.rel (digitChar_lt (b % 10) (Nat.mod_lt _ (by norm_num)) (a % 10) hmod)) _

theorem natDigits_chars (f : Nat) : ∀ n, ∀ c ∈ natDigits f n, ∃ d, d < 10 ∧ c = digitChar d := by
  induction f with
  | zero => intro n c h; simp [natDigits] at h
  | succ f ih =>
    intro n c h
    unfold natDigits at h
    by_cases h10 : n < 10
    · simp [h10] at h
      exact ⟨n, h10, h⟩
    · simp [h10] at h
      rcases h with h | h
      · exact ih _ c h
      · exact ⟨n % 10, Nat.mod_lt _ (by norm_num), h⟩

theorem scanDigits_append (xs ys : List Char) (h : ∀ c ∈ xs, c.isDigit = true) :
    ∀ acc, scanDigits (xs ++ ys) acc = scanDigits ys (scanDigits xs acc) := by
  induction xs with
  | nil => intro acc; rfl
  | cons x xs ih =>
    intro acc
    have hx : x.isDigit = true := h x (by simp)
    simp only [List.cons_append, scanDigits, hx, if_true]
    exact ih (fun c hc => h c (by simp [hc])) _

theorem scanDigits_natDigits (w : Nat) : ∀ f n, 1 ≤ w → w ≤ f → n < 10 ^ w →
    scanDigits (natDigits f n) 0 = n := by
  induction w with
  | zero => intro f n h; omega
  | succ w ih =>
    intro fuel n _ hf hn
    obtain ⟨f, rfl⟩ : ∃ f, fuel = f + 1 := ⟨fuel - 1, by omega⟩
    unfold natDigits
    by_cases h10 : n < 10
    · simp [h10, scanDigits, digitChar_isDigit n h10, digitChar_toNat n h10]
    · have hw : 1 ≤ w := by
        rcases Nat.eq_zero_or_pos w with h0 | h0
        · subst h0; simp at hn; omega
        · exact h0
      have hdiv : n / 10 < 10 ^ w := by
        rw [Nat.div_lt_iff_lt_mul (by norm_num)]
        rw [pow_succ] at hn; exact hn
      have hd : ∀ c ∈ natDigits f (n / 10), c.isDigit = true := by
        intro c hc
        obtain ⟨d, hd, rfl⟩ := natDigits_chars f _ c hc
        exact digitChar_isDigit d hd
      simp only [h10, if_false]
      rw [scanDigits_append _ _ hd, ih f (n / 10) hw (by omega) hdiv]
      simp [scanDigits, digitChar_isDigit _ (Nat.mod_lt n (by norm_num : 0 < 10)),
        digitChar_toNat _ (Nat.mod_lt n (by norm_num : 0 < 10))]
      omega

theorem dropWhile_spaces (k : Nat) (s : List Char) :
    (List.replicate k ' ' ++ s).dropWhile isSpaceChar = s.dropWhile isSpaceChar := by
  induction k with
  | zero => simp
  | succ k ih =>
    rw [List.replicate_succ, List.cons_append, List.dropWhile_cons]
    have : isSpaceChar ' ' = true := by decide
    simp [this, ih]

/-- Reading back a right-justified decimal gives the number. -/
theorem sscanfLd_padLeft (w f n : Nat) (hw : 1 ≤ w) (hf : w ≤ f) (hn : n < 10 ^ w) :
    sscanfLd (padLeft w (natDigits f n)) = some (n : Int) := by
  have hlen := natDigits_length w f n hw hf hn
  have hval := scanDigits_natDigits w f n hw hf hn
  unfold sscanfLd padLeft
  rw [dropWhile_spaces]
  cases hd : natDigits f n with
  | nil => rw [hd] at hlen; simp at hlen
  | cons c cs =>
    obtain ⟨d, hd10, rfl⟩ := natDigits_chars f n c (by rw [hd]; simp)
    rw [hd] at hval
    rw [List.dropWhile_cons]
    simp only [digitChar_not_space d hd10, Bool.false_eq_true, if_false]
    simp only [(digitChar_not_sign d hd10).1, (digitChar_not_sign d hd10).2, if_false,
      digitChar_isDigit d hd10, if_true, hval]

theorem BlockId2Str_eq (id : Int) (h0 : 0 ≤ id) (h : id < 10 ^ 13) :
    BlockManager.BlockId2Str id = padLeft 13 (natDigits 19 id.toNat) := by
  have hn : id.toNat < 10 ^ 13 := by omega
  have hlen := natDigits_length 13 19 id.toNat (by norm_num) (by norm_num) hn
  have habs : id.natAbs = id.toNat := by omega
  unfold BlockManager.BlockId2Str snprintf13ld formatLong
  rw [if_neg (by omega), habs]
  apply List.take_of_length_le
  rw [padLeft_length 13 _ hlen.2]
  norm_num

theorem BlockId2Str_lt (a b : Int) (h0 : 0 ≤ a) (hab : a < b) (hb : b < 10 ^ 13) :
    BlockManager.BlockId2Str a < BlockManager.BlockId2Str b := by
  rw [BlockId2Str_eq a h0 (by omega), BlockId2Str_eq b (by omega) hb]
  exact key_lt 13 19 a.toNat b.toNat (by norm_num) (by norm_num) (by omega) (by omega)

theorem BlockId2Str_le_iff (a b : Int) (ha0 : 0 ≤ a) (ha : a < 10 ^ 13) (hb0 : 0 ≤ b)
    (hb : b < 10 ^ 13) :
    ¬ BlockManager.BlockId2Str a < BlockManager.BlockId2Str b ↔ b ≤ a := by
  constructor
  · intro h
    by_contra hlt
    exact h (BlockId2Str_lt a b ha0 (by omega) hb)
  · intro hle hlt
    rcases eq_or_lt_of_le hle with heq | hlt2
    · subst heq; exact lt_irrefl _ hlt
    · exact lt_asymm hlt (BlockId2Str_lt b a hb0 hlt2 ha)

theorem sscanfLd_BlockId2Str (id : Int) (h0 : 0 ≤ id) (h : id < 10 ^ 13) :
    sscanfLd (BlockManager.BlockId2Str id) = some id := by
  rw [BlockId2Str_eq id h0 h,
    sscanfLd_padLeft 13 19 id.toNat (by norm_num) (by norm_num) (by omega)]
  simp [Int.toNat_of_nonneg h0]

/-- For an id that fits the 13-character field, `RemoveBlock` deletes the key that
`BlockId2Str` gives. -/
theorem snprintf13ld_14_eq (id : Int) (h0 : 0 ≤ id) (h : id < 10 ^ 13) :
    snprintf13ld 14 id = BlockManager.BlockId2Str id := by
  have hn : id.toNat < 10 ^ 13 := by omega
  have hlen := natDigits_length 13 19 id.toNat (by norm_num) (by norm_num) hn
  have habs : id.natAbs = id.toNat := by omega
  rw [BlockId2Str_eq id h0 h]
  unfold snprintf13ld formatLong
  rw [if_neg (by omega), habs]
  apply List.take_of_length_le
  rw [padLeft_length 13 _ hlen.2]

/-! ### `ListBlocks` on a well-formed store -/

theorem isBlockRow_iff (kv : DbKey × DbValue) :
    isBlockRow kv = true ↔ ∃ m, kv = (BlockManager.BlockId2Str m.block_id, DbValue.meta m)
      ∧ 0 ≤ m.block_id ∧ m.block_id < 10 ^ 13 := by
  obtain ⟨k, v⟩ := kv
  cases v with
  | version v => simp [isBlockRow]
  | meta m =>
    simp only [isBlockRow, decide_eq_true_eq, Prod.mk.injEq, DbValue.meta.injEq]
    constructor
    · rintro ⟨h0, h1, hk⟩
      exact ⟨m, ⟨hk, rfl⟩, h0, h1⟩
    · rintro ⟨m0, ⟨hk, hm⟩, h0, h1⟩
      subst hm
      exact ⟨h0, h1, hk⟩

/-- On block rows the loop of `ListBlocks` pushes the descriptors of the first
`max num 1` rows and returns true. -/
theorem ListBlocksLoop_eq (rows : List (DbKey × DbValue))
    (hrows : ∀ kv ∈ rows, isBlockRow kv = true) :
    ∀ (num : Int) (acc : List BlockMeta),
      BlockManager.ListBlocksLoop rows num acc
        = some (true, acc ++ (rows.take (max num 1).toNat).filterMap rowMeta) := by
  induction rows with
  | nil => intro num acc; simp [BlockManager.ListBlocksLoop]
  | cons kv rest ih =>
    intro num acc
    obtain ⟨m, rfl, h0, h1⟩ := (isBlockRow_iff kv).1 (hrows kv (by simp))
    have hrest : ∀ kv ∈ rest, isBlockRow kv = true := fun kv h => hrows kv (by simp [h])
    unfold BlockManager.ListBlocksLoop
    simp only [sscanfLd_BlockId2Str m.block_id h0 h1, if_true]
    by_cases hnum : num - 1 ≤ 0
    · have h1n : (max num 1).toNat = 1 := by
        have : max num 1 = 1 := max_eq_right (by omega)
        rw [this]; rfl
      simp [hnum, h1n, rowMeta]
    · have h1n : (max num 1).toNat = (max (num - 1) 1).toNat + 1 := by
        have e1 : max num 1 = num := max_eq_left (by omega)
        have e2 : max (num - 1) 1 = num - 1 := max_eq_left (by omega)
        rw [e1, e2]; omega
      simp only [hnum, if_false]
      rw [ih hrest, h1n]
      simp [rowMeta]

/-- On a well-formed store `ListBlocks(from, num)` returns the descriptors of the first
`max num 1` rows whose key is not below the key of `from`; their ids ascend strictly and
none is below `from`. -/
theorem ListBlocks_ascending (bm : BlockManager) (start num : Int)
    (hwf : StoreWellFormed bm.metadb) (h0 : 0 ≤ start) (h1 : start < 10 ^ 13) :
    bm.ListBlocks start num
        = some (true, ((kvSeek (BlockManager.BlockId2Str start) bm.metadb).take
            (max num 1).toNat).filterMap rowMeta)
    ∧ (((kvSeek (BlockManager.BlockId2Str start) bm.metadb).take
          (max num 1).toNat).filterMap rowMeta).Pairwise (fun x y => x.block_id < y.block_id)
    ∧ ∀ m ∈ ((kvSeek (BlockManager.BlockId2Str start) bm.metadb).take
          (max num 1).toNat).filterMap rowMeta, start ≤ m.block_id := by
  have hver : BlockManager.version_key < BlockManager.BlockId2Str start := by
    have hv0 : BlockManager.version_key < BlockManager.BlockId2Str 0 := by decide
    rcases eq_or_lt_of_le h0 with h | h
    · rw [← h]; exact hv0
    · exact lt_trans hv0 (BlockId2Str_lt 0 start le_rfl h h1)
  have hrows : ∀ kv ∈ kvSeek (BlockManager.BlockId2Str start) bm.metadb,
      isBlockRow kv = true := by
    intro kv hkv
    rcases hwf.2 kv ((kvSeek_sublist _ _).subset hkv) with h | h
    · exact absurd (h ▸ hver) (kvSeek_not_lt _ _ kv hkv)
    · exact h
  have htake : ∀ kv ∈ (kvSeek (BlockManager.BlockId2Str start) bm.metadb).take
      (max num 1).toNat, kv ∈ kvSeek (BlockManager.BlockId2Str start) bm.metadb :=
    fun kv h => (List.take_sublist _ _).subset h
  refine ⟨?_, ?_, ?_⟩
  · unfold BlockManager.ListBlocks
    rw [ListBlocksLoop_eq _ hrows]
    simp
  · have hp : ((kvSeek (BlockManager.BlockId2Str start) bm.metadb).take
        (max num 1).toNat).Pairwise (fun x y => x.1 < y.1) :=
      (hwf.1.sublist (kvSeek_sublist _ _)).sublist (List.take_sublist _ _)
    refine List.Pairwise.filterMap rowMeta ?_ (hp.imp_of_mem (S := fun x y =>
      x.1 < y.1 ∧ isBlockRow x = true ∧ isBlockRow y = true) ?_)
    · rintro x y ⟨hlt, hx, hy⟩ mx hmx my hmy
      obtain ⟨m1, rfl, a0, a1⟩ := (isBlockRow_iff x).1 hx
      obtain ⟨m2, rfl, b0, b1⟩ := (isBlockRow_iff y).1 hy
      simp only [rowMeta, Option.mem_def, Option.some.injEq] at hmx hmy
      subst hmx; subst hmy
      by_contra hnot
      have hle : m2.block_id ≤ m1.block_id := by omega
      exact (BlockId2Str_le_iff m1.block_id m2.block_id a0 a1 b0 b1).2 hle hlt
    · intro x y hx hy hlt
      exact ⟨hlt, hrows x (htake x hx), hrows y (htake y hy)⟩
  · intro m hm
    obtain ⟨kv, hkv, hmeta⟩ := List.mem_filterMap.1 hm
    obtain ⟨m1, rfl, a0, a1⟩ := (isBlockRow_iff kv).1 (hrows kv (htake kv hkv))
    simp only [rowMeta, Option.some.injEq] at hmeta
    subst hmeta
    have hnl := kvSeek_not_lt _ _ _ (htake _ hkv)
    exact (BlockId2Str_le_iff m1.block_id start a0 a1 h0 h1).1 hnl

/-- `SyncBlockMeta` of a block with id in `[0, 10 ^ 13)` keeps the store well formed. -/
theorem SyncBlockMeta_wellFormed (bm : BlockManager) (m : BlockMeta) (put_ok : Bool)
    (hwf : StoreWellFormed bm.metadb) (h0 : 0 ≤ m.block_id) (h1 : m.block_id < 10 ^ 13) :
    StoreWellFormed (bm.SyncBlockMeta m put_ok).2.metadb := by
  cases put_ok with
  | false => exact hwf
  | true =>
    have e : (bm.SyncBlockMeta m true).2.metadb
        = kvPut (BlockManager.BlockId2Str m.block_id) (DbValue.meta m) bm.metadb := rfl
    rw [e]
    refine ⟨kvPut_sorted _ _ _ hwf.1, ?_⟩
    intro kv hkv
    rcases kvPut_keys _ _ _ kv hkv with rfl | h
    · exact Or.inr ((isBlockRow_iff _).2 ⟨m, rfl, h0, h1⟩)
    · exact hwf.2 kv h

/-- `SetNameSpaceVersion` keeps the store well formed. -/
theorem SetNameSpaceVersion_wellFormed (bm : BlockManager) (version : Int) (put_ok : Bool)
    (hwf : StoreWellFormed bm.metadb) :
    StoreWellFormed (bm.SetNameSpaceVersion version put_ok).2.metadb := by
  cases put_ok with
  | false => exact hwf
  | true =>
    have e : (bm.SetNameSpaceVersion version true).2.metadb
        = kvPut BlockManager.version_key (DbValue.version version) bm.metadb := rfl
    rw [e]
    refine ⟨kvPut_sorted _ _ _ hwf.1, ?_⟩
    intro kv hkv
    rcases kvPut_keys _ _ _ kv hkv with rfl | h
    · exact Or.inl rfl
    · exact hwf.2 kv h

/-! ### Admission control of `WriteBlock` -/

/-- C1: on the first entry of `WriteBlock` (no `sequence_id` on the response), when the
outstanding write-buffer count or the pending-task count of the work pool exceeds
`max_pending_buffers`, the status becomes 500, `done` is run once, the refused counter
grows by one, no pool receives a task, and the block manager (registry, heap, metadata
store, files) is untouched. -/
theorem WriteBlock_busy_refused (cs : ChunkServerImpl) (now : Int)
    (request : WriteBlockRequest) (call : Call WriteBlockResponse)
    (hfirst : call.response.sequence_id = none)
    (hbusy : cs.g_block_buffers > cs.FLAGS_chunkserver_max_pending_buffers
      ∨ cs.work_thread_pool.PendingNum > cs.FLAGS_chunkserver_max_pending_buffers) :
    (cs.WriteBlock now request call).2.response.status = some 500
    ∧ (cs.WriteBlock now request call).2.done = call.done + 1
    ∧ (cs.WriteBlock now request call).1.g_refuse_ops = cs.g_refuse_ops + 1
    ∧ (cs.WriteBlock now request call).1.work_thread_pool = cs.work_thread_pool
    ∧ (cs.WriteBlock now request call).1.read_thread_pool = cs.read_thread_pool
    ∧ (cs.WriteBlock now request call).1.write_thread_pool = cs.write_thread_pool
    ∧ (cs.WriteBlock now request call).1.events = cs.events
    ∧ (cs.WriteBlock now request call).1.block_manager = cs.block_manager := by
  simp [ChunkServerImpl.WriteBlock, hfirst, hbusy]

/-- Witness of `WriteBlock_busy_refused`: three outstanding buffers against a limit of
two. -/
theorem WriteBlock_busy_refused_witness :
    (sampleServer.WriteBlock 101 sampleWrite freshWriteCall).2.response.status = some 500
    ∧ (sampleServer.WriteBlock 101 sampleWrite freshWriteCall).2.done = 1
    ∧ (sampleServer.WriteBlock 101 sampleWrite freshWriteCall).1.g_refuse_ops = 1
    ∧ (sampleServer.WriteBlock 101 sampleWrite freshWriteCall).1.work_thread_pool = idlePool
    ∧ (sampleServer.WriteBlock 101 sampleWrite freshWriteCall).1.block_manager
        = sampleManager := by
  have h := WriteBlock_busy_refused sampleServer 101 sampleWrite freshWriteCall rfl
    (Or.inl (by decide))
  exact ⟨h.1, h.2.1, h.2.2.1, h.2.2.2.1, h.2.2.2.2.2.2.2⟩

/-! ### Status codes of `LocalWriteBlock` -/

/-- C2: `LocalWriteBlock` sets status 8404 when the create-if-missing `FindBlock` returns
no handle, and then `Block::Write` is not called (no event is added); it sets 812 when
`Block::Write` returns false; it leaves status 0 when the write is accepted and the
response carried no status; on each of the three paths `done` is run exactly once. -/
theorem LocalWriteBlock_status (cs : ChunkServerImpl) (env : LocalWriteEnv)
    (request : WriteBlockRequest) (call : Call WriteBlockResponse) :
    ((cs.block_manager.FindBlock request.block_id true env.put_ok).1 = none →
        (cs.LocalWriteBlock env request call).2.response.status = some 8404
        ∧ (cs.LocalWriteBlock env request call).1.events = cs.events
        ∧ (cs.LocalWriteBlock env request call).2.done = call.done + 1)
    ∧ ((cs.block_manager.FindBlock request.block_id true env.put_ok).1 ≠ none →
        env.write_ok = false →
        (cs.LocalWriteBlock env request call).2.response.status = some 812
        ∧ (cs.LocalWriteBlock env request call).2.done = call.done + 1)
    ∧ ((cs.block_manager.FindBlock request.block_id true env.put_ok).1 ≠ none →
        env.write_ok = true →
        (call.response.status = none →
          (cs.LocalWriteBlock env request call).2.response.status = some 0)
        ∧ (cs.LocalWriteBlock env request call).2.done = call.done + 1) := by
  refine ⟨?_, ?_, ?_⟩
  · intro h
    rcases hf : cs.block_manager.FindBlock request.block_id true env.put_ok with ⟨o, bm⟩
    rw [hf] at h
    simp only at h
    subst h
    simp [ChunkServerImpl.LocalWriteBlock, hf]
  · intro h hw
    rcases hf : cs.block_manager.FindBlock request.block_id true env.put_ok with ⟨o, bm⟩
    rw [hf] at h
    cases o with
    | none => exact absurd rfl h
    | some addr => simp [ChunkServerImpl.LocalWriteBlock, hf, hw]
  · intro h hw
    rcases hf : cs.block_manager.FindBlock request.block_id true env.put_ok with ⟨o, bm⟩
    rw [hf] at h
    cases o with
    | none => exact absurd rfl h
    | some addr =>
      refine ⟨?_, ?_⟩
      · intro hs
        simp [ChunkServerImpl.LocalWriteBlock, hf, hw, hs]
      · simp [ChunkServerImpl.LocalWriteBlock, hf, hw]

/-- Witness of `LocalWriteBlock_status`, one run per path: block 6 is not held and its
metadata write fails (8404); the write to block 5 is rejected (812); it is accepted (0). -/
theorem LocalWriteBlock_status_witness :
    ((sampleServer.LocalWriteBlock envPutFails sampleWriteNew queuedWriteCall).2.response.status
        = some 8404
      ∧ (sampleServer.LocalWriteBlock envPutFails sampleWriteNew queuedWriteCall).1.events = []
      ∧ (sampleServer.LocalWriteBlock envPutFails sampleWriteNew queuedWriteCall).2.done = 1)
    ∧ ((sampleServer.LocalWriteBlock envWriteRejected sampleWrite queuedWriteCall).2.response.status
        = some 812
      ∧ (sampleServer.LocalWriteBlock envWriteRejected sampleWrite queuedWriteCall).2.done = 1)
    ∧ (sampleServer.LocalWriteBlock envAccepted sampleWrite queuedWriteCall).2.response.status
        = some 0
    ∧ (sampleServer.LocalWriteBlock envAccepted sampleWrite queuedWriteCall).2.done = 1 :=
  ⟨(LocalWriteBlock_status sampleServer envPutFails sampleWriteNew queuedWriteCall).1
      (by decide),
    (LocalWriteBlock_status sampleServer envWriteRejected sampleWrite queuedWriteCall).2.1
      (by decide) rfl,
    ((LocalWriteBlock_status sampleServer envAccepted sampleWrite queuedWriteCall).2.2
      (by decide) rfl).1 rfl,
    ((LocalWriteBlock_status sampleServer envAccepted sampleWrite queuedWriteCall).2.2
      (by decide) rfl).2⟩

/-! ### Failure of the child in `WriteNextCallback` -/

/-- C3: in `WriteNextCallback`, when the child forward failed for another reason than
send-buffer-full, or did not fail and the child's status is non-zero (the two hypotheses
together say exactly this: the forward did not fail with send-buffer-full, and it failed or
the child's status is non-zero), the upstream status becomes the child's status if that is
non-zero and the transport error code otherwise, `done` is run exactly once, and nothing
is scheduled: the pools, the events and the block manager are as before, so no local
append takes place. In particular a child status of 700 gives upstream status 700. -/
theorem WriteNextCallback_child_failure (cs : ChunkServerImpl) (SEND_BUFFER_FULL : Int)
    (next_request : WriteBlockRequest) (next_response : WriteBlockResponse)
    (failed : Bool) (error : Int) (next_server : String) (request : WriteBlockRequest)
    (call : Call WriteBlockResponse)
    (hretry : ¬ (failed = true ∧ error = SEND_BUFFER_FULL))
    (hfail : failed = true ∨ next_response.status.getD 0 ≠ 0) :
    (cs.WriteNextCallback SEND_BUFFER_FULL next_request next_response failed error
        next_server request call).2.response.status
      = some (if next_response.status.getD 0 ≠ 0 then next_response.status.getD 0 else error)
    ∧ (cs.WriteNextCallback SEND_BUFFER_FULL next_request next_response failed error
        next_server request call).2.done = call.done + 1
    ∧ (cs.WriteNextCallback SEND_BUFFER_FULL next_request next_response failed error
        next_server request call).1 = cs
    ∧ (next_response.status = some 700 →
        (cs.WriteNextCallback SEND_BUFFER_FULL next_request next_response failed error
          next_server request call).2.response.status = some 700) := by
  have h1 : ¬ (failed = true ∧ error = SEND_BUFFER_FULL) := hretry
  refine ⟨?_, ?_, ?_, ?_⟩
  · simp only [ChunkServerImpl.WriteNextCallback, if_neg h1, if_pos hfail]
    by_cases h0 : next_response.status.getD 0 = 0 <;> simp [h0]
  · simp only [ChunkServerImpl.WriteNextCallback, if_neg h1, if_pos hfail]
  · simp only [ChunkServerImpl.WriteNextCallback, if_neg h1, if_pos hfail]
  · intro h700
    simp only [ChunkServerImpl.WriteNextCallback, if_neg h1, if_pos hfail]
    simp [h700]

/-- Witness of `WriteNextCallback_child_failure`: the forward succeeded and the child
answered 700. -/
theorem WriteNextCallback_child_failure_witness :
    (sampleServer.WriteNextCallback 31 sampleWrite (childResponse 700) false 0 "peerA"
        sampleWrite queuedWriteCall).2.response.status = some 700
    ∧ (sampleServer.WriteNextCallback 31 sampleWrite (childResponse 700) false 0 "peerA"
        sampleWrite queuedWriteCall).2.done = 1
    ∧ (sampleServer.WriteNextCallback 31 sampleWrite (childResponse 700) false 0 "peerA"
        sampleWrite queuedWriteCall).1 = sampleServer :=
  have h := WriteNextCallback_child_failure sampleServer 31 sampleWrite (childResponse 700)
    false 0 "peerA" sampleWrite queuedWriteCall (by decide) (Or.inr (by decide))
  ⟨h.2.2.2 rfl, h.2.1, h.2.2.1⟩

/-! ### Status codes of `ReadBlock` -/

/-- The second entry of `ReadBlock` (the response carries a `sequence_id`; it carries no
`block_version` yet, and `Block::Read` returns no more than the buffer holds) on a block
that is not in the registry, or with a read length that is not negative: the handler
returns; it sets status 404 and no data when the block id is not in the registry, status
882 when the read returns a negative length, and otherwise status 0 with a databuf of
exactly the returned number of bytes and a `block_version` present exactly when
`require_block_version` was requested; `done` is run once, and the registry and the
metadata store are unchanged in every case. -/
theorem ReadBlock_status (cs : ChunkServerImpl) (env : ReadEnv) (request : ReadBlockRequest)
    (call : Call ReadBlockResponse)
    (hsecond : call.response.sequence_id ≠ none)
    (hfresh : call.response.block_version = none)
    (hbuf : env.len ≤ env.buf.length)
    (hlen : kvFind request.block_id cs.block_manager.block_map = none
      ∨ 0 ≤ request.read_len) :
    ∃ cs1 call1, cs.ReadBlock env request call = Ended.returned (cs1, call1)
      ∧ (kvFind request.block_id cs.block_manager.block_map = none →
          call1.response.status = some 404
          ∧ call1.response.databuf = call.response.databuf)
      ∧ (kvFind request.block_id cs.block_manager.block_map ≠ none → env.len < 0 →
          call1.response.status = some 882)
      ∧ (kvFind request.block_id cs.block_manager.block_map ≠ none → 0 ≤ env.len →
          call1.response.status = some 0
          ∧ (∃ data, call1.response.databuf = some data ∧ (data.length : Int) = env.len)
          ∧ (call1.response.block_version.isSome = true
              ↔ request.require_block_version = true))
      ∧ call1.done = call.done + 1
      ∧ cs1.block_manager.block_map = cs.block_manager.block_map
      ∧ cs1.block_manager.metadb = cs.block_manager.metadb := by
  have hs : call.response.sequence_id.isNone = false := by
    cases h : call.response.sequence_id with
    | none => exact absurd h hsecond
    | some v => rfl
  cases hfind : kvFind request.block_id cs.block_manager.block_map with
  | none =>
    cases h : cs.ReadBlock env request call with
    | threw st => simp [ChunkServerImpl.ReadBlock, hs, FindBlock_no_create, hfind] at h
    | returned r =>
      obtain ⟨cs1, call1⟩ := r
      refine ⟨cs1, call1, rfl, ?_⟩
      simp only [ChunkServerImpl.ReadBlock, hs, FindBlock_no_create, hfind, Bool.false_eq_true,
        if_false, Ended.returned.injEq, Prod.mk.injEq] at h
      obtain ⟨rfl, rfl⟩ := h
      simp
  | some addr =>
    have hpos : ¬ request.read_len < 0 := by
      rcases hlen with h | h
      · rw [hfind] at h; cases h
      · omega
    cases h : cs.ReadBlock env request call with
    | threw st =>
      simp only [ChunkServerImpl.ReadBlock, hs, FindBlock_no_create, hfind, Bool.false_eq_true,
        if_false, if_neg hpos] at h
      split at h <;> cases h
    | returned r =>
      obtain ⟨cs1, call1⟩ := r
      refine ⟨cs1, call1, rfl, ?_⟩
      simp only [ChunkServerImpl.ReadBlock, hs, FindBlock_no_create, hfind, Bool.false_eq_true,
        if_false, if_neg hpos] at h
      by_cases hl : 0 ≤ env.len
      · have hnat : env.len.toNat ≤ env.buf.length := by omega
        have hnot : ¬ env.len < 0 := by omega
        have hge : env.len ≥ 0 := hl
        rw [if_pos hge] at h
        simp only [Ended.returned.injEq, Prod.mk.injEq] at h
        obtain ⟨rfl, rfl⟩ := h
        cases hreq : request.require_block_version <;>
          simp [hl, hnot, hfresh, DecRef_block_map, DecRef_metadb, AddRef_block_map,
            AddRef_metadb, hnat, Int.toNat_of_nonneg hl]
      · have hneg : env.len < 0 := by omega
        have hge : ¬ env.len ≥ 0 := hl
        rw [if_neg hge] at h
        simp only [Ended.returned.injEq, Prod.mk.injEq] at h
        obtain ⟨rfl, rfl⟩ := h
        simp [hl, hneg, DecRef_block_map, DecRef_metadb, AddRef_block_map, AddRef_metadb]

/-- Witness of `ReadBlock_status`: a read of block 5 that returns four bytes, a read of
block 5 that fails, and a read of block 9, which is not held. -/
theorem ReadBlock_status_witness :
    (∃ cs1 call1,
      sampleServer.ReadBlock sampleReadEnv sampleRead queuedReadCall
        = Ended.returned (cs1, call1)
      ∧ call1.response.status = some 0
      ∧ (∃ data, call1.response.databuf = some data ∧ (data.length : Int) = 4))
    ∧ (∃ cs1 call1,
      sampleServer.ReadBlock sampleReadError sampleRead queuedReadCall
        = Ended.returned (cs1, call1)
      ∧ call1.response.status = some 882)
    ∧ (∃ cs1 call1,
      sampleServer.ReadBlock sampleReadEnv sampleReadMissing queuedReadCall
        = Ended.returned (cs1, call1)
      ∧ call1.response.status = some 404) := by
  obtain ⟨a1, b1, h1, -, -, h13, -⟩ := ReadBlock_status sampleServer sampleReadEnv sampleRead
    queuedReadCall (by decide) rfl (by decide) (Or.inr (by decide))
  obtain ⟨a2, b2, h2, -, h22, -⟩ := ReadBlock_status sampleServer sampleReadError sampleRead
    queuedReadCall (by decide) rfl (by decide) (Or.inr (by decide))
  obtain ⟨a3, b3, h3, h31, -⟩ := ReadBlock_status sampleServer sampleReadEnv sampleReadMissing
    queuedReadCall (by decide) rfl (by decide) (Or.inl (by decide))
  have k1 := h13 (by decide) (by decide)
  exact ⟨⟨a1, b1, h1, k1.1, k1.2.1⟩, ⟨a2, b2, h2, h22 (by decide) (by decide)⟩,
    ⟨a3, b3, h3, (h31 (by decide)).1⟩⟩

/-- C4 at a failing input: block 5 is in the registry and the second entry of `ReadBlock`
is run for it with `read_len = -1`. The expression `new char[read_len]` throws: the handler
is left by the exception in the state that `FindBlock` made, in which the block holds the
reference of the handle besides the registry's; no status is set in the response and
`done` is not run. The same request with `read_len = 8` returns with status 0. -/
theorem ReadBlock_negative_len_throws :
    kvFind 5 sampleServer.block_manager.block_map = some 0
    ∧ sampleReadNegative.read_len = -1
    ∧ sampleServer.ReadBlock sampleReadEnv sampleReadNegative queuedReadCall
      = Ended.threw
          { sampleServer with
            block_manager := (sampleServer.block_manager.FindBlock 5 false false).2 }
    ∧ (sampleServer.block_manager.FindBlock 5 false false).2.refs 0 = some 2
    ∧ (∀ r, sampleServer.ReadBlock sampleReadEnv sampleReadNegative queuedReadCall
        ≠ Ended.returned r)
    ∧ (∃ cs1 call1,
        sampleServer.ReadBlock sampleReadEnv sampleRead queuedReadCall
          = Ended.returned (cs1, call1)
        ∧ call1.response.status = some 0 ∧ call1.done = 1) := by
  have h : sampleServer.ReadBlock sampleReadEnv sampleReadNegative queuedReadCall
      = Ended.threw
          { sampleServer with
            block_manager := (sampleServer.block_manager.FindBlock 5 false false).2 } := by
    decide
  refine ⟨by decide, rfl, h, by decide, ?_, ?_⟩
  · intro r hr
    rw [h] at hr
    cases hr
  · exact ⟨_, _, rfl, by decide, by decide⟩

/-! ### The contract of `FindBlock` -/

/-- C5: `FindBlock(id, create_if_missing)`. If `id` is in the registry the result is its
handle, whose reference count is one higher, with registry and metadata store unchanged.
If `id` is absent and `create_if_missing` is false the result is none and registry, heap
and metadata store are unchanged. If `id` is absent, `create_if_missing` is true and the
metadata put succeeds, the registry maps `id` to a new handle with
`BlockMeta{block_id = id, version = 0, size = 0}` and two references, and the metadata
store holds that row under the key of `id`. If the put fails the result is none and the
registry is what it was before the call. -/
theorem FindBlock_contract (bm : BlockManager) (block_id : Int)
    (create_if_missing put_ok : Bool) :
    (∀ addr, kvFind block_id bm.block_map = some addr →
        (bm.FindBlock block_id create_if_missing put_ok).1 = some addr
        ∧ (∀ b, heapGet bm.heap addr = some b →
            heapGet (bm.FindBlock block_id create_if_missing put_ok).2.heap addr
              = some { b with refs := b.refs + 1 })
        ∧ (bm.FindBlock block_id create_if_missing put_ok).2.block_map = bm.block_map
        ∧ (bm.FindBlock block_id create_if_missing put_ok).2.metadb = bm.metadb)
    ∧ (kvFind block_id bm.block_map = none → create_if_missing = false →
        (bm.FindBlock block_id create_if_missing put_ok).1 = none
        ∧ (bm.FindBlock block_id create_if_missing put_ok).2.block_map = bm.block_map
        ∧ (bm.FindBlock block_id create_if_missing put_ok).2.heap = bm.heap
        ∧ (bm.FindBlock block_id create_if_missing put_ok).2.metadb = bm.metadb)
    ∧ (kvFind block_id bm.block_map = none → create_if_missing = true → put_ok = true →
        (bm.FindBlock block_id create_if_missing put_ok).1 = some bm.next_addr
        ∧ kvFind block_id (bm.FindBlock block_id create_if_missing put_ok).2.block_map
            = some bm.next_addr
        ∧ heapGet (bm.FindBlock block_id create_if_missing put_ok).2.heap bm.next_addr
            = some { Block.create { block_id := block_id, block_size := 0, version := 0 }
                (bm.GetStorePath block_id) with refs := 2 }
        ∧ kvFind (BlockManager.BlockId2Str block_id)
              (bm.FindBlock block_id create_if_missing put_ok).2.metadb
            = some (DbValue.meta { block_id := block_id, block_size := 0, version := 0 }))
    ∧ (kvFind block_id bm.block_map = none → create_if_missing = true → put_ok = false →
        (bm.FindBlock block_id create_if_missing put_ok).1 = none
        ∧ (bm.FindBlock block_id create_if_missing put_ok).2.block_map = bm.block_map) := by
  refine ⟨?_, ?_, ?_, ?_⟩
  · intro addr h
    rw [FindBlock_hit bm block_id create_if_missing put_ok addr h]
    refine ⟨rfl, ?_, ?_, ?_⟩
    · intro b hb
      have hb2 : heapGet ({ bm with g_find_ops := bm.g_find_ops + 1 } : BlockManager).heap addr
          = some b := hb
      simp only [BlockManager.AddRef, hb2]
      exact heapGet_heapSet_same _ _ _ _ hb
    · rw [AddRef_block_map]
    · rw [AddRef_metadb]
  · intro h hc
    subst hc
    rw [FindBlock_no_create]
    simp [h]
  · intro h hc hp
    subst hc; subst hp
    rw [FindBlock_create_ok bm block_id h]
    refine ⟨rfl, ?_, ?_, ?_⟩
    · exact kvFind_kvPut_same _ _ _
    · simp [heapGet, kvFind]
    · exact kvFind_kvPut_same _ _ _
  · intro h hc hp
    subst hc; subst hp
    exact ⟨(FindBlock_create_fail bm block_id h).1, (FindBlock_create_fail bm block_id h).2.1⟩

/-- Witness of `FindBlock_contract`: block 5 is held by `sampleManager` (hit), block 6 is
not (miss, creation, failed creation). -/
theorem FindBlock_contract_witness :
    ((sampleManager.FindBlock 5 false false).1 = some 0
      ∧ (sampleManager.FindBlock 5 false false).2.refs 0 = some 2
      ∧ (sampleManager.FindBlock 5 false false).2.block_map = sampleManager.block_map)
    ∧ (sampleManager.FindBlock 6 false false).1 = none
    ∧ ((sampleManager.FindBlock 6 true true).1 = some 1
      ∧ (sampleManager.FindBlock 6 true true).2.refs 1 = some 2)
    ∧ ((sampleManager.FindBlock 6 true false).1 = none
      ∧ (sampleManager.FindBlock 6 true false).2.block_map = sampleManager.block_map) :=
  ⟨⟨((FindBlock_contract sampleManager 5 false false).1 0 (by decide)).1, by decide,
      ((FindBlock_contract sampleManager 5 false false).1 0 (by decide)).2.2.1⟩,
    ((FindBlock_contract sampleManager 6 false false).2.1 (by decide) rfl).1,
    ⟨((FindBlock_contract sampleManager 6 true true).2.2.1 (by decide) rfl rfl).1, by decide⟩,
    (FindBlock_contract sampleManager 6 true false).2.2.2 (by decide) rfl rfl⟩

/-! ### `RemoveBlock` -/

/-- C6 at a failing input: `RemoveBlock` formats the key to delete into a buffer of 14
bytes, so for block `10 ^ 13`, whose key has 14 characters, it deletes the key of block
`10 ^ 12`. The call returns true and the registry no longer holds `10 ^ 13`, but the row
stored under `BlockId2Str (10 ^ 13)` is still there and the row of block `10 ^ 12` is
gone. -/
theorem RemoveBlock_wide_id_wrong_row :
    kvFind (10 ^ 13) wideManager.block_map = some 1
    ∧ (wideManager.RemoveBlock (10 ^ 13) none true).1 = true
    ∧ ((wideManager.RemoveBlock (10 ^ 13) none true).2.FindBlock (10 ^ 13) false false).1 = none
    ∧ kvFind (BlockManager.BlockId2Str (10 ^ 13))
          (wideManager.RemoveBlock (10 ^ 13) none true).2.metadb
        = some (DbValue.meta { block_id := 10 ^ 13, block_size := 0, version := 0 })
    ∧ kvFind (BlockManager.BlockId2Str (10 ^ 12)) wideManager.metadb
        = some (DbValue.meta { block_id := 10 ^ 12, block_size := 0, version := 0 })
    ∧ kvFind (BlockManager.BlockId2Str (10 ^ 12))
          (wideManager.RemoveBlock (10 ^ 13) none true).2.metadb = none := by
  decide

/-- For block ids in `[0, 10 ^ 13)`: when `RemoveBlock(b)` returns true, a following
`FindBlock(b, false)` returns none, the metadata store holds no row under the key of `b`,
and the rows under all other keys are unchanged. -/
theorem RemoveBlock_narrow_id (bm : BlockManager) (block_id : Int) (unlink_fail : Option Int)
    (delete_ok : Bool) (addr : Nat) (b : Block)
    (h0 : 0 ≤ block_id) (h1 : block_id < 10 ^ 13)
    (hmap : kvFind block_id bm.block_map = some addr)
    (hheap : heapGet bm.heap addr = some b)
    (hret : (bm.RemoveBlock block_id unlink_fail delete_ok).1 = true) :
    ((bm.RemoveBlock block_id unlink_fail delete_ok).2.FindBlock block_id false false).1 = none
    ∧ kvFind (BlockManager.BlockId2Str block_id)
        (bm.RemoveBlock block_id unlink_fail delete_ok).2.metadb = none
    ∧ ∀ key, key ≠ BlockManager.BlockId2Str block_id →
        kvFind key (bm.RemoveBlock block_id unlink_fail delete_ok).2.metadb
          = kvFind key bm.metadb := by
  rw [RemoveBlock_eq bm block_id unlink_fail delete_ok addr b hmap hheap] at hret ⊢
  cases hd : b.deleted with
  | true => simp [hd] at hret
  | false =>
    cases delete_ok with
    | false => simp [hd] at hret
    | true =>
      simp only [Bool.false_eq_true, if_false, if_true, DecRef_metadb,
        snprintf13ld_14_eq block_id h0 h1]
      refine ⟨?_, kvFind_kvErase_same _ _, fun key hk => kvFind_kvErase_other _ _ _ hk⟩
      rw [FindBlock_no_create]
      simp only [DecRef_block_map, kvFind_kvErase_same]

/-- Counterexample to C7 as stated: `remove(3)` fails with `EACCES` (13) on the data file
of block 5, the metadata row is deleted, `RemoveBlock` returns true, and the file is still
on disk. -/
theorem RemoveBlock_true_file_present :
    (sampleManager.RemoveBlock 5 (some 13) true).1 = true
    ∧ "/c/005/5" ∈ (sampleManager.RemoveBlock 5 (some 13) true).2.files
    ∧ heapGet sampleManager.heap 0 = some
        { meta := { block_id := 5, block_size := 4, version := 0 }, file_path := "/c/005/5",
          refs := 1, deleted := false, finished := false, disk_used := 4 } := by
  decide

/-- C7, amended: whenever `RemoveBlock(b)` returns true and `remove(3)` is not made to fail
on the existing file (it returns 0, or fails with `ENOENT` because the file was already
absent), the block's data file is absent from disk afterwards. -/
theorem RemoveBlock_true_file_absent (bm : BlockManager) (block_id : Int) (delete_ok : Bool)
    (addr : Nat) (b : Block)
    (hmap : kvFind block_id bm.block_map = some addr)
    (hheap : heapGet bm.heap addr = some b)
    (hret : (bm.RemoveBlock block_id none delete_ok).1 = true) :
    b.file_path ∉ (bm.RemoveBlock block_id none delete_ok).2.files := by
  rw [RemoveBlock_eq bm block_id none delete_ok addr b hmap hheap] at hret ⊢
  cases hd : b.deleted with
  | true => simp [hd] at hret
  | false =>
    cases delete_ok with
    | false => simp [hd] at hret
    | true =>
      simp only [Bool.false_eq_true, if_false, if_true, DecRef_files]
      unfold BlockManager.removeFile
      by_cases hmem : b.file_path ∈ bm.files
      · simp [hmem, List.mem_filter]
      · simp [hmem]

/-- Witness of `RemoveBlock_true_file_absent`: removing block 5 of `sampleManager`. -/
theorem RemoveBlock_true_file_absent_witness :
    "/c/005/5" ∉ (sampleManager.RemoveBlock 5 none true).2.files :=
  RemoveBlock_true_file_absent sampleManager 5 true 0
    { meta := { block_id := 5, block_size := 4, version := 0 }, file_path := "/c/005/5",
      refs := 1, deleted := false, finished := false, disk_used := 4 }
    (by decide) (by decide) (by decide)

/-! ### Agreement of registry and metadata store -/

/-- C8 at a failing input: from the state `LoadStorage` builds on an empty store, creating
block `10 ^ 13` and removing it again (every store operation succeeding) ends with the
registry not holding the block while the metadata store still has its row. Registry and
store agree on every id before the removal. -/
theorem RemoveBlock_breaks_agreement :
    emptyManager.LoadStorage true 0 = some (true, emptyManager)
    ∧ (∀ id, RegistryAgrees emptyManager id)
    ∧ RegistryAgrees (emptyManager.FindBlock (10 ^ 13) true true).2 (10 ^ 13)
    ∧ ((emptyManager.FindBlock (10 ^ 13) true true).2.RemoveBlock (10 ^ 13) none true).1 = true
    ∧ ¬ RegistryAgrees
        ((emptyManager.FindBlock (10 ^ 13) true true).2.RemoveBlock (10 ^ 13) none true).2
        (10 ^ 13) := by
  refine ⟨by decide, ?_, by decide, by decide, by decide⟩
  intro id
  simp [RegistryAgrees, emptyManager, kvFind, metaRows]

/-! ### Block keys and the order of `ListBlocks` -/

/-- Counterexample to C9 as stated: the key of block `10 ^ 13` has 14 bytes; the key of
block -1 is above the key of block 0 and the key of block `10 ^ 13` is below the key of
block `9999999999999`; and `ListBlocks(0, 10)` on a store holding the last two blocks
returns block `10 ^ 13` before block `9999999999999`. -/
theorem BlockId2Str_order_fails :
    (BlockManager.BlockId2Str (10 ^ 13)).length = 14
    ∧ ((-1 : Int) < 0 ∧ BlockManager.BlockId2Str 0 < BlockManager.BlockId2Str (-1))
    ∧ ((9999999999999 : Int) < 10 ^ 13
        ∧ BlockManager.BlockId2Str (10 ^ 13) < BlockManager.BlockId2Str 9999999999999)
    ∧ wideStore.ListBlocks 0 10
        = some (true, [{ block_id := 10 ^ 13, block_size := 0, version := 0 },
                       { block_id := 9999999999999, block_size := 0, version := 0 }]) := by
  decide

/-- C9, amended: for every block id with `0 ≤ id < 10 ^ 13`, `BlockId2Str(id)` is a 13-byte
string of spaces and digits holding the decimal id right-justified and space-padded (and
`sscanf` reads the id back from it); for every two such ids `a < b` the key of `a` is
bytewise lexicographically smaller than the key of `b`; so that, on a store in key order
whose block rows all have such ids, `ListBlocks(from, n)` with `0 ≤ from < 10 ^ 13` succeeds
and returns metas in strictly ascending block id, all with id at least `from`. -/
theorem BlockId2Str_key_order :
    (∀ id : Int, 0 ≤ id → id < 10 ^ 13 →
        (BlockManager.BlockId2Str id).length = 13
        ∧ BlockManager.BlockId2Str id
            = List.replicate (13 - (natDigits 19 id.toNat).length) ' ' ++ natDigits 19 id.toNat
        ∧ (∀ c ∈ BlockManager.BlockId2Str id, c = ' ' ∨ c.isDigit = true)
        ∧ sscanfLd (BlockManager.BlockId2Str id) = some id)
    ∧ (∀ a b : Int, 0 ≤ a → a < b → b < 10 ^ 13 →
        BlockManager.BlockId2Str a < BlockManager.BlockId2Str b)
    ∧ (∀ (bm : BlockManager) (start num : Int), StoreWellFormed bm.metadb →
        0 ≤ start → start < 10 ^ 13 →
        ∃ blocks, bm.ListBlocks start num = some (true, blocks)
          ∧ blocks.Pairwise (fun x y => x.block_id < y.block_id)
          ∧ ∀ m ∈ blocks, start ≤ m.block_id) := by
  refine ⟨?_, ?_, ?_⟩
  · intro id h0 h1
    have hn : id.toNat < 10 ^ 13 := by omega
    have hlen := natDigits_length 13 19 id.toNat (by norm_num) (by norm_num) hn
    refine ⟨?_, ?_, ?_, sscanfLd_BlockId2Str id h0 h1⟩
    · rw [BlockId2Str_eq id h0 h1, padLeft_length 13 _ hlen.2]
    · rw [BlockId2Str_eq id h0 h1]; rfl
    · intro c hc
      rw [BlockId2Str_eq id h0 h1] at hc
      simp only [padLeft, List.mem_append, List.mem_replicate] at hc
      rcases hc with hc | hc
      · exact Or.inl hc.2
      · obtain ⟨d, hd, rfl⟩ := natDigits_chars 19 _ c hc
        exact Or.inr (digitChar_isDigit d hd)
  · intro a b h0 hab hb
    exact BlockId2Str_lt a b h0 hab hb
  · intro bm start num hwf h0 h1
    have h := ListBlocks_ascending bm start num hwf h0 h1
    exact ⟨_, h.1, h.2.1, h.2.2⟩

/-- Witness of `BlockId2Str_key_order`: the key of block 5, the keys of blocks 5 and 12,
and `ListBlocks(4, 2)` on a store holding blocks 3, 5 and 12. -/
theorem BlockId2Str_key_order_witness :
    (BlockManager.BlockId2Str 5).length = 13
    ∧ BlockManager.BlockId2Str 5 < BlockManager.BlockId2Str 12
    ∧ ∃ blocks, sampleStore.ListBlocks 4 2 = some (true, blocks)
        ∧ blocks.Pairwise (fun x y => x.block_id < y.block_id)
        ∧ ∀ m ∈ blocks, 4 ≤ m.block_id :=
  ⟨(BlockId2Str_key_order.1 5 (by decide) (by decide)).1,
    BlockId2Str_key_order.2.1 5 12 (by decide) (by decide) (by decide),
    BlockId2Str_key_order.2.2 sampleStore 4 2 (by decide) (by decide) (by decide)⟩

/-! ### Placement: `GetStorePath` -/

/-- Counterexample to C10 as stated: with three store paths and block id -1 the code picks
index `(2 ^ 64 - 1) mod 3 = 0`, whereas `-1 mod 3` is 2. -/
theorem GetStorePath_negative_id :
    emptyManager.store_path_list.length = 3
    ∧ emptyManager.GetStorePath (-1) = "/a/"
    ∧ emptyManager.store_path_list[((-1 : Int) % 3).toNat]? = some "/c/"
    ∧ emptyManager.GetStorePathIndex (-1) ≠ ((-1 : Int) % 3).toNat := by
  decide

/-- C10, amended: for every non-empty store-path list of length N and every block id,
`GetStorePath(id)` returns the list element at index `(id mod 2 ^ 64) mod N`, which is
`id mod N` for every non-negative id; the index is always within bounds and the result
depends only on the id and the list. -/
theorem GetStorePath_index (bm : BlockManager) (block_id : Int)
    (hne : bm.store_path_list ≠ []) :
    bm.GetStorePathIndex block_id = (block_id % 2 ^ 64).toNat % bm.store_path_list.length
    ∧ bm.GetStorePathIndex block_id < bm.store_path_list.length
    ∧ bm.store_path_list[bm.GetStorePathIndex block_id]? = some (bm.GetStorePath block_id)
    ∧ (0 ≤ block_id → block_id < 2 ^ 63 →
        (bm.GetStorePathIndex block_id : Int) = block_id % bm.store_path_list.length)
    ∧ (∀ bm0 : BlockManager, bm0.store_path_list = bm.store_path_list →
        bm0.GetStorePath block_id = bm.GetStorePath block_id) := by
  have hpos : 0 < bm.store_path_list.length := List.length_pos.mpr hne
  have hlt : bm.GetStorePathIndex block_id < bm.store_path_list.length :=
    Nat.mod_lt _ hpos
  refine ⟨rfl, hlt, ?_, ?_, ?_⟩
  · unfold BlockManager.GetStorePath
    rw [List.getD_eq_getElem?_getD, List.getElem?_eq_getElem hlt]
    rfl
  · intro h0 h63
    unfold BlockManager.GetStorePathIndex
    have hmod : block_id % 2 ^ 64 = block_id := Int.emod_eq_of_lt h0 (by omega)
    rw [hmod]
    have : ((block_id.toNat % bm.store_path_list.length : Nat) : Int)
        = (block_id.toNat : Int) % (bm.store_path_list.length : Int) := Int.natCast_mod _ _
    rw [this, Int.toNat_of_nonneg h0]
  · intro bm0 h
    simp [BlockManager.GetStorePath, BlockManager.GetStorePathIndex, h]

/-- Witness of `GetStorePath_index`: block 5 on three store paths goes to index 2. -/
theorem GetStorePath_index_witness :
    emptyManager.GetStorePathIndex 5 = 2 ∧ emptyManager.GetStorePath 5 = "/c/" :=
  have h := GetStorePath_index emptyManager 5 (by decide)
  ⟨h.1.trans (by decide), Option.some.inj (h.2.2.1.symm.trans (by decide))⟩

/-! ### Admission control with `max_pending_buffers = 0` -/

/-- Counterexample to C17 as stated: with `max_pending_buffers = 0`, no outstanding buffer
and an empty work pool, the write is admitted: the response gets no status, the refused
counter stays 0 and the request is queued on the work pool. -/
theorem WriteBlock_zero_limit_admits :
    idleServer.FLAGS_chunkserver_max_pending_buffers = 0
    ∧ (idleServer.WriteBlock 101 sampleWrite freshWriteCall).2.response.status = none
    ∧ (idleServer.WriteBlock 101 sampleWrite freshWriteCall).2.done = 0
    ∧ (idleServer.WriteBlock 101 sampleWrite freshWriteCall).1.g_refuse_ops = 0
    ∧ (idleServer.WriteBlock 101 sampleWrite freshWriteCall).1.work_thread_pool.queue
        = [Task.WriteBlock sampleWrite] := by
  decide

/-- C17, amended: with `max_pending_buffers` configured as 0, every write request that
arrives while the outstanding-buffer count or the work-pool queue length is greater than 0
is answered with status 500, the refused counter is incremented by 1 and the block is not
created; a request that arrives while neither is greater than 0 is not refused: its status
and the refused counter are left as they were, the request is queued on the work pool, and
this entry does not create the block either. -/
theorem WriteBlock_zero_limit (cs : ChunkServerImpl) (now : Int)
    (request : WriteBlockRequest) (call : Call WriteBlockResponse)
    (hzero : cs.FLAGS_chunkserver_max_pending_buffers = 0)
    (hfirst : call.response.sequence_id = none) :
    (0 < cs.g_block_buffers ∨ 0 < cs.work_thread_pool.PendingNum →
        (cs.WriteBlock now request call).2.response.status = some 500
        ∧ (cs.WriteBlock now request call).2.done = call.done + 1
        ∧ (cs.WriteBlock now request call).1.g_refuse_ops = cs.g_refuse_ops + 1
        ∧ (cs.WriteBlock now request call).1.block_manager = cs.block_manager)
    ∧ (¬ (0 < cs.g_block_buffers ∨ 0 < cs.work_thread_pool.PendingNum) →
        (cs.WriteBlock now request call).2.response.status = call.response.status
        ∧ (cs.WriteBlock now request call).2.done = call.done
        ∧ (cs.WriteBlock now request call).1.g_refuse_ops = cs.g_refuse_ops
        ∧ (cs.WriteBlock now request call).1.work_thread_pool.queue
            = cs.work_thread_pool.queue ++ [Task.WriteBlock request]
        ∧ (cs.WriteBlock now request call).1.block_manager = cs.block_manager) := by
  constructor
  · intro h
    have hbusy : cs.g_block_buffers > cs.FLAGS_chunkserver_max_pending_buffers
        ∨ cs.work_thread_pool.PendingNum > cs.FLAGS_chunkserver_max_pending_buffers := by
      rw [hzero]; exact h
    simp [ChunkServerImpl.WriteBlock, hfirst, hbusy]
  · intro h
    have hidle : ¬ (cs.g_block_buffers > cs.FLAGS_chunkserver_max_pending_buffers
        ∨ cs.work_thread_pool.PendingNum > cs.FLAGS_chunkserver_max_pending_buffers) := by
      rw [hzero]; exact h
    simp only [ChunkServerImpl.WriteBlock, hfirst, Option.isNone_none, if_true, if_neg hidle]
    simp [ThreadPool.AddTask]

/-- Witness of `WriteBlock_zero_limit`: one outstanding buffer against a limit of 0. -/
theorem WriteBlock_zero_limit_witness :
    (loadedServer.WriteBlock 101 sampleWrite freshWriteCall).2.response.status = some 500
    ∧ (loadedServer.WriteBlock 101 sampleWrite freshWriteCall).1.g_refuse_ops = 1
    ∧ (loadedServer.WriteBlock 101 sampleWrite freshWriteCall).1.block_manager
        = sampleManager :=
  have h := (WriteBlock_zero_limit loadedServer 101 sampleWrite freshWriteCall rfl rfl).1
    (Or.inl (by decide))
  ⟨h.1, h.2.2.1, h.2.2.2⟩

/-! ### Retrying the forward on send-buffer-full -/

/-- One failed forward with the send-buffer-full error followed by the run of the delayed
task: one more asynchronous request with the same child request, nothing else changed. -/
theorem retry_round (cs : ChunkServerImpl) (SEND_BUFFER_FULL : Int)
    (next_request : WriteBlockRequest) (next_response : WriteBlockResponse)
    (next_server : String) (request : WriteBlockRequest) (call : Call WriteBlockResponse) :
    ((cs.WriteNextCallback SEND_BUFFER_FULL next_request next_response true SEND_BUFFER_FULL
        next_server request call).1.RunDelayedWriteNext,
      (cs.WriteNextCallback SEND_BUFFER_FULL next_request next_response true SEND_BUFFER_FULL
        next_server request call).2)
    = ({ cs with events := cs.events ++ [Event.AsyncWriteBlock next_server next_request] },
        call) := by
  simp [ChunkServerImpl.WriteNextCallback, ChunkServerImpl.RunDelayedWriteNext,
    ThreadPool.DelayTask, ChunkServerImpl.WriteNext]

theorem RetryRounds_eq (SEND_BUFFER_FULL : Int) (next_request : WriteBlockRequest)
    (next_response : WriteBlockResponse) (next_server : String) (request : WriteBlockRequest)
    (k : Nat) : ∀ (cs : ChunkServerImpl) (call : Call WriteBlockResponse),
    ChunkServerImpl.RetryRounds SEND_BUFFER_FULL next_request next_response next_server
        request k (cs, call)
      = ({ cs with events := cs.events
            ++ List.replicate k (Event.AsyncWriteBlock next_server next_request) }, call) := by
  induction k with
  | zero => intro cs call; simp [ChunkServerImpl.RetryRounds]
  | succ k ih =>
    intro cs call
    simp only [ChunkServerImpl.RetryRounds]
    rw [retry_round, ih]
    simp [List.replicate_succ]

/-- C18: for every `k`, when the child forward fails `k` times with the send-buffer-full
error and then succeeds with child status 0: each failure queues a task delayed by 10 ms
that carries the same child request and leaves the upstream call (status and `done`)
untouched; after the `k` rounds the forward has been re-issued exactly `k` times and the
pools and the block manager are as before; the successful callback then schedules exactly
one local append and still leaves the upstream call untouched, and that append, when it is
accepted, gives upstream status 0 and runs `done` once; a failure with any other transport
error queues no delayed task and re-issues nothing. -/
theorem WriteNext_retry (k : Nat) (cs : ChunkServerImpl) (SEND_BUFFER_FULL : Int)
    (next_request : WriteBlockRequest) (next_response : WriteBlockResponse)
    (next_server : String) (request : WriteBlockRequest) (call : Call WriteBlockResponse)
    (error : Int) (hok : next_response.status.getD 0 = 0) :
    (∀ (s : ChunkServerImpl) (c : Call WriteBlockResponse),
        (s.WriteNextCallback SEND_BUFFER_FULL next_request next_response true
            SEND_BUFFER_FULL next_server request c).1.work_thread_pool.delayed
          = s.work_thread_pool.delayed ++ [(10, Task.WriteNext next_server next_request request)]
        ∧ (s.WriteNextCallback SEND_BUFFER_FULL next_request next_response true
            SEND_BUFFER_FULL next_server request c).1.work_thread_pool.queue
          = s.work_thread_pool.queue
        ∧ (s.WriteNextCallback SEND_BUFFER_FULL next_request next_response true
            SEND_BUFFER_FULL next_server request c).2 = c)
    ∧ (∀ j, (ChunkServerImpl.RetryRounds SEND_BUFFER_FULL next_request next_response
          next_server request j (cs, call)).2 = call)
    ∧ (ChunkServerImpl.RetryRounds SEND_BUFFER_FULL next_request next_response next_server
          request k (cs, call)).1.events
        = cs.events ++ List.replicate k (Event.AsyncWriteBlock next_server next_request)
    ∧ (ChunkServerImpl.RetryRounds SEND_BUFFER_FULL next_request next_response next_server
          request k (cs, call)).1.work_thread_pool = cs.work_thread_pool
    ∧ (ChunkServerImpl.RetryRounds SEND_BUFFER_FULL next_request next_response next_server
          request k (cs, call)).1.block_manager = cs.block_manager
    ∧ (((ChunkServerImpl.RetryRounds SEND_BUFFER_FULL next_request next_response next_server
          request k (cs, call)).1.WriteNextCallback SEND_BUFFER_FULL next_request
          next_response false error next_server request call).1.work_thread_pool.queue
        = cs.work_thread_pool.queue ++ [Task.LocalWriteBlock request]
      ∧ ((ChunkServerImpl.RetryRounds SEND_BUFFER_FULL next_request next_response next_server
          request k (cs, call)).1.WriteNextCallback SEND_BUFFER_FULL next_request
          next_response false error next_server request call).1.events
        = cs.events ++ List.replicate k (Event.AsyncWriteBlock next_server next_request)
      ∧ ((ChunkServerImpl.RetryRounds SEND_BUFFER_FULL next_request next_response next_server
          request k (cs, call)).1.WriteNextCallback SEND_BUFFER_FULL next_request
          next_response false error next_server request call).2 = call)
    ∧ (∀ (s : ChunkServerImpl) (env : LocalWriteEnv), call.response.status = none →
        (s.block_manager.FindBlock request.block_id true env.put_ok).1 ≠ none →
        env.write_ok = true →
        (s.LocalWriteBlock env request call).2.response.status = some 0
        ∧ (s.LocalWriteBlock env request call).2.done = call.done + 1)
    ∧ (∀ (s : ChunkServerImpl) (c : Call WriteBlockResponse) (e : Int), e ≠ SEND_BUFFER_FULL →
        (s.WriteNextCallback SEND_BUFFER_FULL next_request next_response true e next_server
          request c).1 = s) := by
  refine ⟨?_, ?_, ?_, ?_, ?_, ?_, ?_, ?_⟩
  · intro s c
    simp [ChunkServerImpl.WriteNextCallback, ThreadPool.DelayTask]
  · intro j
    rw [RetryRounds_eq]
  · rw [RetryRounds_eq]
  · rw [RetryRounds_eq]
  · rw [RetryRounds_eq]
  · rw [RetryRounds_eq]
    simp [ChunkServerImpl.WriteNextCallback, hok, ThreadPool.AddTask]
  · intro s env hs hfound hw
    rcases hf : s.block_manager.FindBlock request.block_id true env.put_ok with ⟨o, bm⟩
    rw [hf] at hfound
    cases o with
    | none => exact absurd rfl hfound
    | some addr => simp [ChunkServerImpl.LocalWriteBlock, hf, hw, hs]
  · intro s c e he
    simp [ChunkServerImpl.WriteNextCallback, he]

/-- Witness of `WriteNext_retry`: the forward to `peerA` fails three times with
send-buffer-full (taken to be 31) and then succeeds with child status 0. -/
theorem WriteNext_retry_witness :
    (ChunkServerImpl.RetryRounds 31 chainChild (childResponse 0) "peerA" chainWrite 3
        (idleServer, queuedWriteCall)).1.events
      = [Event.AsyncWriteBlock "peerA" chainChild, Event.AsyncWriteBlock "peerA" chainChild,
         Event.AsyncWriteBlock "peerA" chainChild]
    ∧ ((ChunkServerImpl.RetryRounds 31 chainChild (childResponse 0) "peerA" chainWrite 3
        (idleServer, queuedWriteCall)).1.WriteNextCallback 31 chainChild (childResponse 0)
        false 0 "peerA" chainWrite queuedWriteCall).1.work_thread_pool.queue
      = [Task.LocalWriteBlock chainWrite]
    ∧ (idleServer.LocalWriteBlock envAccepted chainWrite queuedWriteCall).2.response.status
      = some 0 :=
  have h := WriteNext_retry 3 idleServer 31 chainChild (childResponse 0) "peerA" chainWrite
    queuedWriteCall 0 (by decide)
  ⟨h.2.2.1, h.2.2.2.2.2.1.1, (h.2.2.2.2.2.2.1 idleServer envAccepted rfl (by decide) rfl).1⟩

/-! ### Keys of all 64-bit ids: parsing back and injectivity -/

/-- Reading back a padded non-negative decimal gives the number, whatever the width of
the field. -/
theorem sscanfLd_pad_natDigits (p w f n : Nat) (hw : 1 ≤ w) (hf : w ≤ f) (hn : n < 10 ^ w) :
    sscanfLd (padLeft p (natDigits f n)) = some (n : Int) := by
  have hlen := natDigits_length w f n hw hf hn
  have hval := scanDigits_natDigits w f n hw hf hn
  unfold sscanfLd padLeft
  rw [dropWhile_spaces]
  cases hd : natDigits f n with
  | nil => rw [hd] at hlen; simp at hlen
  | cons c cs =>
    obtain ⟨d, hd10, rfl⟩ := natDigits_chars f n c (by rw [hd]; simp)
    rw [hd] at hval
    rw [List.dropWhile_cons]
    simp only [digitChar_not_space d hd10, Bool.false_eq_true, if_false]
    simp only [(digitChar_not_sign d hd10).1, (digitChar_not_sign d hd10).2, if_false,
      digitChar_isDigit d hd10, if_true, hval]

/-- Reading back a padded negative decimal gives the number. -/
theorem sscanfLd_pad_minus (p w f n : Nat) (hw : 1 ≤ w) (hf : w ≤ f) (hn : n < 10 ^ w) :
    sscanfLd (padLeft p ('-' :: natDigits f n)) = some (-(n : Int)) := by
  have hlen := natDigits_length w f n hw hf hn
  have hval := scanDigits_natDigits w f n hw hf hn
  have hminus : isSpaceChar '-' = false := by decide
  unfold sscanfLd padLeft
  rw [dropWhile_spaces, List.dropWhile_cons]
  simp only [hminus, Bool.false_eq_true, if_false, if_true]
  cases hd : natDigits f n with
  | nil => rw [hd] at hlen; simp at hlen
  | cons c cs =>
    obtain ⟨d, hd10, rfl⟩ := natDigits_chars f n c (by rw [hd]; simp)
    rw [hd] at hval
    simp only [digitChar_isDigit d hd10, if_true, hval]

theorem formatLong_length (id : Int) (hlo : -2 ^ 63 ≤ id) (hhi : id < 2 ^ 63) :
    (formatLong id).length ≤ 20 := by
  have hn : id.natAbs < 10 ^ 19 := by omega
  have hlen := natDigits_length 19 19 id.natAbs (by norm_num) (by norm_num) hn
  unfold formatLong
  split
  · simp only [List.length_cons]; omega
  · omega

/-- For a 64-bit id the buffer of `BlockId2Str` is never too short. -/
theorem BlockId2Str_int64 (id : Int) (hlo : -2 ^ 63 ≤ id) (hhi : id < 2 ^ 63) :
    BlockManager.BlockId2Str id = padLeft 13 (formatLong id) := by
  have h := formatLong_length id hlo hhi
  unfold BlockManager.BlockId2Str snprintf13ld
  apply List.take_of_length_le
  simp only [padLeft, List.length_append, List.length_replicate]
  omega

/-- `sscanf` reads every 64-bit id back from its key. -/
theorem sscanfLd_BlockId2Str_int64 (id : Int) (hlo : -2 ^ 63 ≤ id) (hhi : id < 2 ^ 63) :
    sscanfLd (BlockManager.BlockId2Str id) = some id := by
  have hn : id.natAbs < 10 ^ 19 := by omega
  rw [BlockId2Str_int64 id hlo hhi]
  unfold formatLong
  by_cases hneg : id < 0
  · rw [if_pos hneg, sscanfLd_pad_minus 13 19 19 id.natAbs (by norm_num) (by norm_num) hn]
    congr 1; omega
  · rw [if_neg hneg, sscanfLd_pad_natDigits 13 19 19 id.natAbs (by norm_num) (by norm_num) hn]
    congr 1; omega

/-- The block key is injective in the 64-bit block id. -/
theorem BlockId2Str_injective (a b : Int) (ha : -2 ^ 63 ≤ a ∧ a < 2 ^ 63)
    (hb : -2 ^ 63 ≤ b ∧ b < 2 ^ 63)
    (h : BlockManager.BlockId2Str a = BlockManager.BlockId2Str b) : a = b := by
  have h1 := sscanfLd_BlockId2Str_int64 a ha.1 ha.2
  have h2 := sscanfLd_BlockId2Str_int64 b hb.1 hb.2
  rw [h, h2] at h1
  exact (Option.some.inj h1).symm

section SeekPut

variable {κ β : Type} [LinearOrder κ] [DecidableRel (α := κ) (· < ·)] [DecidableEq κ]

/-- After a `Put` under `k`, an iterator sought to `k` stands on the row just written. -/
theorem kvSeek_kvPut_same (k : κ) (v : β) (m : List (κ × β)) :
    (kvSeek k (kvPut k v m)).head? = some (k, v) := by
  induction m with
  | nil => simp [kvPut, kvSeek]
  | cons p rest ih =>
    unfold kvPut
    by_cases h1 : k < p.1
    · rw [if_pos h1]; simp [kvSeek]
    · by_cases h2 : k = p.1
      · rw [if_neg h1, if_pos h2]; simp [kvSeek]
      · rw [if_neg h1, if_neg h2]
        have h3 : p.1 < k := lt_of_le_of_ne (not_lt.1 h1) (fun e => h2 e.symm)
        simp only [kvSeek, h3, if_true]
        exact ih

/-- A `Put` under another key does not move an iterator sought to `k` off the row it stood
on. -/
theorem kvSeek_kvPut_other (k k0 : κ) (v v0 : β) (m : List (κ × β)) (hne : k0 ≠ k)
    (h : (kvSeek k m).head? = some (k, v)) :
    (kvSeek k (kvPut k0 v0 m)).head? = some (k, v) := by
  induction m with
  | nil => simp [kvSeek] at h
  | cons p rest ih =>
    by_cases hp : p.1 < k
    · have hrest : (kvSeek k rest).head? = some (k, v) := by
        simpa [kvSeek, hp] using h
      unfold kvPut
      by_cases h1 : k0 < p.1
      · rw [if_pos h1]
        have h0 : k0 < k := lt_trans h1 hp
        simp only [kvSeek, h0, hp, if_true]
        exact hrest
      · by_cases h2 : k0 = p.1
        · rw [if_neg h1, if_pos h2]
          have h0 : k0 < k := h2 ▸ hp
          simp only [kvSeek, h0, if_true]
          exact hrest
        · rw [if_neg h1, if_neg h2]
          simp only [kvSeek, hp, if_true]
          exact ih hrest
    · have hpe : p = (k, v) := by
        simpa [kvSeek, hp] using h
      subst hpe
      unfold kvPut
      by_cases h1 : k0 < k
      · rw [if_pos h1]
        simp [kvSeek, h1]
      · rw [if_neg h1, if_neg hne]
        simp [kvSeek]

end SeekPut

/-- `ListBlocks(id, 1)` when the iterator sought to the key of `id` stands on the row of
the descriptor `m` of block `id`: the result is exactly `[m]`. -/
theorem ListBlocks_one (bm : BlockManager) (m : BlockMeta)
    (hlo : -2 ^ 63 ≤ m.block_id) (hhi : m.block_id < 2 ^ 63)
    (h : (kvSeek (BlockManager.BlockId2Str m.block_id) bm.metadb).head?
        = some (BlockManager.BlockId2Str m.block_id, DbValue.meta m)) :
    bm.ListBlocks m.block_id 1 = some (true, [m]) := by
  unfold BlockManager.ListBlocks
  cases hrows : kvSeek (BlockManager.BlockId2Str m.block_id) bm.metadb with
  | nil => rw [hrows] at h; simp at h
  | cons row rest =>
    rw [hrows] at h
    simp only [List.head?_cons, Option.some.injEq] at h
    subst h
    simp [BlockManager.ListBlocksLoop, sscanfLd_BlockId2Str_int64 m.block_id hlo hhi]

/-! ### Round trip through the metadata store -/

/-- C19: after a successful `SyncBlockMeta(m)`, `ListBlocks(m.block_id, 1)` returns exactly
`[m]`; the keys of two different 64-bit block ids differ; and in every store in which the
row of `m` is read back, a later successful `SyncBlockMeta` of a meta with a different
block id leaves `ListBlocks(m.block_id, 1)` returning exactly `[m]`. -/
theorem SyncBlockMeta_round_trip (bm : BlockManager) (m m2 : BlockMeta)
    (hm : -2 ^ 63 ≤ m.block_id ∧ m.block_id < 2 ^ 63)
    (hm2 : -2 ^ 63 ≤ m2.block_id ∧ m2.block_id < 2 ^ 63) :
    (bm.SyncBlockMeta m true).1 = true
    ∧ (bm.SyncBlockMeta m true).2.ListBlocks m.block_id 1 = some (true, [m])
    ∧ (m2.block_id ≠ m.block_id →
        BlockManager.BlockId2Str m2.block_id ≠ BlockManager.BlockId2Str m.block_id
        ∧ ((bm.SyncBlockMeta m true).2.SyncBlockMeta m2 true).2.ListBlocks m.block_id 1
            = some (true, [m])
        ∧ ∀ bm0 : BlockManager,
            (kvSeek (BlockManager.BlockId2Str m.block_id) bm0.metadb).head?
              = some (BlockManager.BlockId2Str m.block_id, DbValue.meta m) →
            bm0.ListBlocks m.block_id 1 = some (true, [m])
            ∧ (bm0.SyncBlockMeta m2 true).2.ListBlocks m.block_id 1 = some (true, [m])) := by
  have hput : (kvSeek (BlockManager.BlockId2Str m.block_id)
      (bm.SyncBlockMeta m true).2.metadb).head?
      = some (BlockManager.BlockId2Str m.block_id, DbValue.meta m) :=
    kvSeek_kvPut_same _ _ _
  refine ⟨rfl, ListBlocks_one _ m hm.1 hm.2 hput, ?_⟩
  intro hne
  have hkey : BlockManager.BlockId2Str m2.block_id ≠ BlockManager.BlockId2Str m.block_id :=
    fun h => hne (BlockId2Str_injective _ _ hm2 hm h)
  have hother : ∀ bm0 : BlockManager,
      (kvSeek (BlockManager.BlockId2Str m.block_id) bm0.metadb).head?
        = some (BlockManager.BlockId2Str m.block_id, DbValue.meta m) →
      (kvSeek (BlockManager.BlockId2Str m.block_id) (bm0.SyncBlockMeta m2 true).2.metadb).head?
        = some (BlockManager.BlockId2Str m.block_id, DbValue.meta m) :=
    fun bm0 h => kvSeek_kvPut_other _ _ _ _ _ hkey h
  refine ⟨hkey, ListBlocks_one _ m hm.1 hm.2 (hother _ hput), ?_⟩
  intro bm0 h
  exact ⟨ListBlocks_one _ m hm.1 hm.2 h, ListBlocks_one _ m hm.1 hm.2 (hother bm0 h)⟩

/-- Witness of `SyncBlockMeta_round_trip`: the meta of block -7 is written to the store
holding blocks 3, 5 and 12 and read back, also after the meta of block 10 ^ 13 is
written. -/
theorem SyncBlockMeta_round_trip_witness :
    (sampleStore.SyncBlockMeta { block_id := -7, block_size := 9, version := 4 }
        true).2.ListBlocks (-7) 1
      = some (true, [{ block_id := -7, block_size := 9, version := 4 }])
    ∧ ((sampleStore.SyncBlockMeta { block_id := -7, block_size := 9, version := 4 }
        true).2.SyncBlockMeta { block_id := 10 ^ 13, block_size := 0, version := 0 }
        true).2.ListBlocks (-7) 1
      = some (true, [{ block_id := -7, block_size := 9, version := 4 }]) :=
  have h := SyncBlockMeta_round_trip sampleStore
    { block_id := -7, block_size := 9, version := 4 }
    { block_id := 10 ^ 13, block_size := 0, version := 0 } (by decide) (by decide)
  ⟨h.2.1, (h.2.2 (by decide)).2.1⟩

/-! ### The sweep of the block report -/

theorem runsOf_flatten {α : Type} (size : Nat) (n : Nat) :
    ∀ l : List α, (runsOf size n l).flatten = l.take (n * size) := by
  induction n with
  | zero => intro l; simp [runsOf]
  | succ n ih =>
    intro l
    simp only [runsOf, List.flatten_cons, ih]
    rw [List.take_drop]
    have h : (n + 1) * size = size + n * size := by ring
    rw [h]
    conv_rhs => rw [← List.take_append_drop size l]
    rw [List.take_append_eq_append_take]
    simp only [List.take_take, List.length_take]
    congr 1
    · congr 1; omega
    · by_cases hl : size ≤ l.length
      · rw [min_eq_left hl, Nat.add_sub_cancel_left]
        rw [List.take_drop]
      · have hl2 : l.length ≤ size := by omega
        rw [List.drop_eq_nil_of_le hl2]
        simp [hl2]

/-- The rows an iterator yields from the key of an id in `[0, 10 ^ 13)` on are block rows. -/
theorem kvSeek_blockRows (db : List (DbKey × DbValue)) (start : Int)
    (hwf : ∀ kv ∈ db, kv.1 = BlockManager.version_key ∨ isBlockRow kv = true)
    (h0 : 0 ≤ start) (h1 : start < 10 ^ 13) :
    ∀ kv ∈ kvSeek (BlockManager.BlockId2Str start) db, isBlockRow kv = true := by
  have hver : BlockManager.version_key < BlockManager.BlockId2Str start := by
    have hv0 : BlockManager.version_key < BlockManager.BlockId2Str 0 := by decide
    rcases eq_or_lt_of_le h0 with h | h
    · rw [← h]; exact hv0
    · exact lt_trans hv0 (BlockId2Str_lt 0 start le_rfl h h1)
  intro kv hkv
  rcases hwf kv ((kvSeek_sublist _ _).subset hkv) with h | h
  · exact absurd (h ▸ hver) (kvSeek_not_lt _ _ kv hkv)
  · exact h

theorem filterMap_take_blockRows (rows : List (DbKey × DbValue))
    (hrows : ∀ kv ∈ rows, isBlockRow kv = true) :
    ∀ n, (rows.take n).filterMap rowMeta = (rows.filterMap rowMeta).take n := by
  induction rows with
  | nil => intro n; simp
  | cons kv rest ih =>
    intro n
    obtain ⟨m, rfl, -, -⟩ := (isBlockRow_iff kv).1 (hrows kv (by simp))
    cases n with
    | zero => simp
    | succ n =>
      have := ih (fun kv h => hrows kv (by simp [h])) n
      simp [rowMeta, List.filterMap_cons, this]

/-- On a well-formed store `ListBlocks(start, num)` returns the first `max num 1` stored
descriptors with ids from `start` on. -/
theorem ListBlocks_storedFrom (bm : BlockManager) (start num : Int)
    (hwf : StoreWellFormed bm.metadb) (h0 : 0 ≤ start) (h1 : start < 10 ^ 13) :
    bm.ListBlocks start num = some (true, (storedFrom bm start).take (max num 1).toNat) := by
  rw [(ListBlocks_ascending bm start num hwf h0 h1).1]
  unfold storedFrom
  rw [filterMap_take_blockRows _ (kvSeek_blockRows _ start hwf.2 h0 h1)]

theorem storedFrom_range (bm : BlockManager) (start : Int)
    (hwf : StoreWellFormed bm.metadb) (h0 : 0 ≤ start) (h1 : start < 10 ^ 13) :
    ∀ m ∈ storedFrom bm start, start ≤ m.block_id ∧ m.block_id < 10 ^ 13 := by
  intro m hm
  obtain ⟨kv, hkv, hmeta⟩ := List.mem_filterMap.1 hm
  obtain ⟨m1, rfl, a0, a1⟩ := (isBlockRow_iff kv).1 (kvSeek_blockRows _ start hwf.2 h0 h1 kv hkv)
  simp only [rowMeta, Option.some.injEq] at hmeta
  subst hmeta
  exact ⟨(BlockId2Str_le_iff m1.block_id start a0 a1 h0 h1).1 (kvSeek_not_lt _ _ _ hkv), a1⟩

theorem storedFrom_sorted (bm : BlockManager) (start : Int)
    (hwf : StoreWellFormed bm.metadb) (h0 : 0 ≤ start) (h1 : start < 10 ^ 13) :
    (storedFrom bm start).Pairwise (fun x y => x.block_id < y.block_id) := by
  have h := (ListBlocks_ascending bm start
    ((kvSeek (BlockManager.BlockId2Str start) bm.metadb).length : Int) hwf h0 h1).2.1
  have hlen : (kvSeek (BlockManager.BlockId2Str start) bm.metadb).length
      ≤ (max ((kvSeek (BlockManager.BlockId2Str start) bm.metadb).length : Int) 1).toNat := by
    omega
  rw [List.take_of_length_le hlen] at h
  exact h

theorem mem_kvSeek {κ β : Type} [LT κ] [DecidableRel (α := κ) (· < ·)] (k : κ)
    (m : List (κ × β)) (kv : κ × β) (hmem : kv ∈ m) (h : ¬ kv.1 < k) : kv ∈ kvSeek k m := by
  induction m with
  | nil => simp at hmem
  | cons p rest ih =>
    unfold kvSeek
    rcases List.mem_cons.1 hmem with rfl | hmem
    · simp [h]
    · by_cases hp : p.1 < k
      · simp only [hp, if_true]; exact ih hmem
      · simp only [hp, if_false]; exact List.mem_cons_of_mem _ (ih hmem)

/-- Every block row of the store is among the descriptors listed from id 0 on. -/
theorem storedFrom_zero_complete (bm : BlockManager) :
    ∀ kv ∈ bm.metadb, isBlockRow kv = true → ∀ m, rowMeta kv = some m →
      m ∈ storedFrom bm 0 := by
  intro kv hkv hblock m hm
  obtain ⟨m1, rfl, a0, a1⟩ := (isBlockRow_iff kv).1 hblock
  refine List.mem_filterMap.2 ⟨_, mem_kvSeek _ _ _ hkv ?_, hm⟩
  exact (BlockId2Str_le_iff m1.block_id 0 a0 a1 le_rfl (by norm_num)).2 a0

/-- Seeking to the key of `start` keeps the stored descriptors with ids from `start` on. -/
theorem storedFrom_filter (db : List (DbKey × DbValue)) (start : Int)
    (hwf : ∀ kv ∈ db, kv.1 = BlockManager.version_key ∨ isBlockRow kv = true)
    (h0 : 0 ≤ start) (h1 : start < 10 ^ 13) :
    (kvSeek (BlockManager.BlockId2Str start) db).filterMap rowMeta
      = ((kvSeek (BlockManager.BlockId2Str 0) db).filterMap rowMeta).filter
          (fun m => decide (start ≤ m.block_id)) := by
  have hver : ∀ s : Int, 0 ≤ s → s < 10 ^ 13 →
      BlockManager.version_key < BlockManager.BlockId2Str s := by
    intro s hs0 hs1
    have hv0 : BlockManager.version_key < BlockManager.BlockId2Str 0 := by decide
    rcases eq_or_lt_of_le hs0 with h | h
    · rw [← h]; exact hv0
    · exact lt_trans hv0 (BlockId2Str_lt 0 s le_rfl h hs1)
  induction db with
  | nil => simp [kvSeek]
  | cons kv rest ih =>
    have ihr := ih (fun kv h => hwf kv (by simp [h]))
    rcases hwf kv (by simp) with hv | hb
    · have e1 : kv.1 < BlockManager.BlockId2Str start := hv ▸ hver start h0 h1
      have e2 : kv.1 < BlockManager.BlockId2Str 0 := hv ▸ hver 0 le_rfl (by norm_num)
      simp only [kvSeek, e1, e2, if_true]
      exact ihr
    · obtain ⟨m1, rfl, a0, a1⟩ := (isBlockRow_iff kv).1 hb
      have e2 : ¬ BlockManager.BlockId2Str m1.block_id < BlockManager.BlockId2Str 0 :=
        (BlockId2Str_le_iff m1.block_id 0 a0 a1 le_rfl (by norm_num)).2 a0
      by_cases hs : start ≤ m1.block_id
      · have e1 : ¬ BlockManager.BlockId2Str m1.block_id < BlockManager.BlockId2Str start :=
          (BlockId2Str_le_iff m1.block_id start a0 a1 h0 h1).2 hs
        simp only [kvSeek, e1, e2, if_false, List.filterMap_cons, rowMeta, List.filter_cons,
          hs, decide_True, if_true]
        rw [← ihr]
      · have e1 : BlockManager.BlockId2Str m1.block_id < BlockManager.BlockId2Str start := by
          by_contra hcon
          exact hs ((BlockId2Str_le_iff m1.block_id start a0 a1 h0 h1).1 hcon)
        simp only [kvSeek, e1, e2, if_false, if_true, List.filterMap_cons, rowMeta,
          List.filter_cons, hs, decide_False]
        rw [← ihr]; rfl

/-- In a strictly ascending list, the elements above an element are those after it. -/
theorem filter_after (pre suf : List BlockMeta) (x : BlockMeta)
    (h : (pre ++ x :: suf).Pairwise (fun a b => a.block_id < b.block_id)) :
    (pre ++ x :: suf).filter (fun m => decide (x.block_id + 1 ≤ m.block_id)) = suf := by
  rw [List.pairwise_append] at h
  obtain ⟨-, hx, hpre⟩ := h
  rw [List.pairwise_cons] at hx
  rw [List.filter_append, List.filter_cons]
  have h1 : pre.filter (fun m => decide (x.block_id + 1 ≤ m.block_id)) = [] := by
    rw [List.filter_eq_nil_iff]
    intro a ha
    have := hpre a ha x (by simp)
    simp only [decide_eq_true_eq, not_le]; omega
  have h2 : suf.filter (fun m => decide (x.block_id + 1 ≤ m.block_id)) = suf := by
    rw [List.filter_eq_self]
    intro a ha
    have := hx.1 a ha
    simp only [decide_eq_true_eq]; omega
  have h3 : ¬ (x.block_id + 1 ≤ x.block_id) := by omega
  simp [h1, h2, h3]

/-- One cycle of the report on a listing that succeeds. -/
theorem BuildBlockReport_eq (cs : ChunkServerImpl) (blockreport_size : Int) (ok : Bool)
    (blocks : List BlockMeta)
    (h : cs.block_manager.ListBlocks (cs.last_report_blockid + 1) blockreport_size
      = some (ok, blocks)) :
    ∃ request cs1, cs.BuildBlockReport blockreport_size = some (request, cs1)
      ∧ request.blocks = blocks.map ReportBlockInfo.ofMeta
      ∧ cs1.block_manager = cs.block_manager
      ∧ (request.is_complete = true ↔ (blocks.length : Int) < blockreport_size)
      ∧ ((blocks.length : Int) < blockreport_size → cs1.last_report_blockid = -1)
      ∧ (¬ (blocks.length : Int) < blockreport_size →
          ∀ last, blocks.getLast? = some last → cs1.last_report_blockid = last.block_id) := by
  unfold ChunkServerImpl.BuildBlockReport
  rw [h]
  dsimp only
  by_cases hlt : (blocks.length : Int) < blockreport_size
  · rw [if_pos hlt]
    exact ⟨_, _, rfl, rfl, rfl, ⟨fun _ => hlt, fun _ => rfl⟩, fun _ => rfl,
      fun hn => absurd hlt hn⟩
  · rw [if_neg hlt]
    cases hl : blocks.getLast? with
    | none =>
      exact ⟨_, _, rfl, rfl, rfl, ⟨fun hc => by simp at hc, fun hn => absurd hn hlt⟩,
        fun hn => absurd hn hlt, fun _ last hlast => by simp at hlast⟩
    | some last =>
      exact ⟨_, _, rfl, rfl, rfl, ⟨fun hc => by simp at hc, fun hn => absurd hn hlt⟩,
        fun hn => absurd hn hlt, fun _ last0 hlast => by
          simp only [Option.some.injEq] at hlast
          rw [hlast]⟩

theorem BlockReportCycles_runs (blockreport_size : Int) (hsize : 1 ≤ blockreport_size)
    (n : Nat) : ∀ (cs : ChunkServerImpl) (pre rem : List BlockMeta),
    StoreWellFormed cs.block_manager.metadb →
    storedFrom cs.block_manager 0 = pre ++ rem →
    0 ≤ cs.last_report_blockid + 1 → cs.last_report_blockid + 1 < 10 ^ 13 →
    storedFrom cs.block_manager (cs.last_report_blockid + 1) = rem →
    (n = 0 ∨ (n - 1) * blockreport_size.toNat < rem.length) →
    ∃ requests cs1, ChunkServerImpl.BlockReportCycles blockreport_size n cs
        = some (requests, cs1)
      ∧ cs1.block_manager = cs.block_manager
      ∧ requests.map (fun r => r.blocks)
          = (runsOf blockreport_size.toNat n rem).map (List.map ReportBlockInfo.ofMeta) := by
  have hs1 : 1 ≤ blockreport_size.toNat := by omega
  have hmax : (max blockreport_size 1).toNat = blockreport_size.toNat := by
    rw [max_eq_left hsize]
  induction n with
  | zero =>
    intro cs pre rem _ _ _ _ _ _
    exact ⟨[], cs, rfl, rfl, rfl⟩
  | succ n ih =>
    intro cs pre rem hwf hall h0 h1 hrem hn
    have hlist := ListBlocks_storedFrom cs.block_manager (cs.last_report_blockid + 1)
      blockreport_size hwf h0 h1
    rw [hrem, hmax] at hlist
    obtain ⟨request, cs1, hbuild, hblocks, hbm, -, -, hlast⟩ :=
      BuildBlockReport_eq cs blockreport_size true _ hlist
    simp only [ChunkServerImpl.BlockReportCycles, hbuild]
    rcases Nat.eq_zero_or_pos n with hn0 | hnpos
    · subst hn0
      refine ⟨[request], cs1, rfl, hbm, ?_⟩
      simp [runsOf, hblocks]
    · -- more cycles follow: this batch is full and rows remain
      have hlen : n * blockreport_size.toNat < rem.length := by
        rcases hn with h | h
        · omega
        · simpa using h
      have hfull : blockreport_size.toNat < rem.length := by
        calc blockreport_size.toNat = 1 * blockreport_size.toNat := by ring
          _ ≤ n * blockreport_size.toNat := Nat.mul_le_mul_right _ hnpos
          _ < rem.length := hlen
      have htake_len : (rem.take blockreport_size.toNat).length = blockreport_size.toNat := by
        rw [List.length_take]; omega
      have hnotlt : ¬ ((rem.take blockreport_size.toNat).length : Int) < blockreport_size := by
        rw [htake_len]; omega
      have htake_ne : rem.take blockreport_size.toNat ≠ [] := by
        intro h; rw [h] at htake_len; simp at htake_len; omega
      have hcur := hlast hnotlt _ (List.getLast?_eq_getLast _ htake_ne)
      have hsplit : rem.take blockreport_size.toNat
          = (rem.take blockreport_size.toNat).dropLast
            ++ [(rem.take blockreport_size.toNat).getLast htake_ne] :=
        (List.dropLast_append_getLast htake_ne).symm
      have hdrop_ne : rem.drop blockreport_size.toNat ≠ [] := by
        intro h
        have := congrArg List.length h
        simp at this; omega
      obtain ⟨y, suf, hy⟩ := List.exists_cons_of_ne_nil hdrop_ne
      have hsorted := storedFrom_sorted cs.block_manager 0 hwf le_rfl (by norm_num)
      have hrange := storedFrom_range cs.block_manager 0 hwf le_rfl (by norm_num)
      have hwhole : storedFrom cs.block_manager 0
          = (pre ++ (rem.take blockreport_size.toNat).dropLast)
            ++ (rem.take blockreport_size.toNat).getLast htake_ne
              :: rem.drop blockreport_size.toNat := by
        rw [hall]
        conv_lhs => rw [← List.take_append_drop blockreport_size.toNat rem, hsplit]
        simp
      have hfilter := filter_after _ _ _ (hwhole ▸ hsorted)
      rw [← hwhole] at hfilter
      have hx_mem : (rem.take blockreport_size.toNat).getLast htake_ne
          ∈ storedFrom cs.block_manager 0 := by
        rw [hwhole]; simp
      have hy_mem : y ∈ storedFrom cs.block_manager 0 := by
        rw [hwhole, hy]; simp
      have hxy : ((rem.take blockreport_size.toNat).getLast htake_ne).block_id < y.block_id := by
        have hp := hwhole ▸ hsorted
        rw [List.pairwise_append] at hp
        have := (List.pairwise_cons.1 hp.2.1).1 y (by rw [hy]; simp)
        exact this
      have hx0 := (hrange _ hx_mem).1
      have hy1 := (hrange _ hy_mem).2
      have hcur0 : 0 ≤ cs1.last_report_blockid + 1 := by rw [hcur]; omega
      have hcur1 : cs1.last_report_blockid + 1 < 10 ^ 13 := by rw [hcur]; omega
      have hrem1 : storedFrom cs1.block_manager (cs1.last_report_blockid + 1)
          = rem.drop blockreport_size.toNat := by
        rw [hbm]
        unfold storedFrom
        rw [storedFrom_filter _ _ hwf.2 hcur0 hcur1, hcur]
        exact hfilter
      have hall1 : storedFrom cs1.block_manager 0
          = (pre ++ rem.take blockreport_size.toNat) ++ rem.drop blockreport_size.toNat := by
        rw [hbm, hall, List.append_assoc, List.take_append_drop]
      have hn1 : n = 0 ∨ (n - 1) * blockreport_size.toNat
          < (rem.drop blockreport_size.toNat).length := by
        right
        rw [List.length_drop]
        have : (n - 1) * blockreport_size.toNat + blockreport_size.toNat
            = n * blockreport_size.toNat := by
          obtain ⟨k, rfl⟩ : ∃ k, n = k + 1 := ⟨n - 1, by omega⟩
          simp; ring
        omega
      obtain ⟨requests, cs2, hcyc, hbm2, hruns⟩ :=
        ih cs1 _ _ (hbm ▸ hwf) hall1 hcur0 hcur1 hrem1 hn1
      refine ⟨request :: requests, cs2, ?_, hbm2.trans hbm, ?_⟩
      · rw [hcyc]
      · simp only [List.map_cons, runsOf, hblocks, hruns]

/-- Counterexample to C11 as stated: the store holds blocks -5 and 12 and
`blockreport_size` is 1. The key of -5 lies between the keys of 0 and 12, and the key of
-4, where the second cycle starts, lies below the key of -5: the first two cycles both
list block -5 and block 12 is not listed. -/
theorem BlockReport_sweep_misses_block :
    kvFind (BlockManager.BlockId2Str 12) negativeServer.block_manager.metadb
      = some (DbValue.meta { block_id := 12, block_size := 0, version := 0 })
    ∧ kvFind (BlockManager.BlockId2Str (-5)) negativeServer.block_manager.metadb
      = some (DbValue.meta { block_id := -5, block_size := 0, version := 0 })
    ∧ negativeServer.block_manager.metadb.length = 2
    ∧ negativeServer.last_report_blockid = -1
    ∧ (ChunkServerImpl.BlockReportCycles 1 2 negativeServer).map
        (fun r => (r.1.map (fun q => (q.blocks.map (fun i => i.block_id), q.is_complete)),
          r.2.last_report_blockid))
      = some ([([-5], false), ([-5], false)], -5) := by
  decide

/-- C11, amended: for a fixed set of stored blocks whose ids all lie in `[0, 10 ^ 13)` and
`blockreport_size >= 1`, starting with the report cursor at -1: the stored blocks listed
from id 0 on are all the block rows, in strictly ascending id; the batches listed by `n`
cycles, as long as the cycles before the last one have not exhausted the blocks, are the
first `n` consecutive runs of `blockreport_size` of them, and together they are all of them
once `n * blockreport_size` reaches their number; and every cycle sets `is_complete`
exactly when it listed fewer than `blockreport_size` blocks, then resetting the cursor
to -1, and otherwise moves the cursor to the last listed id. -/
theorem BlockReport_sweep (cs : ChunkServerImpl) (blockreport_size : Int) (n : Nat)
    (hwf : StoreWellFormed cs.block_manager.metadb) (hsize : 1 ≤ blockreport_size)
    (hcur : cs.last_report_blockid = -1)
    (hn : n = 0
      ∨ (n - 1) * blockreport_size.toNat < (storedFrom cs.block_manager 0).length) :
    (∀ kv ∈ cs.block_manager.metadb, isBlockRow kv = true → ∀ m, rowMeta kv = some m →
        m ∈ storedFrom cs.block_manager 0)
    ∧ (storedFrom cs.block_manager 0).Pairwise (fun x y => x.block_id < y.block_id)
    ∧ (∃ requests cs1,
        ChunkServerImpl.BlockReportCycles blockreport_size n cs = some (requests, cs1)
        ∧ requests.map (fun r => r.blocks)
            = (runsOf blockreport_size.toNat n (storedFrom cs.block_manager 0)).map
                (List.map ReportBlockInfo.ofMeta)
        ∧ ((storedFrom cs.block_manager 0).length ≤ n * blockreport_size.toNat →
            (requests.map (fun r => r.blocks)).flatten
              = (storedFrom cs.block_manager 0).map ReportBlockInfo.ofMeta))
    ∧ (∀ (cs0 : ChunkServerImpl) (request : BlockReportRequest) (cs1 : ChunkServerImpl),
        cs0.BuildBlockReport blockreport_size = some (request, cs1) →
        (request.is_complete = true ↔ (request.blocks.length : Int) < blockreport_size)
        ∧ ((request.blocks.length : Int) < blockreport_size → cs1.last_report_blockid = -1)
        ∧ (¬ (request.blocks.length : Int) < blockreport_size →
            ∃ last, request.blocks.getLast? = some last
              ∧ cs1.last_report_blockid = last.block_id)) := by
  refine ⟨storedFrom_zero_complete cs.block_manager,
    storedFrom_sorted cs.block_manager 0 hwf le_rfl (by norm_num), ?_, ?_⟩
  · obtain ⟨requests, cs1, hcyc, -, hruns⟩ :=
      BlockReportCycles_runs blockreport_size hsize n cs [] (storedFrom cs.block_manager 0)
        hwf rfl (by rw [hcur]; norm_num) (by rw [hcur]; norm_num) (by rw [hcur]; rfl) hn
    refine ⟨requests, cs1, hcyc, hruns, ?_⟩
    intro hall
    rw [hruns, ← List.map_flatten, runsOf_flatten, List.take_of_length_le hall]
  · intro cs0 request cs1 hbuild
    cases hlist : cs0.block_manager.ListBlocks (cs0.last_report_blockid + 1)
        blockreport_size with
    | none => simp [ChunkServerImpl.BuildBlockReport, hlist] at hbuild
    | some r =>
      obtain ⟨ok, blocks⟩ := r
      obtain ⟨request0, cs2, hb, hblocks, -, hcomplete, hreset, hmove⟩ :=
        BuildBlockReport_eq cs0 blockreport_size ok blocks hlist
      rw [hb] at hbuild
      simp only [Option.some.injEq, Prod.mk.injEq] at hbuild
      obtain ⟨rfl, rfl⟩ := hbuild
      have hlen : request0.blocks.length = blocks.length := by rw [hblocks]; simp
      rw [hlen]
      refine ⟨hcomplete, hreset, ?_⟩
      intro hfull
      have hne : blocks ≠ [] := by
        intro h; rw [h] at hfull; simp at hfull; omega
      refine ⟨ReportBlockInfo.ofMeta (blocks.getLast hne), ?_, ?_⟩
      · rw [hblocks, List.getLast?_map, List.getLast?_eq_getLast _ hne]; rfl
      · exact hmove hfull _ (List.getLast?_eq_getLast _ hne)

/-- Witness of `BlockReport_sweep`: blocks 3, 5 and 12 reported two at a time in two
cycles. -/
theorem BlockReport_sweep_witness :
    ∃ requests cs1, ChunkServerImpl.BlockReportCycles 2 2 reportServer = some (requests, cs1)
      ∧ requests.map (fun r => r.blocks)
          = (runsOf 2 2 (storedFrom reportServer.block_manager 0)).map
              (List.map ReportBlockInfo.ofMeta)
      ∧ ((storedFrom reportServer.block_manager 0).length ≤ 2 * 2 →
          (requests.map (fun r => r.blocks)).flatten
            = (storedFrom reportServer.block_manager 0).map ReportBlockInfo.ofMeta) :=
  (BlockReport_sweep reportServer 2 2 (by decide) (by decide) (by decide)
    (Or.inr (by decide))).2.2.1

/-! ### The identity state after a block report -/

/-- What handling a response with status 0 does to the identity state when the store
accepts the write. -/
theorem HandleBlockReportResponse_ok (cs : ChunkServerImpl) (response : BlockReportResponse)
    (hstatus : response.status = 0) :
    ∃ cs1, cs.HandleBlockReportResponse response true = some cs1
      ∧ cs1.block_manager.namespace_version = response.namespace_version
      ∧ cs1.chunkserver_id
          = (if cs.block_manager.namespace_version ≠ response.namespace_version then
              response.chunkserver_id
            else if response.chunkserver_id = -1 then cs.chunkserver_id
            else response.chunkserver_id)
      ∧ cs1.block_manager
          = (if cs.block_manager.namespace_version ≠ response.namespace_version then
              (cs.block_manager.SetNameSpaceVersion response.namespace_version true).2
            else cs.block_manager)
      ∧ cs1.events = cs.events
      ∧ cs1.last_report_blockid = cs.last_report_blockid := by
  unfold ChunkServerImpl.HandleBlockReportResponse
  simp only [hstatus, ne_eq, not_true_eq_false, if_false, kUnknownChunkServerId]
  by_cases hv : cs.block_manager.namespace_version = response.namespace_version
  · by_cases h1 : response.chunkserver_id = -1
    · by_cases ho : response.obsolete_blocks = [] <;>
        by_cases hr : response.new_replicas = [] <;>
        simp [hv, h1, ho, hr]
    · by_cases h2 : cs.chunkserver_id = -1
      · by_cases ho : response.obsolete_blocks = [] <;>
          by_cases hr : response.new_replicas = [] <;>
          simp [hv, h1, h2, ho, hr]
      · by_cases h3 : cs.chunkserver_id = response.chunkserver_id
        · by_cases ho : response.obsolete_blocks = [] <;>
            by_cases hr : response.new_replicas = [] <;>
            simp [hv, h1, h2, h3, ho, hr]
        · by_cases ho : response.obsolete_blocks = [] <;>
            by_cases hr : response.new_replicas = [] <;>
            simp [hv, h1, h2, h3, ho, hr]
  · by_cases ho : response.obsolete_blocks = [] <;>
      by_cases hr : response.new_replicas = [] <;>
      simp [hv, ho, hr, BlockManager.SetNameSpaceVersion]

/-- C12: handling the same block-report response a second time (status 0, metadata-store
writes succeeding) leaves `chunkserver_id`, the in-memory `namespace_version` and the
whole block manager, with the persisted version, exactly as they were after the first
handling, for every initial state and every response. -/
theorem HandleBlockReportResponse_idempotent (cs : ChunkServerImpl)
    (response : BlockReportResponse) (hstatus : response.status = 0) :
    ∃ cs1 cs2, cs.HandleBlockReportResponse response true = some cs1
      ∧ cs1.HandleBlockReportResponse response true = some cs2
      ∧ cs2.chunkserver_id = cs1.chunkserver_id
      ∧ cs2.block_manager.namespace_version = cs1.block_manager.namespace_version
      ∧ cs2.block_manager = cs1.block_manager := by
  obtain ⟨cs1, h1, hv1, hid1, -, -, -⟩ := HandleBlockReportResponse_ok cs response hstatus
  obtain ⟨cs2, h2, hv2, hid2, hbm2, -, -⟩ := HandleBlockReportResponse_ok cs1 response hstatus
  refine ⟨cs1, cs2, h1, h2, ?_, by rw [hv2, hv1], ?_⟩
  · rw [hid2, hv1]
    simp only [ne_eq, not_true_eq_false, if_false]
    by_cases hr : response.chunkserver_id = -1
    · rw [if_pos hr]
    · rw [if_neg hr, hid1]
      by_cases hv : cs.block_manager.namespace_version = response.namespace_version
      · simp [hv, hr]
      · simp [hv]
  · rw [hbm2, hv1]
    simp

/-- Witness of `HandleBlockReportResponse_idempotent`: the response with namespace
version 9 and chunkserver id 11 handled twice by a node with version 7 and id 3. -/
theorem HandleBlockReportResponse_idempotent_witness :
    ∃ cs1 cs2, resetServer.HandleBlockReportResponse (reportResponse 9 11) true = some cs1
      ∧ cs1.HandleBlockReportResponse (reportResponse 9 11) true = some cs2
      ∧ cs2.chunkserver_id = cs1.chunkserver_id
      ∧ cs2.block_manager.namespace_version = cs1.block_manager.namespace_version
      ∧ cs2.block_manager = cs1.block_manager :=
  HandleBlockReportResponse_idempotent resetServer (reportResponse 9 11) rfl

/-- Counterexample to C13 as stated: the node has namespace version 7 and chunkserver
id 3; the response has status 0, namespace version 9 and chunkserver id -1. The versions
differ, so the id of the response is adopted: the node's id becomes -1. -/
theorem HandleBlockReportResponse_unknown_id_adopted :
    resetServer.chunkserver_id = 3
    ∧ resetServer.block_manager.namespace_version = 7
    ∧ (reportResponse 9 (-1)).status = 0
    ∧ (reportResponse 9 (-1)).chunkserver_id = -1
    ∧ (resetServer.HandleBlockReportResponse (reportResponse 9 (-1)) true).map
        (fun c => (c.chunkserver_id, c.block_manager.namespace_version)) = some (-1, 9) := by
  decide

/-- C13, amended: for every block-report response with status 0 whose chunkserver_id
is -1 and whose namespace version equals the node's, the node's `chunkserver_id` after
handling the response equals its `chunkserver_id` before (the old id is kept). -/
theorem HandleBlockReportResponse_keeps_id (cs : ChunkServerImpl)
    (response : BlockReportResponse) (put_ok : Bool)
    (hstatus : response.status = 0) (hid : response.chunkserver_id = -1)
    (hversion : response.namespace_version = cs.block_manager.namespace_version) :
    ∃ cs1, cs.HandleBlockReportResponse response put_ok = some cs1
      ∧ cs1.chunkserver_id = cs.chunkserver_id
      ∧ cs1.block_manager = cs.block_manager := by
  unfold ChunkServerImpl.HandleBlockReportResponse
  simp only [hstatus, ne_eq, not_true_eq_false, if_false, kUnknownChunkServerId, hid,
    hversion, and_false, if_true]
  by_cases ho : response.obsolete_blocks = [] <;>
    by_cases hr : response.new_replicas = [] <;>
    simp [ho, hr]

/-- Witness of `HandleBlockReportResponse_keeps_id`: version 7 on both sides, the node
keeps id 3. -/
theorem HandleBlockReportResponse_keeps_id_witness :
    ∃ cs1, resetServer.HandleBlockReportResponse (reportResponse 7 (-1)) true = some cs1
      ∧ cs1.chunkserver_id = 3
      ∧ cs1.block_manager = resetServer.block_manager :=
  HandleBlockReportResponse_keeps_id resetServer (reportResponse 7 (-1)) true rfl rfl
    (by decide)

/-! ### A new namespace version -/

theorem zero_lt_digitChar : ∀ d, d < 10 → Char.ofNat 0 < digitChar d := by decide

theorem natDigits_length_pos (f n : Nat) : 1 ≤ (natDigits (f + 1) n).length := by
  rw [natDigits]
  split <;> simp

/-- The reserved version key is below the key of every block id. -/
theorem version_key_lt_BlockId2Str (id : Int) :
    BlockManager.version_key < BlockManager.BlockId2Str id := by
  have hchars : ∀ c ∈ padLeft 13 (formatLong id), Char.ofNat 0 < c := by
    intro c hc
    simp only [padLeft, List.mem_append, List.mem_replicate] at hc
    rcases hc with hc | hc
    · rw [hc.2]; decide
    · unfold formatLong at hc
      split at hc
      · rcases List.mem_cons.1 hc with h | h
        · rw [h]; decide
        · obtain ⟨d, hd, rfl⟩ := natDigits_chars 19 _ c h
          exact zero_lt_digitChar d hd
      · obtain ⟨d, hd, rfl⟩ := natDigits_chars 19 _ c hc
        exact zero_lt_digitChar d hd
  have hne : padLeft 13 (formatLong id) ≠ [] := by
    intro h
    have hlen := congrArg List.length h
    simp only [padLeft, List.length_append, List.length_replicate, List.length_nil] at hlen
    have hfl : 1 ≤ (formatLong id).length := by
      unfold formatLong
      split
      · simp
      · exact natDigits_length_pos 18 _
    omega
  obtain ⟨c, rest, hcr⟩ := List.exists_cons_of_ne_nil hne
  have hc : Char.ofNat 0 < c := hchars c (by rw [hcr]; simp)
  unfold BlockManager.BlockId2Str snprintf13ld
  rw [hcr]
  exact List.Lex.rel hc

section SeekBelow

variable {κ β : Type} [LinearOrder κ] [DecidableRel (α := κ) (· < ·)] [DecidableEq κ]

/-- A `Put` under a key below `k` does not change what an iterator sought to `k` yields. -/
theorem kvSeek_kvPut_below (k k0 : κ) (v0 : β) (m : List (κ × β)) (h : k0 < k) :
    kvSeek k (kvPut k0 v0 m) = kvSeek k m := by
  induction m with
  | nil => simp [kvPut, kvSeek, h]
  | cons p rest ih =>
    unfold kvPut
    by_cases h1 : k0 < p.1
    · rw [if_pos h1]
      conv_lhs => rw [kvSeek, if_pos h]
    · by_cases h2 : k0 = p.1
      · rw [if_neg h1, if_pos h2]
        have hp : p.1 < k := h2 ▸ h
        conv_lhs => rw [kvSeek, if_pos h]
        conv_rhs => rw [kvSeek, if_pos hp]
      · rw [if_neg h1, if_neg h2]
        by_cases hp : p.1 < k
        · simp only [kvSeek, hp, if_true]; exact ih
        · simp only [kvSeek, hp, if_false, ih]

end SeekBelow

/-- C14: when a block-report response with status 0 carries a namespace version different
from the local one and the metadata-store write succeeds, afterwards the in-memory and the
persisted namespace version equal the response's version, `chunkserver_id` equals the
response's, the registry, the heap and every row under another key than the version key
are unchanged, and `ListBlocks` returns what it returned before for every start and
count, so later reports list the same blocks. -/
theorem HandleBlockReportResponse_new_version (cs : ChunkServerImpl)
    (response : BlockReportResponse) (hstatus : response.status = 0)
    (hdiff : response.namespace_version ≠ cs.block_manager.namespace_version) :
    ∃ cs1, cs.HandleBlockReportResponse response true = some cs1
      ∧ cs1.block_manager.namespace_version = response.namespace_version
      ∧ kvFind BlockManager.version_key cs1.block_manager.metadb
          = some (DbValue.version response.namespace_version)
      ∧ cs1.chunkserver_id = response.chunkserver_id
      ∧ cs1.block_manager.block_map = cs.block_manager.block_map
      ∧ cs1.block_manager.heap = cs.block_manager.heap
      ∧ (∀ key, key ≠ BlockManager.version_key →
          kvFind key cs1.block_manager.metadb = kvFind key cs.block_manager.metadb)
      ∧ (∀ start num, cs1.block_manager.ListBlocks start num
          = cs.block_manager.ListBlocks start num)
      ∧ cs1.last_report_blockid = cs.last_report_blockid := by
  obtain ⟨cs1, h1, hv1, hid1, hbm1, -, hcur⟩ := HandleBlockReportResponse_ok cs response hstatus
  have hne : cs.block_manager.namespace_version ≠ response.namespace_version :=
    fun h => hdiff h.symm
  rw [if_pos hne] at hid1 hbm1
  have hdb : cs1.block_manager.metadb
      = kvPut BlockManager.version_key (DbValue.version response.namespace_version)
          cs.block_manager.metadb := by
    rw [hbm1]; rfl
  refine ⟨cs1, h1, hv1, ?_, hid1, by rw [hbm1]; rfl, by rw [hbm1]; rfl, ?_, ?_, hcur⟩
  · rw [hdb]; exact kvFind_kvPut_same _ _ _
  · intro key hkey
    rw [hdb]; exact kvFind_kvPut_other _ _ _ _ hkey
  · intro start num
    unfold BlockManager.ListBlocks
    rw [hdb, kvSeek_kvPut_below _ _ _ _ (version_key_lt_BlockId2Str start)]

/-- Witness of `HandleBlockReportResponse_new_version`, the namespace-reset scenario: the
node has version 7, id 3 and blocks 1 and 2; the response carries version 9 and id 11.
Afterwards the version is 9, the id is 11 and the report still lists blocks 1 and 2. -/
theorem HandleBlockReportResponse_new_version_witness :
    (∃ cs1, resetServer.HandleBlockReportResponse (reportResponse 9 11) true = some cs1
      ∧ cs1.block_manager.namespace_version = 9
      ∧ kvFind BlockManager.version_key cs1.block_manager.metadb = some (DbValue.version 9)
      ∧ cs1.chunkserver_id = 11
      ∧ cs1.block_manager.ListBlocks 0 10 = resetServer.block_manager.ListBlocks 0 10)
    ∧ resetServer.block_manager.ListBlocks 0 10
        = some (true, [{ block_id := 1, block_size := 0, version := 0 },
                       { block_id := 2, block_size := 0, version := 0 }]) := by
  obtain ⟨cs1, h1, h2, h3, h4, -, -, -, h5, -⟩ :=
    HandleBlockReportResponse_new_version resetServer (reportResponse 9 11) rfl (by decide)
  exact ⟨⟨cs1, h1, h2, h3, h4, h5 0 10⟩, by decide⟩

/-! ### Objects of the heap under the operations on one block -/

theorem heapGet_heapFree_other (heap : List (Nat × Block)) (addr a : Nat) (h : a ≠ addr) :
    heapGet (heapFree heap addr) a = heapGet heap a :=
  kvFind_kvErase_other addr a heap h

theorem heapGet_cons_other (heap : List (Nat × Block)) (addr a : Nat) (b : Block)
    (h : a ≠ addr) : heapGet ((addr, b) :: heap) a = heapGet heap a := by
  have h1 : ¬ addr = a := fun e => h e.symm
  simp [heapGet, kvFind, h1]

theorem heapGet_cons_same (heap : List (Nat × Block)) (addr : Nat) (b : Block) :
    heapGet ((addr, b) :: heap) addr = some b := by
  simp [heapGet, kvFind]

theorem SameElsewhere_refl (bm : BlockManager) (addr : Nat) : SameElsewhere bm bm addr :=
  ⟨rfl, rfl, fun _ _ => rfl⟩

theorem SameElsewhere_trans (bm bm1 bm2 : BlockManager) (addr : Nat)
    (h1 : SameElsewhere bm bm1 addr) (h2 : SameElsewhere bm1 bm2 addr) :
    SameElsewhere bm bm2 addr :=
  ⟨h2.1.trans h1.1, h2.2.1.trans h1.2.1, fun a ha => (h2.2.2 a ha).trans (h1.2.2 a ha)⟩

theorem AddRef_at (bm : BlockManager) (addr : Nat) (b : Block)
    (h : heapGet bm.heap addr = some b) :
    SameElsewhere bm (bm.AddRef addr) addr
    ∧ heapGet (bm.AddRef addr).heap addr = some { b with refs := b.refs + 1 } := by
  rw [AddRef_eq bm addr b h]
  exact ⟨⟨rfl, rfl, fun a ha => heapGet_heapSet_other _ _ _ _ ha⟩,
    heapGet_heapSet_same _ _ _ _ h⟩

theorem DecRef_elsewhere (bm : BlockManager) (addr : Nat) :
    SameElsewhere bm (bm.DecRef addr) addr := by
  unfold BlockManager.DecRef
  cases h : heapGet bm.heap addr with
  | none => exact SameElsewhere_refl _ _
  | some b =>
    dsimp only
    split
    · exact ⟨rfl, rfl, fun a ha => heapGet_heapFree_other _ _ _ ha⟩
    · exact ⟨rfl, rfl, fun a ha => heapGet_heapSet_other _ _ _ _ ha⟩

theorem DecRef_at (bm : BlockManager) (addr : Nat) (b : Block)
    (h : heapGet bm.heap addr = some b) (hrefs : b.refs ≠ 1) :
    heapGet (bm.DecRef addr).heap addr = some { b with refs := b.refs - 1 } := by
  have h0 : ¬ b.refs - 1 = 0 := by omega
  unfold BlockManager.DecRef
  rw [h]
  dsimp only
  rw [if_neg h0]
  exact heapGet_heapSet_same _ _ _ _ h

theorem DecRef_last (bm : BlockManager) (addr : Nat) (b : Block)
    (h : heapGet bm.heap addr = some b) (hrefs : b.refs = 1) :
    (bm.DecRef addr).heap = heapFree bm.heap addr := by
  have h0 : b.refs - 1 = 0 := by omega
  unfold BlockManager.DecRef
  rw [h]
  dsimp only
  rw [if_pos h0]

theorem BlockSetVersion_at (bm : BlockManager) (addr : Nat) (version : Int) (b : Block)
    (h : heapGet bm.heap addr = some b) :
    SameElsewhere bm (bm.BlockSetVersion addr version) addr
    ∧ heapGet (bm.BlockSetVersion addr version).heap addr
        = some { b with meta := { b.meta with version := version } } := by
  unfold BlockManager.BlockSetVersion
  rw [h]
  exact ⟨⟨rfl, rfl, fun a ha => heapGet_heapSet_other _ _ _ _ ha⟩,
    heapGet_heapSet_same _ _ _ _ h⟩

theorem CloseBlock_at (bm : BlockManager) (addr : Nat) (close_ok put_ok : Bool) (b : Block)
    (h : heapGet bm.heap addr = some b) :
    SameElsewhere bm (bm.CloseBlock addr close_ok put_ok).2 addr
    ∧ heapGet (bm.CloseBlock addr close_ok put_ok).2.heap addr
        = some (if close_ok then { b with finished := true } else b)
    ∧ (bm.CloseBlock addr close_ok put_ok).1 = (close_ok && put_ok) := by
  unfold BlockManager.CloseBlock BlockManager.BlockClose
  rw [h]
  cases close_ok with
  | false => exact ⟨SameElsewhere_refl _ _, h, rfl⟩
  | true =>
    have h1 : heapGet (heapSet bm.heap addr { b with finished := true }) addr
        = some { b with finished := true } := heapGet_heapSet_same _ _ _ _ h
    simp only [if_true, h1, BlockManager.SyncBlockMeta]
    cases put_ok with
    | false => exact ⟨⟨rfl, rfl, fun a ha => heapGet_heapSet_other _ _ _ _ ha⟩, h1, rfl⟩
    | true => exact ⟨⟨rfl, rfl, fun a ha => heapGet_heapSet_other _ _ _ _ ha⟩, h1, rfl⟩

/-! ### The reference counts of the registry -/

/-- The reference counts of the registry after an operation on the object at `addr`. -/
theorem RegistryRefs_at (bm bm1 : BlockManager) (addr : Nat) (held held1 : Option Nat)
    (h : RegistryRefs bm held) (hs : SameElsewhere bm bm1 addr)
    (hheld : ∀ a, a ≠ addr → (held1 = some a ↔ held = some a))
    (hat : ∀ b, heapGet bm.heap addr = some b → b.refs = (if held = some addr then 2 else 1) →
      ∃ b1, heapGet bm1.heap addr = some b1
        ∧ b1.refs = if held1 = some addr then 2 else 1) :
    RegistryRefs bm1 held1 := by
  obtain ⟨hmap, hnext, hheap⟩ := hs
  refine ⟨?_, ?_⟩
  · intro id a hfind
    rw [hmap] at hfind
    obtain ⟨hlt, b, hb, hrefs⟩ := h.1 id a hfind
    refine ⟨by rw [hnext]; exact hlt, ?_⟩
    by_cases ha : a = addr
    · subst ha
      exact hat b hb hrefs
    · refine ⟨b, by rw [hheap a ha]; exact hb, ?_⟩
      rw [hrefs]
      by_cases hh : held = some a
      · rw [if_pos hh, if_pos ((hheld a ha).2 hh)]
      · rw [if_neg hh, if_neg (fun e => hh ((hheld a ha).1 e))]
  · intro id1 id2 a h1 h2
    rw [hmap] at h1 h2
    exact h.2 id1 id2 a h1 h2

theorem RegistryRefs_AddRef (bm : BlockManager) (block_id : Int) (addr : Nat)
    (h : RegistryRefs bm none) (hfind : kvFind block_id bm.block_map = some addr) :
    RegistryRefs (bm.AddRef addr) (some addr) := by
  obtain ⟨-, b, hb, -⟩ := h.1 block_id addr hfind
  obtain ⟨hs, hat⟩ := AddRef_at bm addr b hb
  refine RegistryRefs_at bm _ addr none (some addr) h hs ?_ ?_
  · intro a ha
    simp [ha, Ne.symm ha]
  · intro b0 hb0 hrefs
    rw [hb] at hb0
    cases hb0
    refine ⟨_, hat, ?_⟩
    simp at hrefs ⊢
    omega

theorem RegistryRefs_DecRef (bm : BlockManager) (addr : Nat)
    (h : RegistryRefs bm (some addr)) : RegistryRefs (bm.DecRef addr) none := by
  refine RegistryRefs_at bm _ addr (some addr) none h (DecRef_elsewhere bm addr) ?_ ?_
  · intro a ha
    simp [ha, Ne.symm ha]
  · intro b hb hrefs
    simp only [if_true] at hrefs
    refine ⟨_, DecRef_at bm addr b hb (by omega), ?_⟩
    simp
    omega

/-- An operation that leaves the reference count of the object at `addr`. -/
theorem RegistryRefs_same (bm bm1 : BlockManager) (addr : Nat) (held : Option Nat)
    (h : RegistryRefs bm held) (hs : SameElsewhere bm bm1 addr)
    (hat : ∀ b, heapGet bm.heap addr = some b →
      ∃ b1, heapGet bm1.heap addr = some b1 ∧ b1.refs = b.refs) :
    RegistryRefs bm1 held := by
  refine RegistryRefs_at bm bm1 addr held held h hs (fun _ _ => Iff.rfl) ?_
  intro b hb hrefs
  obtain ⟨b1, hb1, hr⟩ := hat b hb
  exact ⟨b1, hb1, hr.trans hrefs⟩

theorem RegistryRefs_BlockSetVersion (bm : BlockManager) (addr : Nat) (version : Int)
    (held : Option Nat) (h : RegistryRefs bm held) :
    RegistryRefs (bm.BlockSetVersion addr version) held := by
  cases hb : heapGet bm.heap addr with
  | none =>
    have : bm.BlockSetVersion addr version = bm := by
      simp [BlockManager.BlockSetVersion, hb]
    rw [this]; exact h
  | some b =>
    obtain ⟨hs, hat⟩ := BlockSetVersion_at bm addr version b hb
    refine RegistryRefs_same bm _ addr held h hs ?_
    intro b0 hb0
    rw [hb] at hb0; cases hb0
    exact ⟨_, hat, rfl⟩

theorem RegistryRefs_CloseBlock (bm : BlockManager) (addr : Nat) (close_ok put_ok : Bool)
    (held : Option Nat) (h : RegistryRefs bm held) :
    RegistryRefs (bm.CloseBlock addr close_ok put_ok).2 held := by
  cases hb : heapGet bm.heap addr with
  | none =>
    have : (bm.CloseBlock addr close_ok put_ok).2 = bm := by
      simp [BlockManager.CloseBlock, BlockManager.BlockClose, hb]
    rw [this]; exact h
  | some b =>
    obtain ⟨hs, hat, -⟩ := CloseBlock_at bm addr close_ok put_ok b hb
    refine RegistryRefs_same bm _ addr held h hs ?_
    intro b0 hb0
    rw [hb] at hb0; cases hb0
    refine ⟨_, hat, ?_⟩
    cases close_ok <;> rfl


/-! ### Sealed blocks -/

theorem sealed_eq (bm : BlockManager) (block_id : Int) (addr : Nat) (b : Block)
    (hmap : kvFind block_id bm.block_map = some addr) (hheap : heapGet bm.heap addr = some b) :
    bm.sealed block_id = b.finished := by
  simp [BlockManager.sealed, hmap, hheap]

theorem sealed_absent (bm : BlockManager) (block_id : Int)
    (hmap : kvFind block_id bm.block_map = none) : bm.sealed block_id = false := by
  simp [BlockManager.sealed, hmap]

/-- An operation on the object at `addr` leaves the other blocks sealed or not as they
were. -/
theorem sealed_elsewhere (bm bm1 : BlockManager) (addr : Nat) (id : Int)
    (hs : SameElsewhere bm bm1 addr) (hid : kvFind id bm.block_map ≠ some addr) :
    bm1.sealed id = bm.sealed id := by
  obtain ⟨hmap, -, hheap⟩ := hs
  unfold BlockManager.sealed
  rw [hmap]
  cases h : kvFind id bm.block_map with
  | none => rfl
  | some a =>
    have ha : a ≠ addr := fun e => hid (by rw [h, e])
    simp only [hheap a ha]

/-- What an operation on the object at `addr` that keeps it allocated does to `sealed`. -/
theorem sealed_at (bm bm1 : BlockManager) (block_id : Int) (addr : Nat) (b1 : Block)
    (held : Option Nat) (h : RegistryRefs bm held) (hs : SameElsewhere bm bm1 addr)
    (hmap : kvFind block_id bm.block_map = some addr)
    (hb1 : heapGet bm1.heap addr = some b1) (id : Int) :
    bm1.sealed id = if id = block_id then b1.finished else bm.sealed id := by
  by_cases hid : id = block_id
  · subst hid
    rw [if_pos rfl]
    exact sealed_eq bm1 id addr b1 (by rw [hs.1]; exact hmap) hb1
  · rw [if_neg hid]
    refine sealed_elsewhere bm bm1 addr id hs ?_
    intro e
    exact hid (h.2 id block_id addr e hmap)

/-! ### `FindBlock` and `RemoveBlock` keep the reference counts balanced -/

theorem FindBlock_create_fail_heap (bm : BlockManager) (block_id : Int)
    (h : kvFind block_id bm.block_map = none) :
    (bm.FindBlock block_id true false).2.next_addr = bm.next_addr + 1
    ∧ ∀ a, a ≠ bm.next_addr →
        heapGet (bm.FindBlock block_id true false).2.heap a = heapGet bm.heap a := by
  unfold BlockManager.FindBlock
  simp only [h, BlockManager.NewBlock, BlockManager.AddRef, BlockManager.SyncBlockMeta,
    heapGet_cons_same, if_true, Bool.false_eq_true, if_false]
  refine ⟨trivial, ?_⟩
  intro a ha
  rw [heapGet_heapFree_other _ _ _ ha, heapGet_heapSet_other _ _ _ _ ha,
    heapGet_cons_other _ _ _ _ ha]

/-- What `FindBlock` does to a registry with balanced reference counts: the blocks are
sealed or not as before; a handle is returned exactly when the block is in the registry or
is created with its metadata written; the handle returned is the registry's object of the
block, now with one more reference. -/
theorem FindBlock_refs (bm : BlockManager) (block_id : Int) (create put_ok : Bool)
    (h : RegistryRefs bm none) :
    (∀ id, (bm.FindBlock block_id create put_ok).2.sealed id = bm.sealed id)
    ∧ ((bm.FindBlock block_id create put_ok).1.isSome
        = ((kvFind block_id bm.block_map).isSome || (create && put_ok)))
    ∧ (∀ addr, (bm.FindBlock block_id create put_ok).1 = some addr →
        RegistryRefs (bm.FindBlock block_id create put_ok).2 (some addr)
        ∧ kvFind block_id (bm.FindBlock block_id create put_ok).2.block_map = some addr)
    ∧ ((bm.FindBlock block_id create put_ok).1 = none →
        RegistryRefs (bm.FindBlock block_id create put_ok).2 none) := by
  cases hfind : kvFind block_id bm.block_map with
  | some addr =>
    rw [FindBlock_hit bm block_id create put_ok addr hfind]
    have h0 : RegistryRefs { bm with g_find_ops := bm.g_find_ops + 1 } none := h
    obtain ⟨-, b, hb, -⟩ := h.1 block_id addr hfind
    obtain ⟨hs, hat⟩ := AddRef_at { bm with g_find_ops := bm.g_find_ops + 1 } addr b hb
    refine ⟨?_, by simp, ?_, by simp⟩
    · intro id
      have := sealed_at { bm with g_find_ops := bm.g_find_ops + 1 } _ block_id addr _ none
        h0 hs hfind hat id
      rw [this]
      by_cases hid : id = block_id
      · subst hid
        rw [if_pos rfl]
        exact (sealed_eq bm id addr b hfind hb).symm
      · rw [if_neg hid]; rfl
    · intro a ha
      simp only [Option.some.injEq] at ha
      subst ha
      exact ⟨RegistryRefs_AddRef _ block_id addr h0 hfind, by rw [hs.1]; exact hfind⟩
  | none =>
    cases create with
    | false =>
      rw [FindBlock_no_create, hfind]
      exact ⟨fun _ => rfl, by simp, by simp, fun _ => h⟩
    | true =>
      cases put_ok with
      | true =>
        rw [FindBlock_create_ok bm block_id hfind]
        refine ⟨?_, by simp, ?_, by simp⟩
        · intro id
          unfold BlockManager.sealed
          dsimp only
          by_cases hid : id = block_id
          · subst hid
            rw [kvFind_kvPut_same, hfind]
            simp [heapGet_cons_same, Block.create]
          · rw [kvFind_kvPut_other _ _ _ _ hid]
            cases hf : kvFind id bm.block_map with
            | none => rfl
            | some a =>
              have ha : a ≠ bm.next_addr := by
                have := (h.1 id a hf).1
                omega
              dsimp only
              rw [heapGet_cons_other _ _ _ _ ha, heapGet_heapSet_other _ _ _ _ ha,
                heapGet_heapSet_other _ _ _ _ ha]
        · intro addr haddr
          simp only [Option.some.injEq] at haddr
          subst haddr
          refine ⟨⟨?_, ?_⟩, kvFind_kvPut_same _ _ _⟩
          · intro id a hf
            dsimp only at hf ⊢
            by_cases hid : id = block_id
            · subst hid
              rw [kvFind_kvPut_same] at hf
              simp only [Option.some.injEq] at hf
              subst hf
              exact ⟨by omega, _, heapGet_cons_same _ _ _, by simp⟩
            · rw [kvFind_kvPut_other _ _ _ _ hid] at hf
              obtain ⟨hlt, b, hb, hrefs⟩ := h.1 id a hf
              have ha : a ≠ bm.next_addr := by omega
              refine ⟨by omega, b, ?_, ?_⟩
              · rw [heapGet_cons_other _ _ _ _ ha, heapGet_heapSet_other _ _ _ _ ha,
                  heapGet_heapSet_other _ _ _ _ ha]
                exact hb
              · have hne : ¬ bm.next_addr = a := fun e => ha e.symm
                simpa [hne] using hrefs
          · intro id1 id2 a h1 h2
            dsimp only at h1 h2
            by_cases hid1 : id1 = block_id
            · by_cases hid2 : id2 = block_id
              · rw [hid1, hid2]
              · exfalso
                subst hid1
                rw [kvFind_kvPut_same] at h1
                rw [kvFind_kvPut_other _ _ _ _ hid2] at h2
                simp only [Option.some.injEq] at h1
                subst h1
                have := (h.1 id2 _ h2).1
                omega
            · by_cases hid2 : id2 = block_id
              · exfalso
                subst hid2
                rw [kvFind_kvPut_same] at h2
                rw [kvFind_kvPut_other _ _ _ _ hid1] at h1
                simp only [Option.some.injEq] at h2
                subst h2
                have := (h.1 id1 _ h1).1
                omega
              · rw [kvFind_kvPut_other _ _ _ _ hid1] at h1
                rw [kvFind_kvPut_other _ _ _ _ hid2] at h2
                exact h.2 id1 id2 a h1 h2
      | false =>
        obtain ⟨hnone, hmap, -⟩ := FindBlock_create_fail bm block_id hfind
        obtain ⟨hnext, hheap⟩ := FindBlock_create_fail_heap bm block_id hfind
        have hreg : RegistryRefs (bm.FindBlock block_id true false).2 none := by
          refine ⟨?_, ?_⟩
          · intro id a hf
            rw [hmap] at hf
            obtain ⟨hlt, b, hb, hrefs⟩ := h.1 id a hf
            have ha : a ≠ bm.next_addr := by omega
            exact ⟨by rw [hnext]; omega, b, by rw [hheap a ha]; exact hb, hrefs⟩
          · intro id1 id2 a h1 h2
            rw [hmap] at h1 h2
            exact h.2 id1 id2 a h1 h2
        refine ⟨?_, by rw [hnone]; simp, by rw [hnone]; simp, fun _ => hreg⟩
        intro id
        unfold BlockManager.sealed
        rw [hmap]
        cases hf : kvFind id bm.block_map with
        | none => rfl
        | some a =>
          have ha : a ≠ bm.next_addr := by
            have := (h.1 id a hf).1
            omega
          dsimp only
          rw [hheap a ha]

/-- What `RemoveBlock` does to a registry with balanced reference counts: the counts
stay balanced; when it returns true the block has left the registry; when it returns
false the registry holds the blocks it held. -/
theorem RemoveBlock_refs (bm : BlockManager) (block_id : Int) (unlink_fail : Option Int)
    (delete_ok : Bool) (h : RegistryRefs bm none) :
    RegistryRefs (bm.RemoveBlock block_id unlink_fail delete_ok).2 none
    ∧ ((bm.RemoveBlock block_id unlink_fail delete_ok).1 = true →
        kvFind block_id (bm.RemoveBlock block_id unlink_fail delete_ok).2.block_map = none
        ∧ ∀ addr, kvFind block_id bm.block_map = some addr →
            heapGet (bm.RemoveBlock block_id unlink_fail delete_ok).2.heap addr = none)
    ∧ ((bm.RemoveBlock block_id unlink_fail delete_ok).1 = false →
        (bm.RemoveBlock block_id unlink_fail delete_ok).2.block_map = bm.block_map) := by
  cases hfind : kvFind block_id bm.block_map with
  | none =>
    have e : bm.RemoveBlock block_id unlink_fail delete_ok = (false, bm) := by
      simp [BlockManager.RemoveBlock, hfind]
    rw [e]
    exact ⟨h, by simp, fun _ => rfl⟩
  | some addr =>
    obtain ⟨hlt, b, hb, hrefs0⟩ := h.1 block_id addr hfind
    have hrefs : b.refs = 1 := by simpa using hrefs0
    rw [RemoveBlock_eq bm block_id unlink_fail delete_ok addr b hfind hb]
    have h1 : heapGet (heapSet bm.heap addr { b with deleted := true }) addr
        = some { b with deleted := true } := heapGet_heapSet_same _ _ _ _ hb
    have h2 : heapGet (heapSet (heapSet bm.heap addr { b with deleted := true }) addr
        { b with deleted := true, refs := b.refs + 1 }) addr
        = some { b with deleted := true, refs := b.refs + 1 } :=
      heapGet_heapSet_same _ _ _ _ h1
    cases hd : b.deleted with
    | true =>
      simp only [if_true]
      exact ⟨h, by simp, by simp⟩
    | false =>
      simp only [Bool.false_eq_true, if_false]
      cases delete_ok with
      | true =>
        simp only [if_true]
        generalize hX : ({ bm with
            heap := heapSet (heapSet bm.heap addr { b with deleted := true }) addr
              { b with deleted := true, refs := b.refs + 1 },
            files := (BlockManager.removeFile bm.files b.file_path unlink_fail).2.2,
            metadb := kvErase (snprintf13ld 14 block_id) bm.metadb,
            block_map := kvErase block_id bm.block_map } : BlockManager) = X
        have hXmap : X.block_map = kvErase block_id bm.block_map := by rw [← hX]
        have hXnext : X.next_addr = bm.next_addr := by rw [← hX]
        have hXheap : ∀ a, a ≠ addr → heapGet X.heap a = heapGet bm.heap a := by
          intro a ha
          rw [← hX]
          dsimp only
          rw [heapGet_heapSet_other _ _ _ _ ha, heapGet_heapSet_other _ _ _ _ ha]
        have hXat : heapGet X.heap addr = some { b with deleted := true, refs := b.refs + 1 } := by
          rw [← hX]; exact h2
        have hs1 := DecRef_elsewhere X addr
        have hat1 := DecRef_at X addr _ hXat (by dsimp only; omega)
        have hs2 := DecRef_elsewhere (X.DecRef addr) addr
        have hs := SameElsewhere_trans _ _ _ _ hs1 hs2
        have hfree : heapGet ((X.DecRef addr).DecRef addr).heap addr = none := by
          rw [DecRef_last (X.DecRef addr) addr _ hat1 (by dsimp only; omega)]
          exact kvFind_kvErase_same _ _
        refine ⟨⟨?_, ?_⟩, ?_, by simp⟩
        · intro id a hf
          rw [hs.1, hXmap] at hf
          have hid : id ≠ block_id := by
            intro e
            rw [e, kvFind_kvErase_same] at hf
            cases hf
          rw [kvFind_kvErase_other _ _ _ hid] at hf
          have ha : a ≠ addr := fun e => hid (h.2 id block_id addr (e ▸ hf) hfind)
          obtain ⟨hlt2, b2, hb2, hr2⟩ := h.1 id a hf
          refine ⟨by rw [hs.2.1, hXnext]; exact hlt2, b2, ?_, hr2⟩
          rw [hs.2.2 a ha, hXheap a ha]
          exact hb2
        · intro id1 id2 a hf1 hf2
          rw [hs.1, hXmap] at hf1 hf2
          have hid1 : id1 ≠ block_id := by
            intro e
            rw [e, kvFind_kvErase_same] at hf1
            cases hf1
          have hid2 : id2 ≠ block_id := by
            intro e
            rw [e, kvFind_kvErase_same] at hf2
            cases hf2
          rw [kvFind_kvErase_other _ _ _ hid1] at hf1
          rw [kvFind_kvErase_other _ _ _ hid2] at hf2
          exact h.2 id1 id2 a hf1 hf2
        · intro _
          refine ⟨by rw [hs.1, hXmap]; exact kvFind_kvErase_same _ _, ?_⟩
          intro a0 ha0
          simp only [Option.some.injEq] at ha0
          subst ha0
          exact hfree
      | false =>
        simp only [Bool.false_eq_true, if_false]
        generalize hX : ({ bm with
            heap := heapSet (heapSet bm.heap addr { b with deleted := true }) addr
              { b with deleted := true, refs := b.refs + 1 },
            files := (BlockManager.removeFile bm.files b.file_path unlink_fail).2.2 }
            : BlockManager) = X
        have hXs : SameElsewhere bm X addr := by
          rw [← hX]
          refine ⟨rfl, rfl, ?_⟩
          intro a ha
          dsimp only
          rw [heapGet_heapSet_other _ _ _ _ ha, heapGet_heapSet_other _ _ _ _ ha]
        have hXat : heapGet X.heap addr = some { b with deleted := true, refs := b.refs + 1 } := by
          rw [← hX]; exact h2
        have hs := SameElsewhere_trans _ _ _ _ hXs (DecRef_elsewhere X addr)
        have hat1 := DecRef_at X addr _ hXat (by dsimp only; omega)
        refine ⟨?_, by simp, fun _ => hs.1⟩
        refine RegistryRefs_same bm _ addr none h hs ?_
        intro b0 hb0
        rw [hb] at hb0
        cases hb0
        refine ⟨_, hat1, ?_⟩
        dsimp only
        omega

/-! ### The handlers keep the reference counts balanced -/

/-- `ReadBlock` on a registry with balanced reference counts: when it returns, the counts
are balanced; when an exception leaves it, the block of the request is in the registry
and still holds the reference of the handle. -/
theorem ReadBlock_refs (cs : ChunkServerImpl) (env : ReadEnv) (request : ReadBlockRequest)
    (call : Call ReadBlockResponse) (h : RegistryRefs cs.block_manager none) :
    (∀ r, cs.ReadBlock env request call = Ended.returned r →
        RegistryRefs r.1.block_manager none)
    ∧ (∀ st, cs.ReadBlock env request call = Ended.threw st →
        request.read_len < 0
        ∧ ∃ block, kvFind request.block_id st.block_manager.block_map = some block
          ∧ RegistryRefs st.block_manager (some block)) := by
  obtain ⟨-, -, hsome, hnone⟩ := FindBlock_refs cs.block_manager request.block_id false false h
  rcases hf : cs.block_manager.FindBlock request.block_id false false with ⟨o, bm1⟩
  rw [hf] at hsome hnone
  simp only [ChunkServerImpl.ReadBlock, hf]
  split
  · refine ⟨?_, ?_⟩
    · intro r hr
      simp only [Ended.returned.injEq] at hr
      rw [← hr]
      exact h
    · intro st hst
      cases hst
  · cases o with
    | none =>
      refine ⟨?_, ?_⟩
      · intro r hr
        simp only [Ended.returned.injEq] at hr
        rw [← hr]
        exact hnone rfl
      · intro st hst
        cases hst
    | some block =>
      obtain ⟨hreg, hmap⟩ := hsome block rfl
      dsimp only
      split
      · rename_i hneg
        refine ⟨?_, ?_⟩
        · intro r hr
          cases hr
        · intro st hst
          simp only [Ended.threw.injEq] at hst
          rw [← hst]
          exact ⟨hneg, block, hmap, hreg⟩
      · split
        · refine ⟨?_, ?_⟩
          · intro r hr
            simp only [Ended.returned.injEq] at hr
            rw [← hr]
            exact RegistryRefs_DecRef _ _ hreg
          · intro st hst
            cases hst
        · refine ⟨?_, ?_⟩
          · intro r hr
            simp only [Ended.returned.injEq] at hr
            rw [← hr]
            exact RegistryRefs_DecRef _ _ hreg
          · intro st hst
            cases hst

theorem GetBlockInfo_refs (cs : ChunkServerImpl) (now : Int) (request : GetBlockInfoRequest)
    (call : Call GetBlockInfoResponse) (h : RegistryRefs cs.block_manager none) :
    RegistryRefs (cs.GetBlockInfo now request call).1.block_manager none := by
  obtain ⟨-, -, hsome, hnone⟩ := FindBlock_refs cs.block_manager request.block_id false false h
  rcases hf : cs.block_manager.FindBlock request.block_id false false with ⟨o, bm1⟩
  rw [hf] at hsome hnone
  simp only [ChunkServerImpl.GetBlockInfo, hf]
  split
  · exact h
  · cases o with
    | none => exact hnone rfl
    | some block => exact RegistryRefs_DecRef _ _ (hsome block rfl).1

theorem RemoveObsoleteBlocks_refs (blocks : List Int) :
    ∀ (cs : ChunkServerImpl) (outcomes : List (Option Int × Bool)),
      RegistryRefs cs.block_manager none →
      RegistryRefs (cs.RemoveObsoleteBlocks blocks outcomes).block_manager none := by
  induction blocks with
  | nil => intro cs outcomes h; exact h
  | cons block_id rest ih =>
    intro cs outcomes h
    unfold ChunkServerImpl.RemoveObsoleteBlocks
    exact ih _ _ (RemoveBlock_refs cs.block_manager block_id _ _ h).1

/-- Releasing the handle after operations on its object that left the reference count. -/
theorem release_effect (bm1 bm2 : BlockManager) (block_id : Int) (block : Nat) (b2 : Block)
    (h : RegistryRefs bm1 (some block)) (hmap : kvFind block_id bm1.block_map = some block)
    (hs : SameElsewhere bm1 bm2 block) (hb2 : heapGet bm2.heap block = some b2)
    (hrefs : b2.refs = 2) :
    RegistryRefs (bm2.DecRef block) none
    ∧ ∀ id, (bm2.DecRef block).sealed id = if id = block_id then b2.finished else bm1.sealed id := by
  have hreg2 : RegistryRefs bm2 (some block) := by
    refine RegistryRefs_at bm1 bm2 block _ _ h hs (fun _ _ => Iff.rfl) ?_
    intro b hb hr
    exact ⟨b2, hb2, by simpa using hrefs⟩
  refine ⟨RegistryRefs_DecRef bm2 block hreg2, ?_⟩
  intro id
  have hat := DecRef_at bm2 block b2 hb2 (by omega)
  exact sealed_at bm1 _ block_id block _ (some block) h
    (SameElsewhere_trans _ _ _ _ hs (DecRef_elsewhere bm2 block)) hmap hat id

/-- The end of a local append: the handle is released after operations on its object that
left the reference count and sealed the block when `c` is set. -/
theorem append_release_effect (bm0 bm1 bm2 : BlockManager) (block_id : Int) (block : Nat)
    (b1 b2 : Block) (c : Bool) (hsealed : ∀ id, bm1.sealed id = bm0.sealed id)
    (h : RegistryRefs bm1 (some block)) (hmap : kvFind block_id bm1.block_map = some block)
    (hb1 : heapGet bm1.heap block = some b1)
    (hs : SameElsewhere bm1 bm2 block) (hb2 : heapGet bm2.heap block = some b2)
    (hrefs : b2.refs = 2) (hfin : b2.finished = (b1.finished || c)) :
    RegistryRefs (bm2.DecRef block) none
    ∧ ∀ id, (bm2.DecRef block).sealed id
        = (bm0.sealed id || (decide (id = block_id) && c)) := by
  obtain ⟨hr, hsl⟩ := release_effect bm1 bm2 block_id block b2 h hmap hs hb2 hrefs
  refine ⟨hr, ?_⟩
  intro id
  rw [hsl id, ← hsealed id]
  by_cases hid : id = block_id
  · rw [if_pos hid, hid, sealed_eq _ _ _ _ hmap hb1, hfin]; simp
  · rw [if_neg hid]; simp [hid]

/-- What one local append does to a registry with balanced reference counts: the counts
stay balanced; a block is sealed afterwards exactly when it was sealed before or the append
closed it; the append logs its `Block::Write` when it has a handle, and then one
`ReportFinish` exactly when `CloseBlock` returned true. -/
theorem LocalWriteBlock_effect (cs : ChunkServerImpl) (w : LocalWrite)
    (h : RegistryRefs cs.block_manager none) :
    RegistryRefs (cs.LocalWriteBlock w.env w.request w.call).1.block_manager none
    ∧ (∀ id, (cs.LocalWriteBlock w.env w.request w.call).1.block_manager.sealed id
        = (cs.block_manager.sealed id || (decide (id = w.request.block_id) && cs.closes w)))
    ∧ (cs.LocalWriteBlock w.env w.request w.call).1.events
        = cs.events
          ++ (if cs.finds w then
                [Event.BlockWrite w.request.block_id w.request.packet_seq w.request.offset
                  w.request.databuf.length]
              else [])
          ++ (if (cs.closes w && w.env.close_put_ok) = true then
                [Event.ReportFinish w.request.block_id]
              else []) := by
  obtain ⟨hsealed, hisSome, hsome, hnone⟩ :=
    FindBlock_refs cs.block_manager w.request.block_id true w.env.put_ok h
  rcases hf : cs.block_manager.FindBlock w.request.block_id true w.env.put_ok with ⟨o, bm1⟩
  rw [hf] at hsealed hisSome hsome hnone
  have hfinds : cs.finds w = o.isSome := by
    rw [ChunkServerImpl.finds, hisSome]; simp
  cases o with
  | none =>
    have hfalse : cs.finds w = false := by rw [hfinds]; rfl
    simp only [ChunkServerImpl.LocalWriteBlock, hf, ChunkServerImpl.closes, hfalse]
    refine ⟨hnone rfl, ?_, by simp⟩
    intro id
    rw [hsealed id]
    simp
  | some block =>
    have htrue : cs.finds w = true := by rw [hfinds]; rfl
    obtain ⟨hreg, hmap⟩ := hsome block rfl
    dsimp only at hreg hmap hsealed
    obtain ⟨-, b1, hb1, hrefs1⟩ := hreg.1 _ _ hmap
    simp only [if_true] at hrefs1
    have hseal1 : bm1.sealed w.request.block_id = b1.finished := sealed_eq _ _ _ _ hmap hb1
    cases hw : w.env.write_ok with
    | false =>
      simp only [ChunkServerImpl.LocalWriteBlock, hf, ChunkServerImpl.closes, htrue, hw]
      obtain ⟨hr, hs⟩ := release_effect bm1 bm1 _ block b1 hreg hmap
        (SameElsewhere_refl _ _) hb1 hrefs1
      refine ⟨hr, ?_, by simp⟩
      intro id
      have := hs id
      simp only [Bool.not_false, if_true]
      rw [this, ← hsealed id]
      by_cases hid : id = w.request.block_id
      · rw [if_pos hid, hid, hseal1]; simp
      · rw [if_neg hid]; simp
    | true =>
      obtain ⟨hs12, hb2⟩ : SameElsewhere bm1
            (if w.request.is_last = true then bm1.BlockSetVersion block w.request.packet_seq
              else bm1) block
          ∧ ∃ b2, heapGet (if w.request.is_last = true then
                bm1.BlockSetVersion block w.request.packet_seq else bm1).heap block = some b2
              ∧ b2.refs = 2 ∧ b2.finished = b1.finished := by
        cases w.request.is_last with
        | false => exact ⟨SameElsewhere_refl _ _, b1, hb1, hrefs1, rfl⟩
        | true =>
          obtain ⟨hs, hat⟩ := BlockSetVersion_at bm1 block w.request.packet_seq b1 hb1
          exact ⟨hs, _, hat, hrefs1, rfl⟩
      obtain ⟨b2, hb2, hrefs2, hfin2⟩ := hb2
      obtain ⟨hs23, hb3, hflag⟩ := CloseBlock_at _ block w.env.close_ok w.env.close_put_ok b2 hb2
      cases hl : w.request.is_last <;> cases hc : w.env.is_complete <;>
        simp only [hl, if_true, if_false, Bool.false_eq_true] at hs12 hb2 hs23 hb3 hflag <;>
        simp only [ChunkServerImpl.LocalWriteBlock, hf, ChunkServerImpl.closes, htrue, hw, hl, hc,
          Bool.not_true, Bool.false_eq_true, if_false, if_true, Bool.and_true, Bool.true_and,
          Bool.and_false, Bool.false_and, Bool.or_false]
      · obtain ⟨hr, hsl⟩ := append_release_effect cs.block_manager bm1 _ _ block b1 b2 false
          hsealed hreg hmap hb1 hs12 hb2 hrefs2 (by simp [hfin2])
        exact ⟨hr, fun id => by simpa using hsl id, by simp⟩
      · rcases hcb : BlockManager.CloseBlock bm1 block w.env.close_ok
          w.env.close_put_ok with ⟨flag, bm3⟩
        rw [hcb] at hs23 hb3 hflag
        dsimp only at hs23 hb3 hflag
        obtain ⟨hr, hsl⟩ := append_release_effect cs.block_manager bm1 bm3 _ block b1 _
          w.env.close_ok hsealed hreg hmap hb1 (SameElsewhere_trans _ _ _ _ hs12 hs23) hb3
          (by cases w.env.close_ok <;> simp [hrefs2])
          (by cases w.env.close_ok <;> simp [hfin2])
        rw [← hflag]
        cases flag
        · exact ⟨hr, hsl, by simp⟩
        · exact ⟨hr, hsl, by simp [ChunkServerImpl.ReportFinish]⟩
      · obtain ⟨hr, hsl⟩ := append_release_effect cs.block_manager bm1 _ _ block b1 b2 false
          hsealed hreg hmap hb1 hs12 hb2 hrefs2 (by simp [hfin2])
        exact ⟨hr, fun id => by simpa using hsl id, by simp⟩
      · rcases hcb : BlockManager.CloseBlock (bm1.BlockSetVersion block w.request.packet_seq) block w.env.close_ok
          w.env.close_put_ok with ⟨flag, bm3⟩
        rw [hcb] at hs23 hb3 hflag
        dsimp only at hs23 hb3 hflag
        obtain ⟨hr, hsl⟩ := append_release_effect cs.block_manager bm1 bm3 _ block b1 _
          w.env.close_ok hsealed hreg hmap hb1 (SameElsewhere_trans _ _ _ _ hs12 hs23) hb3
          (by cases w.env.close_ok <;> simp [hrefs2])
          (by cases w.env.close_ok <;> simp [hfin2])
        rw [← hflag]
        cases flag
        · exact ⟨hr, hsl, by simp⟩
        · exact ⟨hr, hsl, by simp [ChunkServerImpl.ReportFinish]⟩


theorem sampleManager_refs : RegistryRefs sampleManager none := by
  refine ⟨?_, ?_⟩
  · intro id addr hf
    by_cases hid : (5 : Int) = id
    · have : addr = 0 := by simpa [sampleManager, kvFind, hid] using hf.symm
      subst this
      exact ⟨by decide, _, rfl, rfl⟩
    · simp [sampleManager, kvFind, hid] at hf
  · intro id1 id2 addr h1 h2
    by_cases hid1 : (5 : Int) = id1
    · by_cases hid2 : (5 : Int) = id2
      · rw [← hid1, ← hid2]
      · simp [sampleManager, kvFind, hid2] at h2
    · simp [sampleManager, kvFind, hid1] at h1

/-! ### `ReportFinish` along a sequence of local appends -/

theorem LocalWrites_append (pre : List LocalWrite) :
    ∀ (cs : ChunkServerImpl) (post : List LocalWrite),
      cs.LocalWrites (pre ++ post) = (cs.LocalWrites pre).LocalWrites post := by
  induction pre with
  | nil => intro cs post; rfl
  | cons w rest ih =>
    intro cs post
    simp only [List.cons_append, ChunkServerImpl.LocalWrites]
    exact ih _ _

theorem LocalWrites_refs (ws : List LocalWrite) :
    ∀ cs : ChunkServerImpl, RegistryRefs cs.block_manager none →
      RegistryRefs (cs.LocalWrites ws).block_manager none := by
  induction ws with
  | nil => intro cs h; exact h
  | cons w rest ih =>
    intro cs h
    exact ih _ (LocalWriteBlock_effect cs w h).1

/-- One append sends `ReportFinish` for a block once when it is an append to this block in
which `CloseBlock` returned true, and not at all otherwise. -/
theorem LocalWriteBlock_reports (cs : ChunkServerImpl) (w : LocalWrite) (block_id : Int)
    (h : RegistryRefs cs.block_manager none) :
    (cs.LocalWriteBlock w.env w.request w.call).1.reportsSent block_id
      = cs.reportsSent block_id
        + (if w.request.block_id = block_id ∧ cs.closes w = true ∧ w.env.close_put_ok = true
            then 1 else 0) := by
  obtain ⟨-, -, hev⟩ := LocalWriteBlock_effect cs w h
  unfold ChunkServerImpl.reportsSent
  rw [hev, List.count_append, List.count_append]
  have h1 : List.count (Event.ReportFinish block_id)
      (if cs.finds w = true then
        [Event.BlockWrite w.request.block_id w.request.packet_seq w.request.offset
          w.request.databuf.length] else []) = 0 := by
    split <;> simp
  rw [h1]
  by_cases hc : (cs.closes w && w.env.close_put_ok) = true
  · rw [if_pos hc]
    simp only [Bool.and_eq_true] at hc
    by_cases hid : w.request.block_id = block_id
    · rw [if_pos ⟨hid, hc.1, hc.2⟩, hid]; simp
    · rw [if_neg (fun e => hid e.1)]
      have : ¬ block_id = w.request.block_id := fun e => hid e.symm
      simp [this]
  · rw [if_neg hc]
    simp only [Bool.and_eq_true] at hc
    rw [if_neg (fun e => hc ⟨e.2.1, e.2.2⟩)]
    simp

/-- Along a run in which `Block::Close` succeeds at most once per block, a sealed block
stays sealed and no `ReportFinish` is sent for it any more. -/
theorem LocalWrites_sealed (ws : List LocalWrite) (block_id : Int) :
    ∀ cs : ChunkServerImpl, RegistryRefs cs.block_manager none → cs.closesOnce ws = true →
      cs.block_manager.sealed block_id = true →
      (cs.LocalWrites ws).block_manager.sealed block_id = true
      ∧ (cs.LocalWrites ws).reportsSent block_id = cs.reportsSent block_id := by
  induction ws with
  | nil => intro cs _ _ hs; exact ⟨hs, rfl⟩
  | cons w rest ih =>
    intro cs h honce hs
    obtain ⟨hreg, hsl, -⟩ := LocalWriteBlock_effect cs w h
    simp only [ChunkServerImpl.closesOnce, Bool.and_eq_true, Bool.or_eq_true,
      Bool.not_eq_true'] at honce
    have hs1 : (cs.LocalWriteBlock w.env w.request w.call).1.block_manager.sealed block_id
        = true := by rw [hsl, hs]; rfl
    obtain ⟨ha, hb⟩ := ih _ hreg honce.2 hs1
    refine ⟨ha, ?_⟩
    simp only [ChunkServerImpl.LocalWrites]
    rw [hb, LocalWriteBlock_reports cs w block_id h]
    have hno : ¬ (w.request.block_id = block_id ∧ cs.closes w = true
        ∧ w.env.close_put_ok = true) := by
      rintro ⟨hid, hc, -⟩
      rcases honce.1 with hx | hx
      · rw [hc] at hx; cases hx
      · rw [hid, hs] at hx; cases hx
    rw [if_neg hno]
    rfl

/-- Along a run in which `Block::Close` succeeds at most once per block, at most one
`ReportFinish` is sent for a block, and only for a block that is sealed afterwards. -/
theorem LocalWrites_at_most_once (ws : List LocalWrite) (block_id : Int) :
    ∀ cs : ChunkServerImpl, RegistryRefs cs.block_manager none → cs.closesOnce ws = true →
      ∃ n, n ≤ 1 ∧ (cs.LocalWrites ws).reportsSent block_id = cs.reportsSent block_id + n
        ∧ (n = 1 → (cs.LocalWrites ws).block_manager.sealed block_id = true) := by
  induction ws with
  | nil => intro cs _ _; exact ⟨0, by omega, rfl, by omega⟩
  | cons w rest ih =>
    intro cs h honce
    obtain ⟨hreg, hsl, -⟩ := LocalWriteBlock_effect cs w h
    have honce0 := honce
    simp only [ChunkServerImpl.closesOnce, Bool.and_eq_true, Bool.or_eq_true,
      Bool.not_eq_true'] at honce
    have hstep := LocalWriteBlock_reports cs w block_id h
    by_cases hrep : w.request.block_id = block_id ∧ cs.closes w = true
        ∧ w.env.close_put_ok = true
    · rw [if_pos hrep] at hstep
      have hs1 : (cs.LocalWriteBlock w.env w.request w.call).1.block_manager.sealed block_id
          = true := by rw [hsl, hrep.2.1, hrep.1]; simp
      obtain ⟨ha, hb⟩ := LocalWrites_sealed rest block_id _ hreg honce.2 hs1
      refine ⟨1, le_rfl, ?_, fun _ => ha⟩
      simp only [ChunkServerImpl.LocalWrites]
      rw [hb, hstep]
    · rw [if_neg hrep] at hstep
      obtain ⟨n, hn, hcount, hseal⟩ := ih _ hreg honce.2
      refine ⟨n, hn, ?_, hseal⟩
      simp only [ChunkServerImpl.LocalWrites]
      rw [hcount, hstep]
      rfl

theorem closesOnce_append (pre : List LocalWrite) :
    ∀ (cs : ChunkServerImpl) (post : List LocalWrite), cs.closesOnce (pre ++ post) = true →
      cs.closesOnce pre = true ∧ (cs.LocalWrites pre).closesOnce post = true := by
  induction pre with
  | nil => intro cs post h; exact ⟨rfl, h⟩
  | cons w rest ih =>
    intro cs post h
    simp only [List.cons_append, ChunkServerImpl.closesOnce, Bool.and_eq_true] at h ⊢
    obtain ⟨ha, hb⟩ := ih _ _ h.2
    exact ⟨⟨h.1, ha⟩, hb⟩

/-- The number of `ReportFinish` sent for a block does not go down. -/
theorem LocalWrites_reports_mono (ws : List LocalWrite) (block_id : Int) :
    ∀ cs : ChunkServerImpl, RegistryRefs cs.block_manager none →
      cs.reportsSent block_id ≤ (cs.LocalWrites ws).reportsSent block_id := by
  induction ws with
  | nil => intro cs _; exact le_rfl
  | cons w rest ih =>
    intro cs h
    have h1 := ih _ (LocalWriteBlock_effect cs w h).1
    have h2 := LocalWriteBlock_reports cs w block_id h
    simp only [ChunkServerImpl.LocalWrites]
    omega

/-- Counterexample to C16 as stated: block 5 is appended to twice. In the first append
`Block::Close` succeeds, so the block is sealed, but the metadata write of `CloseBlock`
fails, so `CloseBlock` returns false; in the second `Block::Close` fails. `Block::Close`
has succeeded once, the block is sealed, and no `ReportFinish` has been sent. -/
theorem LocalWrites_sealed_unreported :
    sampleServer.closesOnce unsyncedRun = true
    ∧ sampleServer.block_manager.sealed 5 = false
    ∧ (sampleServer.LocalWrites unsyncedRun).block_manager.sealed 5 = true
    ∧ (sampleServer.LocalWrites unsyncedRun).reportsSent 5 = 0
    ∧ (sampleServer.LocalWrites unsyncedRun).events
        = [Event.BlockWrite 5 0 0 4, Event.BlockWrite 5 0 0 4] := by
  decide

/-- C16, amended: for every sequence of local appends, started with balanced reference
counts and with `Block::Close` succeeding at most once per block: at most one
`ReportFinish` is sent for a block, and only for a block that is sealed; exactly one is
sent when in some append to the block `Block::Close` succeeded and the metadata write of
`CloseBlock` succeeded, so that `CloseBlock` returned true; none is sent when there is no
such append. -/
theorem LocalWrites_report_finish (cs : ChunkServerImpl) (ws : List LocalWrite)
    (block_id : Int) (hwf : RegistryRefs cs.block_manager none)
    (honce : cs.closesOnce ws = true) :
    (∃ n, n ≤ 1 ∧ (cs.LocalWrites ws).reportsSent block_id = cs.reportsSent block_id + n
      ∧ (n = 1 → (cs.LocalWrites ws).block_manager.sealed block_id = true))
    ∧ (∀ pre w post, ws = pre ++ w :: post → w.request.block_id = block_id →
        (cs.LocalWrites pre).closes w = true → w.env.close_put_ok = true →
        (cs.LocalWrites ws).reportsSent block_id = cs.reportsSent block_id + 1)
    ∧ ((∀ pre w post, ws = pre ++ w :: post → w.request.block_id = block_id →
          ¬ ((cs.LocalWrites pre).closes w = true ∧ w.env.close_put_ok = true)) →
        (cs.LocalWrites ws).reportsSent block_id = cs.reportsSent block_id) := by
  refine ⟨LocalWrites_at_most_once ws block_id cs hwf honce, ?_, ?_⟩
  · intro pre w post hws hid hc hput
    subst hws
    obtain ⟨n, hn, hcount, -⟩ := LocalWrites_at_most_once _ block_id cs hwf honce
    have hpre := LocalWrites_refs pre cs hwf
    have hmono := LocalWrites_reports_mono pre block_id cs hwf
    have hstep := LocalWriteBlock_reports (cs.LocalWrites pre) w block_id hpre
    rw [if_pos ⟨hid, hc, hput⟩] at hstep
    have hmono2 := LocalWrites_reports_mono post block_id _
      (LocalWriteBlock_effect (cs.LocalWrites pre) w hpre).1
    have e : cs.LocalWrites (pre ++ w :: post)
        = ((cs.LocalWrites pre).LocalWriteBlock w.env w.request w.call).1.LocalWrites post := by
      rw [LocalWrites_append]; rfl
    rw [e] at hcount ⊢
    omega
  · revert cs
    induction ws with
    | nil => intro cs _ _ _; rfl
    | cons w rest ih =>
      intro cs hwf honce hno
      have hstep := LocalWriteBlock_reports cs w block_id hwf
      have hnow : ¬ (w.request.block_id = block_id ∧ cs.closes w = true
          ∧ w.env.close_put_ok = true) := fun e => hno [] w rest rfl e.1 e.2
      rw [if_neg hnow] at hstep
      simp only [ChunkServerImpl.closesOnce, Bool.and_eq_true] at honce
      have := ih _ (LocalWriteBlock_effect cs w hwf).1 honce.2
        (fun pre w1 post hws => hno (w :: pre) w1 post (by rw [hws]; rfl))
      simp only [ChunkServerImpl.LocalWrites]
      rw [this, hstep]
      rfl

/-- Witness of `LocalWrites_report_finish`: block 5 is appended to twice; the first append
seals it with `CloseBlock` returning true, in the second `Block::Close` fails. One
`ReportFinish` is sent. -/
theorem LocalWrites_report_finish_witness :
    sampleServer.closesOnce sealingRun = true
    ∧ (sampleServer.LocalWrites sealingRun).reportsSent 5 = 1
    ∧ (sampleServer.LocalWrites sealingRun).block_manager.sealed 5 = true :=
  have h := LocalWrites_report_finish sampleServer sealingRun 5 sampleManager_refs (by decide)
  ⟨by decide,
    h.2.1 [] { env := envAccepted, request := sampleWrite, call := queuedWriteCall }
      [{ env := envCloseFails, request := sampleWrite, call := queuedWriteCall }] rfl rfl
      (by decide) rfl,
    by decide⟩

/-! ### `PullNewBlocks` keeps the reference counts balanced -/

theorem PullTurnEnd_refs (block : Nat) (step : PullStep) (len : Int)
    (s : ChunkServerImpl × PullState) (held : Option Nat)
    (h : RegistryRefs s.1.block_manager held) :
    RegistryRefs (ChunkServerImpl.PullTurnEnd block step len s).1.block_manager held := by
  unfold ChunkServerImpl.PullTurnEnd
  have hc := RegistryRefs_CloseBlock s.1.block_manager block step.close_ok
    step.close_put_ok held h
  split
  · split
    · rename_i heq
      rw [heq] at hc
      exact hc
    · rename_i heq
      rw [heq] at hc
      exact hc
  · exact h

theorem PullIter_refs (block_id : Int) (block : Nat) (addrs : List String) (init_index : Nat)
    (step : PullStep) (s : ChunkServerImpl × PullState) (held : Option Nat)
    (h : RegistryRefs s.1.block_manager held) :
    RegistryRefs
      (ChunkServerImpl.PullIter block_id block addrs init_index step s).1.block_manager
      held := by
  unfold ChunkServerImpl.PullIter
  dsimp only
  split
  · split <;> exact h
  · split
    · split
      · exact h
      · exact PullTurnEnd_refs _ _ _ _ held h
    · exact PullTurnEnd_refs _ _ _ _ held
        (RegistryRefs_BlockSetVersion s.1.block_manager block step.block_version held h)

theorem PullLoop_refs (block_id : Int) (block : Nat) (addrs : List String) (init_index : Nat)
    (held : Option Nat) (steps : List PullStep) :
    ∀ s : ChunkServerImpl × PullState, RegistryRefs s.1.block_manager held →
      RegistryRefs
        (ChunkServerImpl.PullLoop block_id block addrs init_index steps s).1.block_manager
        held := by
  induction steps with
  | nil => intro s h; exact h
  | cons step rest ih =>
    intro s h
    unfold ChunkServerImpl.PullLoop
    split
    · exact ih _ (PullIter_refs block_id block addrs init_index step s held h)
    · exact h

theorem PullOneBlock_refs (cs : ChunkServerImpl) (info : ReplicaInfo) (env : PullEnv)
    (reported : List Int) (r : ChunkServerImpl × List Int)
    (h : RegistryRefs cs.block_manager none)
    (hrun : cs.PullOneBlock info env reported = some r) :
    RegistryRefs r.1.block_manager none := by
  obtain ⟨-, -, hsome, hnone⟩ := FindBlock_refs cs.block_manager info.block_id true env.put_ok h
  rcases hf : cs.block_manager.FindBlock info.block_id true env.put_ok with ⟨o, bm1⟩
  rw [hf] at hsome hnone
  simp only [ChunkServerImpl.PullOneBlock, hf] at hrun
  cases o with
  | none =>
    simp only [Option.some.injEq] at hrun
    rw [← hrun]
    exact hnone rfl
  | some block =>
    have hreg : RegistryRefs bm1 (some block) := (hsome block rfl).1
    dsimp only at hrun
    split at hrun
    · simp only [Option.some.injEq] at hrun
      rw [← hrun]
      exact (RemoveBlock_refs _ _ _ _ (RegistryRefs_DecRef _ _ hreg)).1
    · have hloop := PullLoop_refs info.block_id block info.chunkserver_address
        (firstStub env.stubs info.chunkserver_address.length
          info.chunkserver_address.length 0) (some block) env.steps
        ({ cs with block_manager := bm1 },
          PullState.start (firstStub env.stubs info.chunkserver_address.length
            info.chunkserver_address.length 0)) hreg
      split at hrun
      · cases hrun
      · split at hrun
        · cases hrun
        · simp only [Option.some.injEq] at hrun
          rw [← hrun]
          have hdec := RegistryRefs_DecRef _ _ hloop
          dsimp only
          split
          · exact (RemoveBlock_refs _ _ _ _ hdec).1
          · exact hdec

theorem PullBlocks_refs (infos : List ReplicaInfo) :
    ∀ (envs : List PullEnv) (s r : ChunkServerImpl × List Int),
      RegistryRefs s.1.block_manager none →
      ChunkServerImpl.PullBlocks infos envs s = some r →
      RegistryRefs r.1.block_manager none := by
  induction infos with
  | nil =>
    intro envs s r h hrun
    simp only [ChunkServerImpl.PullBlocks, Option.some.injEq] at hrun
    rw [← hrun]; exact h
  | cons info rest ih =>
    intro envs s r h hrun
    cases envs with
    | nil => simp [ChunkServerImpl.PullBlocks] at hrun
    | cons env envs =>
      simp only [ChunkServerImpl.PullBlocks] at hrun
      cases hone : s.1.PullOneBlock info env s.2 with
      | none => rw [hone] at hrun; cases hrun
      | some s1 =>
        rw [hone] at hrun
        exact ih envs s1 r (PullOneBlock_refs s.1 info env s.2 s1 h hone) hrun

theorem PullNewBlocks_refs (cs cs1 : ChunkServerImpl) (new_replica_info : List ReplicaInfo)
    (envs : List PullEnv) (h : RegistryRefs cs.block_manager none)
    (hrun : cs.PullNewBlocks new_replica_info envs = some cs1) :
    RegistryRefs cs1.block_manager none := by
  unfold ChunkServerImpl.PullNewBlocks at hrun
  cases hb : ChunkServerImpl.PullBlocks new_replica_info envs (cs, []) with
  | none => rw [hb] at hrun; cases hrun
  | some r =>
    rw [hb] at hrun
    simp only [Option.some.injEq] at hrun
    rw [← hrun]
    exact PullBlocks_refs new_replica_info envs (cs, []) r h hb

/-! ### `LoadStorage` sets up balanced reference counts -/

/-- Registering a new object, allocated at the next address with one reference, keeps the
reference counts balanced. -/
theorem RegistryRefs_register (bm X : BlockManager) (block_id : Int) (b : Block)
    (h : RegistryRefs bm none) (hmap : X.block_map = bm.block_map)
    (hnext : X.next_addr = bm.next_addr + 1)
    (hat : heapGet X.heap bm.next_addr = some b) (hrefs : b.refs = 1)
    (hother : ∀ a, a ≠ bm.next_addr → heapGet X.heap a = heapGet bm.heap a) :
    RegistryRefs { X with block_map := kvPut block_id bm.next_addr X.block_map } none := by
  refine ⟨?_, ?_⟩
  · intro id a hf
    dsimp only at hf ⊢
    rw [hmap] at hf
    by_cases hid : id = block_id
    · subst hid
      rw [kvFind_kvPut_same] at hf
      simp only [Option.some.injEq] at hf
      subst hf
      exact ⟨by rw [hnext]; omega, b, hat, by simpa using hrefs⟩
    · rw [kvFind_kvPut_other _ _ _ _ hid] at hf
      obtain ⟨hlt, b0, hb0, hrefs0⟩ := h.1 id a hf
      have ha : a ≠ bm.next_addr := by omega
      exact ⟨by rw [hnext]; omega, b0, by rw [hother a ha]; exact hb0, hrefs0⟩
  · intro id1 id2 a h1 h2
    dsimp only at h1 h2
    rw [hmap] at h1 h2
    by_cases hid1 : id1 = block_id
    · by_cases hid2 : id2 = block_id
      · rw [hid1, hid2]
      · exfalso
        subst hid1
        rw [kvFind_kvPut_same] at h1
        rw [kvFind_kvPut_other _ _ _ _ hid2] at h2
        simp only [Option.some.injEq] at h1
        subst h1
        have := (h.1 id2 _ h2).1
        omega
    · by_cases hid2 : id2 = block_id
      · exfalso
        subst hid2
        rw [kvFind_kvPut_same] at h2
        rw [kvFind_kvPut_other _ _ _ _ hid1] at h1
        simp only [Option.some.injEq] at h2
        subst h2
        have := (h.1 id1 _ h1).1
        omega
      · rw [kvFind_kvPut_other _ _ _ _ hid1] at h1
        rw [kvFind_kvPut_other _ _ _ _ hid2] at h2
        exact h.2 id1 id2 a h1 h2

theorem LoadStorageLoop_refs (rows : List (DbKey × DbValue)) :
    ∀ (bm : BlockManager) (n : Int) (r : Bool × BlockManager × Int),
      RegistryRefs bm none → BlockManager.LoadStorageLoop rows bm n = some r →
      RegistryRefs r.2.1 none := by
  induction rows with
  | nil =>
    intro bm n r h hrun
    simp only [BlockManager.LoadStorageLoop, Option.some.injEq] at hrun
    rw [← hrun]; exact h
  | cons row rest ih =>
    intro bm n r h hrun
    obtain ⟨key, value⟩ := row
    unfold BlockManager.LoadStorageLoop at hrun
    cases hk : sscanfLd key with
    | none =>
      simp only [hk, Option.some.injEq] at hrun
      rw [← hrun]; exact h
    | some block_id =>
      simp only [hk] at hrun
      cases value with
      | version v => simp at hrun
      | «meta» m =>
        dsimp only at hrun
        split at hrun
        · have hs := AddRef_at (bm.NewBlock m (bm.GetStorePath block_id)).2 bm.next_addr _
            (heapGet_cons_same _ _ _)
          refine ih _ _ r ?_ hrun
          refine RegistryRefs_register bm _ block_id _ h hs.1.1 hs.1.2.1 hs.2 rfl ?_
          intro a ha
          exact (hs.1.2.2 a ha).trans (heapGet_cons_other _ _ _ _ ha)
        · cases hrun

/-- After `LoadStorage` on a registry with balanced reference counts, such as the empty
registry of a new block manager, the counts are balanced. -/
theorem LoadStorage_refs (bm : BlockManager) (open_ok : Bool) (g_data_size : Int)
    (r : Bool × BlockManager) (h : RegistryRefs bm none)
    (hrun : bm.LoadStorage open_ok g_data_size = some r) : RegistryRefs r.2 none := by
  have key : ∀ bm0 : BlockManager, RegistryRefs bm0 none →
      (match BlockManager.LoadStorageLoop
          (kvSeek (BlockManager.version_key ++ [Char.ofNat 0]) bm0.metadb) bm0 0 with
        | none => none
        | some (false, bm, _) => some (false, bm)
        | some (true, bm, _) =>
          some (true, { bm with disk_quota := bm.disk_quota + g_data_size })) = some r →
      RegistryRefs r.2 none := by
    intro bm0 h0 hrun0
    cases hl : BlockManager.LoadStorageLoop
        (kvSeek (BlockManager.version_key ++ [Char.ofNat 0]) bm0.metadb) bm0 0 with
    | none => rw [hl] at hrun0; cases hrun0
    | some x =>
      have hx := LoadStorageLoop_refs _ bm0 0 x h0 hl
      rw [hl] at hrun0
      obtain ⟨ok, bm1, n⟩ := x
      cases ok with
      | false =>
        simp only [Option.some.injEq] at hrun0
        rw [← hrun0]; exact hx
      | true =>
        simp only [Option.some.injEq] at hrun0
        rw [← hrun0]; exact hx
  unfold BlockManager.LoadStorage at hrun
  split at hrun
  · simp only [Option.some.injEq] at hrun
    rw [← hrun]; exact h
  · dsimp only at hrun
    cases hv : kvFind BlockManager.version_key bm.metadb with
    | none =>
      rw [hv] at hrun
      exact key _ h hrun
    | some v =>
      rw [hv] at hrun
      cases v with
      | «meta» m => exact key _ h hrun
      | version v => exact key { bm with namespace_version := v } h hrun

/-- The empty registry of a new block manager has balanced reference counts. -/
theorem RegistryRefs_empty (bm : BlockManager) (h : bm.block_map = []) :
    RegistryRefs bm none := by
  refine ⟨?_, ?_⟩
  · intro id addr hf
    rw [h] at hf
    simp [kvFind] at hf
  · intro id1 id2 addr h1
    rw [h] at h1
    simp [kvFind] at h1

/-! ### Sequential runs -/

theorem Op_run_refs (op : Op) (cs cs1 : ChunkServerImpl)
    (h : RegistryRefs cs.block_manager none) (hrun : op.run cs = some cs1) :
    RegistryRefs cs1.block_manager none := by
  cases op with
  | LocalWriteBlock env request call =>
    simp only [Op.run, Option.some.injEq] at hrun
    rw [← hrun]
    exact (LocalWriteBlock_effect cs { env := env, request := request, call := call } h).1
  | ReadBlock env request call =>
    simp only [Op.run] at hrun
    cases hr : cs.ReadBlock env request call with
    | threw st => rw [hr] at hrun; cases hrun
    | returned r =>
      rw [hr] at hrun
      simp only [Option.some.injEq] at hrun
      rw [← hrun]
      exact (ReadBlock_refs cs env request call h).1 r hr
  | GetBlockInfo now request call =>
    simp only [Op.run, Option.some.injEq] at hrun
    rw [← hrun]
    exact GetBlockInfo_refs cs now request call h
  | PullNewBlocks new_replica_info envs =>
    exact PullNewBlocks_refs cs cs1 new_replica_info envs h hrun
  | RemoveBlock block_id unlink_fail delete_ok =>
    simp only [Op.run, Option.some.injEq] at hrun
    rw [← hrun]
    exact (RemoveBlock_refs cs.block_manager block_id unlink_fail delete_ok h).1
  | RemoveObsoleteBlocks blocks outcomes =>
    simp only [Op.run, Option.some.injEq] at hrun
    rw [← hrun]
    exact RemoveObsoleteBlocks_refs blocks cs outcomes h

theorem runOps_refs (ops : List Op) :
    ∀ cs cs1 : ChunkServerImpl, RegistryRefs cs.block_manager none →
      runOps ops cs = some cs1 → RegistryRefs cs1.block_manager none := by
  induction ops with
  | nil =>
    intro cs cs1 h hrun
    simp only [runOps, Option.some.injEq] at hrun
    rw [← hrun]; exact h
  | cons op rest ih =>
    intro cs cs1 h hrun
    simp only [runOps] at hrun
    cases hop : op.run cs with
    | none => rw [hop] at hrun; cases hrun
    | some cs2 =>
      rw [hop] at hrun
      exact ih cs2 cs1 (Op_run_refs op cs cs2 h hop) hrun



/-- Reference counts along the runs in which every operation returns. After any such
sequential run of `LocalWriteBlock`, `ReadBlock`, `GetBlockInfo`, `PullNewBlocks`,
`RemoveBlock` and `RemoveObsoleteBlocks`, started with each block of the registry holding
one reference, every block still in the registry has reference count exactly 1. For every
such state: a handle returned by `FindBlock` is the registry's object of the block with one
reference added; each of the four handlers, when it returns, leaves every block of the
registry with one reference; `RemoveBlock` leaves every block of the registry with one
reference, and when it returns true the block has left the registry and its object is
freed, while when it returns false the registry still holds the blocks it held.
`LoadStorage` on the empty registry of a new block manager gives such a state. -/
theorem refs_balanced (ops : List Op) (cs cs1 : ChunkServerImpl)
    (hwf : RegistryRefs cs.block_manager none) (hrun : runOps ops cs = some cs1) :
    (∀ id addr, kvFind id cs1.block_manager.block_map = some addr →
        cs1.block_manager.refs addr = some 1)
    ∧ RegistryRefs cs1.block_manager none
    ∧ (∀ s : ChunkServerImpl, RegistryRefs s.block_manager none →
        (∀ block_id create put_ok addr,
          (s.block_manager.FindBlock block_id create put_ok).1 = some addr →
          RegistryRefs (s.block_manager.FindBlock block_id create put_ok).2 (some addr)
          ∧ kvFind block_id (s.block_manager.FindBlock block_id create put_ok).2.block_map
              = some addr
          ∧ (s.block_manager.FindBlock block_id create put_ok).2.refs addr = some 2)
        ∧ (∀ env request call,
            RegistryRefs (s.LocalWriteBlock env request call).1.block_manager none)
        ∧ (∀ env request call r, s.ReadBlock env request call = Ended.returned r →
            RegistryRefs r.1.block_manager none)
        ∧ (∀ now request call,
            RegistryRefs (s.GetBlockInfo now request call).1.block_manager none)
        ∧ (∀ new_replica_info envs s1, s.PullNewBlocks new_replica_info envs = some s1 →
            RegistryRefs s1.block_manager none)
        ∧ (∀ block_id unlink_fail delete_ok,
            RegistryRefs (s.block_manager.RemoveBlock block_id unlink_fail delete_ok).2 none
            ∧ ((s.block_manager.RemoveBlock block_id unlink_fail delete_ok).1 = true →
                kvFind block_id
                  (s.block_manager.RemoveBlock block_id unlink_fail delete_ok).2.block_map
                  = none
                ∧ ∀ addr, kvFind block_id s.block_manager.block_map = some addr →
                    heapGet (s.block_manager.RemoveBlock block_id unlink_fail
                      delete_ok).2.heap addr = none)
            ∧ ((s.block_manager.RemoveBlock block_id unlink_fail delete_ok).1 = false →
                (s.block_manager.RemoveBlock block_id unlink_fail delete_ok).2.block_map
                  = s.block_manager.block_map)))
    ∧ (∀ (bm : BlockManager) (open_ok : Bool) (g_data_size : Int) (r : Bool × BlockManager),
        bm.block_map = [] → bm.LoadStorage open_ok g_data_size = some r →
        RegistryRefs r.2 none) := by
  have hfinal := runOps_refs ops cs cs1 hwf hrun
  refine ⟨?_, hfinal, ?_, fun bm open_ok g_data_size r hempty hload =>
    LoadStorage_refs bm open_ok g_data_size r (RegistryRefs_empty bm hempty) hload⟩
  · intro id addr hf
    obtain ⟨-, b, hb, hrefs⟩ := hfinal.1 id addr hf
    simp only [BlockManager.refs, hb, Option.map_some']
    rw [hrefs]
    simp
  · intro s hs
    refine ⟨?_, ?_, ?_, ?_, ?_, ?_⟩
    · intro block_id create put_ok addr hfind
      obtain ⟨hreg, hmap⟩ :=
        (FindBlock_refs s.block_manager block_id create put_ok hs).2.2.1 addr hfind
      refine ⟨hreg, hmap, ?_⟩
      obtain ⟨-, b, hb, hrefs⟩ := hreg.1 block_id addr hmap
      simp only [BlockManager.refs, hb, Option.map_some']
      rw [hrefs]
      simp
    · intro env request call
      exact (LocalWriteBlock_effect s { env := env, request := request, call := call } hs).1
    · intro env request call r hr
      exact (ReadBlock_refs s env request call hs).1 r hr
    · intro now request call
      exact GetBlockInfo_refs s now request call hs
    · intro new_replica_info envs s1 h1
      exact PullNewBlocks_refs s s1 new_replica_info envs hs h1
    · intro block_id unlink_fail delete_ok
      exact RemoveBlock_refs s.block_manager block_id unlink_fail delete_ok hs

set_option maxRecDepth 8000 in
/-- Witness of `refs_balanced`: the run `sampleOps` from the state that holds block 5
ends with the blocks 6 and 77 in the registry, each with one reference. -/
theorem refs_balanced_witness :
    ∃ cs1, runOps sampleOps sampleServer = some cs1
      ∧ cs1.block_manager.block_map = [(6, 1), (77, 2)]
      ∧ (∀ id addr, kvFind id cs1.block_manager.block_map = some addr →
          cs1.block_manager.refs addr = some 1) := by
  have hsome : (runOps sampleOps sampleServer).isSome = true := by decide
  obtain ⟨cs1, h1⟩ := Option.isSome_iff_exists.1 hsome
  refine ⟨cs1, h1, ?_, (refs_balanced sampleOps sampleServer cs1 sampleManager_refs h1).1⟩
  have : (runOps sampleOps sampleServer).map (fun c => c.block_manager.block_map)
      = some [(6, 1), (77, 2)] := by decide
  rw [h1] at this
  simpa using this


/-- C20 at a failing input: block 5 is in the registry with one reference, and the second
entry of `ReadBlock` is run for it with `read_len = -1`. `FindBlock` adds the reference of
the handle, `new char[read_len]` throws, and the exception leaves the handler before
`DecRef`: block 5 is still in the registry and its reference count is 2, and the run does
not go on. The pull of block 78 from the single peer A, which does not answer, leaves the
loop after the failed request with the stub deleted and the reference of the handle held;
the `delete chunkserver` after the loop is a second delete of the stub, and
`PullNewBlocks` does not return. -/
theorem ReadBlock_throw_keeps_reference :
    kvFind 5 sampleServer.block_manager.block_map = some 0
    ∧ sampleServer.block_manager.refs 0 = some 1
    ∧ (∃ st, sampleServer.ReadBlock sampleReadEnv sampleReadNegative queuedReadCall
          = Ended.threw st
        ∧ kvFind 5 st.block_manager.block_map = some 0
        ∧ st.block_manager.refs 0 = some 2)
    ∧ runOps [Op.ReadBlock sampleReadEnv sampleReadNegative queuedReadCall] sampleServer
        = none
    ∧ (ChunkServerImpl.PullLoop 78 1 ["A"] 0 failedPull.steps
        ({ sampleServer with block_manager := (sampleManager.FindBlock 78 true true).2 },
          PullState.start 0)).2.running = false
    ∧ (ChunkServerImpl.PullLoop 78 1 ["A"] 0 failedPull.steps
        ({ sampleServer with block_manager := (sampleManager.FindBlock 78 true true).2 },
          PullState.start 0)).2.stub_deleted = true
    ∧ (ChunkServerImpl.PullLoop 78 1 ["A"] 0 failedPull.steps
        ({ sampleServer with block_manager := (sampleManager.FindBlock 78 true true).2 },
          PullState.start 0)).1.block_manager.refs 1 = some 2
    ∧ sampleServer.PullNewBlocks [{ block_id := 78, chunkserver_address := ["A"] }]
        [failedPull] = none := by
  refine ⟨by decide, by decide, ⟨_, rfl, by decide, by decide⟩, by decide, by decide,
    by decide, by decide, by decide⟩

/-! ### The turns of the pull loop -/

theorem PullTurnEnd_state (block : Nat) (step : PullStep) (len : Int)
    (s : ChunkServerImpl × PullState) :
    (ChunkServerImpl.PullTurnEnd block step len s).1.events = s.1.events
    ∧ ((ChunkServerImpl.PullTurnEnd block step len s).2
          = { s.2 with running := false }
        ∨ (ChunkServerImpl.PullTurnEnd block step len s).2
          = { s.2 with offset := s.2.offset + len }) := by
  unfold ChunkServerImpl.PullTurnEnd
  split
  · split
    · exact ⟨rfl, Or.inl rfl⟩
    · exact ⟨rfl, Or.inr rfl⟩
  · exact ⟨rfl, Or.inr rfl⟩

/-- Every turn sends its request, with the sequence number and the offset of the state at
the head of the loop, to the peer at `pre_index`. -/
theorem PullIter_events (block_id : Int) (block : Nat) (addrs : List String)
    (init_index : Nat) (step : PullStep) (s : ChunkServerImpl × PullState) :
    ∃ rest, (ChunkServerImpl.PullIter block_id block addrs init_index step s).1.events
      = s.1.events
        ++ Event.PullRead (addrs.getD s.2.pre_index "") (s.2.request block_id) :: rest := by
  unfold ChunkServerImpl.PullIter
  dsimp only
  split
  · split <;> exact ⟨[], rfl⟩
  · split
    · split
      · exact ⟨[Event.BlockWrite block_id (s.2.seq + 1) s.2.offset step.databuf.length],
          by simp⟩
      · refine ⟨[Event.BlockWrite block_id (s.2.seq + 1) s.2.offset step.databuf.length], ?_⟩
        rw [(PullTurnEnd_state _ _ _ _).1]
        simp
    · refine ⟨[], ?_⟩
      rw [(PullTurnEnd_state _ _ _ _).1]

/-- A turn whose request fails. -/
theorem PullIter_failed (block_id : Int) (block : Nat) (addrs : List String)
    (init_index : Nat) (step : PullStep) (s : ChunkServerImpl × PullState)
    (hfail : step.failed = true) :
    (ChunkServerImpl.PullIter block_id block addrs init_index step s).2
      = if (s.2.pre_index + 1) % addrs.length = init_index then
          { s.2 with seq := s.2.seq + 1 - 1, pre_index := (s.2.pre_index + 1) % addrs.length,
                     success := false, running := false, stub_deleted := true }
        else
          { s.2 with seq := s.2.seq + 1 - 1, pre_index := (s.2.pre_index + 1) % addrs.length,
                     stub_deleted := false }
      := by
  unfold ChunkServerImpl.PullIter
  dsimp only
  rw [if_pos hfail]
  split <;> rfl

/-- A turn whose reply carries data that the local write rejects. -/
theorem PullIter_rejected (block_id : Int) (block : Nat) (addrs : List String)
    (init_index : Nat) (step : PullStep) (s : ChunkServerImpl × PullState)
    (hok : step.failed = false) (hdata : step.databuf ≠ []) (hw : step.write_ok = false) :
    (ChunkServerImpl.PullIter block_id block addrs init_index step s).2
      = { s.2 with seq := s.2.seq + 1, success := false, running := false } := by
  have hlen : ((step.databuf.length : Nat) : Int) ≠ 0 := by
    intro h
    exact hdata (List.length_eq_zero.1 (by exact_mod_cast h))
  unfold ChunkServerImpl.PullIter
  dsimp only
  rw [if_neg (by simp [hok]), if_pos hlen]
  simp [hw]

/-- A turn whose reply carries data that is appended. -/
theorem PullIter_appended (block_id : Int) (block : Nat) (addrs : List String)
    (init_index : Nat) (step : PullStep) (s : ChunkServerImpl × PullState)
    (hok : step.failed = false) (hdata : step.databuf ≠ []) (hw : step.write_ok = true) :
    (ChunkServerImpl.PullIter block_id block addrs init_index step s).2
        = { s.2 with seq := s.2.seq + 1,
                     appended_bytes := s.2.appended_bytes + step.databuf.length,
                     appended_chunks := s.2.appended_chunks + 1, running := false }
    ∨ (ChunkServerImpl.PullIter block_id block addrs init_index step s).2
        = { s.2 with seq := s.2.seq + 1,
                     appended_bytes := s.2.appended_bytes + step.databuf.length,
                     appended_chunks := s.2.appended_chunks + 1,
                     offset := s.2.offset + step.databuf.length } := by
  have hlen : ((step.databuf.length : Nat) : Int) ≠ 0 := by
    intro h
    exact hdata (List.length_eq_zero.1 (by exact_mod_cast h))
  unfold ChunkServerImpl.PullIter
  dsimp only
  rw [if_neg (by simp [hok]), if_pos hlen, if_neg (by simp [hw])]
  exact (PullTurnEnd_state _ _ _ _).2

/-- A turn whose reply is empty. -/
theorem PullIter_empty (block_id : Int) (block : Nat) (addrs : List String)
    (init_index : Nat) (step : PullStep) (s : ChunkServerImpl × PullState)
    (hok : step.failed = false) (hdata : step.databuf = []) :
    (ChunkServerImpl.PullIter block_id block addrs init_index step s).2
        = { s.2 with seq := s.2.seq + 1, empty_replies := s.2.empty_replies + 1,
                     running := false }
    ∨ (ChunkServerImpl.PullIter block_id block addrs init_index step s).2
        = { s.2 with seq := s.2.seq + 1, empty_replies := s.2.empty_replies + 1,
                     offset := s.2.offset + 0 } := by
  have hlen : ¬ ((step.databuf.length : Nat) : Int) ≠ 0 := by
    rw [hdata]; simp
  unfold ChunkServerImpl.PullIter
  dsimp only
  rw [if_neg (by simp [hok]), if_neg hlen]
  have := (PullTurnEnd_state block step ((step.databuf.length : Nat) : Int)
    ({ s.1 with
        events := s.1.events ++ [Event.PullRead (addrs.getD s.2.pre_index "")
          (s.2.request block_id)],
        block_manager := s.1.block_manager.BlockSetVersion block step.block_version },
      { s.2 with seq := s.2.seq + 1, empty_replies := s.2.empty_replies + 1 })).2
  rw [hdata] at this ⊢
  exact this

/-- While the loop runs, the offset is the number of bytes appended, the sequence number
of the next request is the number of chunks appended plus the number of empty replies
received, and the pull is not marked failed. -/
theorem PullIter_invariant (block_id : Int) (block : Nat) (addrs : List String)
    (init_index : Nat) (step : PullStep) (s : ChunkServerImpl × PullState)
    (h : s.2.running = true →
      s.2.offset = s.2.appended_bytes
      ∧ s.2.seq + 1 = s.2.appended_chunks + s.2.empty_replies ∧ s.2.success = true)
    (hrun : s.2.running = true) :
    (ChunkServerImpl.PullIter block_id block addrs init_index step s).2.running = true →
      (ChunkServerImpl.PullIter block_id block addrs init_index step s).2.offset
        = (ChunkServerImpl.PullIter block_id block addrs init_index step s).2.appended_bytes
      ∧ (ChunkServerImpl.PullIter block_id block addrs init_index step s).2.seq + 1
        = (ChunkServerImpl.PullIter block_id block addrs init_index step s).2.appended_chunks
          + (ChunkServerImpl.PullIter block_id block addrs init_index step s).2.empty_replies
      ∧ (ChunkServerImpl.PullIter block_id block addrs init_index step s).2.success = true := by
  obtain ⟨h1, h2, h3⟩ := h hrun
  cases hfail : step.failed with
  | true =>
    rw [PullIter_failed _ _ _ _ _ _ hfail]
    split
    · intro hr; cases hr
    · intro _
      dsimp only
      exact ⟨h1, by omega, h3⟩
  | false =>
    by_cases hdata : step.databuf = []
    · rcases PullIter_empty block_id block addrs init_index step s hfail hdata with e | e
      · rw [e]; intro hr; cases hr
      · rw [e]; intro _
        dsimp only
        exact ⟨by omega, by omega, h3⟩
    · cases hw : step.write_ok with
      | false =>
        rw [PullIter_rejected _ _ _ _ _ _ hfail hdata hw]
        intro hr; cases hr
      | true =>
        rcases PullIter_appended block_id block addrs init_index step s hfail hdata hw
          with e | e
        · rw [e]; intro hr; cases hr
        · rw [e]; intro _
          dsimp only
          exact ⟨by omega, by omega, h3⟩

theorem PullLoop_invariant (block_id : Int) (block : Nat) (addrs : List String)
    (init_index : Nat) (steps : List PullStep) :
    ∀ s : ChunkServerImpl × PullState,
      (s.2.running = true →
        s.2.offset = s.2.appended_bytes
        ∧ s.2.seq + 1 = s.2.appended_chunks + s.2.empty_replies ∧ s.2.success = true) →
      (ChunkServerImpl.PullLoop block_id block addrs init_index steps s).2.running = true →
        (ChunkServerImpl.PullLoop block_id block addrs init_index steps s).2.offset
          = (ChunkServerImpl.PullLoop block_id block addrs init_index steps s).2.appended_bytes
        ∧ (ChunkServerImpl.PullLoop block_id block addrs init_index steps s).2.seq + 1
          = (ChunkServerImpl.PullLoop block_id block addrs init_index steps s).2.appended_chunks
            + (ChunkServerImpl.PullLoop block_id block addrs init_index steps
                s).2.empty_replies
        ∧ (ChunkServerImpl.PullLoop block_id block addrs init_index steps s).2.success
          = true := by
  induction steps with
  | nil => intro s h; exact h
  | cons step rest ih =>
    intro s h
    unfold ChunkServerImpl.PullLoop
    split
    · rename_i hrun
      exact ih _ (PullIter_invariant block_id block addrs init_index step s h hrun)
    · exact h

/-- Counterexample to C15 as stated: block 77 is pulled from the peers A and B. A sends a
chunk of two bytes, which is appended, and then the empty reply that ends the block; the
block is complete and `Block::Close` succeeds, but the metadata write of `CloseBlock` fails,
so the loop goes on; A sends an empty reply once more. The fourth request carries the
sequence number 3 (and the third the number 2) although one chunk has been appended. The
pull ends when the local write rejects the chunk sent in reply to the fourth request. -/
theorem PullNewBlocks_seq_counts_empty_replies :
    (sampleServer.PullNewBlocks [{ block_id := 77, chunkserver_address := ["A", "B"] }]
        [unsyncedPull]).map (fun c => c.events)
      = some
        [Event.PullRead "A"
           { sequence_id := 0, block_id := 77, offset := 0, read_len := 262144,
             require_block_version := true },
         Event.BlockWrite 77 0 0 2,
         Event.PullRead "A"
           { sequence_id := 1, block_id := 77, offset := 2, read_len := 262144,
             require_block_version := true },
         Event.PullRead "A"
           { sequence_id := 2, block_id := 77, offset := 2, read_len := 262144,
             require_block_version := true },
         Event.PullRead "A"
           { sequence_id := 3, block_id := 77, offset := 2, read_len := 262144,
             require_block_version := true },
         Event.BlockWrite 77 3 2 1,
         Event.PullBlockReport 3 [77]]
    ∧ (ChunkServerImpl.PullLoop 77 1 ["A", "B"] 0
        [pullData [65, 65], pullEndUnsynced, pullEmpty]
        (pullingServer, PullState.start 0)).2
      = { seq := 2, offset := 2, success := true, pre_index := 0, running := true,
          appended_bytes := 2, appended_chunks := 1, empty_replies := 2,
          stub_deleted := false } := by
  decide

/-- C15, amended: in a turn of the pull loop that starts with the pull not marked failed,
the request carries the offset and the sequence number of the state and goes to the peer at
`pre_index`. After a transport failure or a non-zero peer status the next request carries
the same offset and the same sequence number and goes to the cyclic successor of the
current peer, and in this case the pull is marked failed, and the loop left, exactly when
that successor is the index chosen first. After a reply with data that the local write
rejects the pull is marked failed. After a reply with data that is appended the sequence
number has advanced by one, and the offset by the length of the reply unless the turn
closed the block and left the loop. After an empty reply the sequence number has advanced
by one and nothing is appended. So, as long as the loop runs, the offset of the next
request is the number of bytes appended and its sequence number is the number of chunks
appended plus the number of empty replies received: the number of chunks appended when no
empty reply has been received. -/
theorem PullNewBlocks_turn (block_id : Int) (block : Nat) (addrs : List String)
    (init_index : Nat) (step : PullStep) (s : ChunkServerImpl × PullState)
    (hsuccess : s.2.success = true) :
    (∃ rest, (ChunkServerImpl.PullIter block_id block addrs init_index step s).1.events
      = s.1.events
        ++ Event.PullRead (addrs.getD s.2.pre_index "") (s.2.request block_id) :: rest)
    ∧ (step.failed = true →
        (ChunkServerImpl.PullIter block_id block addrs init_index step s).2.request block_id
          = s.2.request block_id
        ∧ (ChunkServerImpl.PullIter block_id block addrs init_index step s).2.offset
          = s.2.offset
        ∧ (ChunkServerImpl.PullIter block_id block addrs init_index step s).2.seq = s.2.seq
        ∧ (ChunkServerImpl.PullIter block_id block addrs init_index step s).2.pre_index
          = (s.2.pre_index + 1) % addrs.length
        ∧ ((ChunkServerImpl.PullIter block_id block addrs init_index step s).2.success = false
            ↔ (s.2.pre_index + 1) % addrs.length = init_index)
        ∧ ((ChunkServerImpl.PullIter block_id block addrs init_index step s).2.running = false
            ↔ ((s.2.pre_index + 1) % addrs.length = init_index ∨ s.2.running = false)))
    ∧ (step.failed = false → step.databuf ≠ [] → step.write_ok = false →
        (ChunkServerImpl.PullIter block_id block addrs init_index step s).2.success = false
        ∧ (ChunkServerImpl.PullIter block_id block addrs init_index step s).2.running = false)
    ∧ (step.failed = false → step.databuf ≠ [] → step.write_ok = true →
        (ChunkServerImpl.PullIter block_id block addrs init_index step s).2.success = true
        ∧ (ChunkServerImpl.PullIter block_id block addrs init_index step s).2.seq
          = s.2.seq + 1
        ∧ (ChunkServerImpl.PullIter block_id block addrs init_index step s).2.pre_index
          = s.2.pre_index
        ∧ (ChunkServerImpl.PullIter block_id block addrs init_index step s).2.appended_bytes
          = s.2.appended_bytes + step.databuf.length
        ∧ (ChunkServerImpl.PullIter block_id block addrs init_index step s).2.appended_chunks
          = s.2.appended_chunks + 1
        ∧ ((ChunkServerImpl.PullIter block_id block addrs init_index step s).2.running = true →
            (ChunkServerImpl.PullIter block_id block addrs init_index step s).2.offset
              = s.2.offset + step.databuf.length))
    ∧ (step.failed = false → step.databuf = [] →
        (ChunkServerImpl.PullIter block_id block addrs init_index step s).2.success = true
        ∧ (ChunkServerImpl.PullIter block_id block addrs init_index step s).2.seq
          = s.2.seq + 1
        ∧ (ChunkServerImpl.PullIter block_id block addrs init_index step s).2.offset
          = s.2.offset
        ∧ (ChunkServerImpl.PullIter block_id block addrs init_index step s).2.appended_bytes
          = s.2.appended_bytes
        ∧ (ChunkServerImpl.PullIter block_id block addrs init_index step s).2.appended_chunks
          = s.2.appended_chunks)
    ∧ (∀ (steps : List PullStep) (cs : ChunkServerImpl),
        (ChunkServerImpl.PullLoop block_id block addrs init_index steps
          (cs, PullState.start init_index)).2.running = true →
        ((ChunkServerImpl.PullLoop block_id block addrs init_index steps
            (cs, PullState.start init_index)).2.request block_id).offset
          = (ChunkServerImpl.PullLoop block_id block addrs init_index steps
              (cs, PullState.start init_index)).2.appended_bytes
        ∧ ((ChunkServerImpl.PullLoop block_id block addrs init_index steps
            (cs, PullState.start init_index)).2.request block_id).sequence_id
          = (ChunkServerImpl.PullLoop block_id block addrs init_index steps
              (cs, PullState.start init_index)).2.appended_chunks
            + (ChunkServerImpl.PullLoop block_id block addrs init_index steps
                (cs, PullState.start init_index)).2.empty_replies
        ∧ ((ChunkServerImpl.PullLoop block_id block addrs init_index steps
              (cs, PullState.start init_index)).2.empty_replies = 0 →
            ((ChunkServerImpl.PullLoop block_id block addrs init_index steps
              (cs, PullState.start init_index)).2.request block_id).sequence_id
            = (ChunkServerImpl.PullLoop block_id block addrs init_index steps
                (cs, PullState.start init_index)).2.appended_chunks)) := by
  refine ⟨PullIter_events block_id block addrs init_index step s, ?_, ?_, ?_, ?_, ?_⟩
  · intro hfail
    rw [PullIter_failed _ _ _ _ _ _ hfail]
    by_cases hinit : (s.2.pre_index + 1) % addrs.length = init_index
    · rw [if_pos hinit]
      refine ⟨?_, rfl, ?_, rfl, ?_, ?_⟩
      · simp [PullState.request]
      · dsimp only; omega
      · simp [hinit]
      · simp [hinit]
    · rw [if_neg hinit]
      refine ⟨?_, rfl, ?_, rfl, ?_, ?_⟩
      · simp [PullState.request]
      · dsimp only; omega
      · simp [hinit, hsuccess]
      · simp [hinit]
  · intro hok hdata hw
    rw [PullIter_rejected _ _ _ _ _ _ hok hdata hw]
    exact ⟨rfl, rfl⟩
  · intro hok hdata hw
    rcases PullIter_appended block_id block addrs init_index step s hok hdata hw with e | e
    · rw [e]
      exact ⟨hsuccess, rfl, rfl, rfl, rfl, fun h => by cases h⟩
    · rw [e]
      exact ⟨hsuccess, rfl, rfl, rfl, rfl, fun _ => rfl⟩
  · intro hok hdata
    rcases PullIter_empty block_id block addrs init_index step s hok hdata with e | e
    · rw [e]
      exact ⟨hsuccess, rfl, rfl, rfl, rfl⟩
    · rw [e]
      exact ⟨hsuccess, rfl, by dsimp only; omega, rfl, rfl⟩
  · intro steps cs hrun
    obtain ⟨h1, h2, -⟩ := PullLoop_invariant block_id block addrs init_index steps
      (cs, PullState.start init_index) (fun _ => ⟨rfl, rfl, rfl⟩) hrun
    refine ⟨h1, h2, ?_⟩
    intro h0
    simp only [PullState.request] at h2 ⊢
    rw [h2, h0]
    simp

/-- Witness of `PullNewBlocks_turn`, the pull with failover: block 77 is pulled from the
peers A and B; A has sent the first chunk of two bytes and answers the second request with
status 1. The next request carries the same sequence number 1 and the same offset 2 and
goes to B, and the pull is not marked failed. -/
theorem PullNewBlocks_turn_witness :
    ((ChunkServerImpl.PullIter 77 1 ["A", "B"] 0 pullRefused
        (ChunkServerImpl.PullIter 77 1 ["A", "B"] 0 (pullData [65, 65])
          (pullingServer, PullState.start 0))).2.request 77
      = { sequence_id := 1, block_id := 77, offset := 2, read_len := 262144,
          require_block_version := true })
    ∧ (ChunkServerImpl.PullIter 77 1 ["A", "B"] 0 pullRefused
        (ChunkServerImpl.PullIter 77 1 ["A", "B"] 0 (pullData [65, 65])
          (pullingServer, PullState.start 0))).2.pre_index = 1
    ∧ (ChunkServerImpl.PullIter 77 1 ["A", "B"] 0 pullRefused
        (ChunkServerImpl.PullIter 77 1 ["A", "B"] 0 (pullData [65, 65])
          (pullingServer, PullState.start 0))).2.success = true :=
  have h := (PullNewBlocks_turn 77 1 ["A", "B"] 0 pullRefused
    (ChunkServerImpl.PullIter 77 1 ["A", "B"] 0 (pullData [65, 65])
      (pullingServer, PullState.start 0)) (by decide)).2.1 (by decide)
  ⟨h.1.trans (by decide), h.2.2.2.1.trans (by decide), by decide⟩

/-! ### The status left by `WriteNextCallback` when it completes the request -/

/-- Counterexample to C21 as stated: the forward is reported failed with the transport
error code 0, which is not the send-buffer-full code (taken to be 31 here), and the child's
status is 0. The callback completes the upstream request, schedules nothing, and the
upstream status it leaves is 0. -/
theorem WriteNextCallback_failed_status_zero :
    (sampleServer.WriteNextCallback 31 sampleWrite (childResponse 0) true 0 "peerA"
        sampleWrite queuedWriteCall).2.response.status = some 0
    ∧ (sampleServer.WriteNextCallback 31 sampleWrite (childResponse 0) true 0 "peerA"
        sampleWrite queuedWriteCall).2.done = queuedWriteCall.done + 1
    ∧ (sampleServer.WriteNextCallback 31 sampleWrite (childResponse 0) true 0 "peerA"
        sampleWrite queuedWriteCall).1 = sampleServer := by
  decide

/-- C21, amended: whenever `WriteNextCallback` completes the upstream request (it runs
`done`), the forward was reported failed with another error than send-buffer-full or the
child's status is non-zero, nothing is scheduled (the pools, the events and the block
manager are as before, so there is no local append), and the upstream status it leaves is
the child's status if that is non-zero and the transport error code otherwise; so the
status left is non-zero exactly when the child's status or the transport error code is
non-zero, and it is 0 when the forward is reported failed with error code 0 and child
status 0. -/
theorem WriteNextCallback_completed_status (cs : ChunkServerImpl) (SEND_BUFFER_FULL : Int)
    (next_request : WriteBlockRequest) (next_response : WriteBlockResponse)
    (failed : Bool) (error : Int) (next_server : String) (request : WriteBlockRequest)
    (call : Call WriteBlockResponse)
    (hdone : (cs.WriteNextCallback SEND_BUFFER_FULL next_request next_response failed error
        next_server request call).2.done = call.done + 1) :
    ¬ (failed = true ∧ error = SEND_BUFFER_FULL)
    ∧ (failed = true ∨ next_response.status.getD 0 ≠ 0)
    ∧ (cs.WriteNextCallback SEND_BUFFER_FULL next_request next_response failed error
        next_server request call).1 = cs
    ∧ (cs.WriteNextCallback SEND_BUFFER_FULL next_request next_response failed error
        next_server request call).2.response.status
      = some (if next_response.status.getD 0 ≠ 0 then next_response.status.getD 0 else error)
    ∧ ((cs.WriteNextCallback SEND_BUFFER_FULL next_request next_response failed error
        next_server request call).2.response.status ≠ some 0
        ↔ (next_response.status.getD 0 ≠ 0 ∨ error ≠ 0))
    ∧ (next_response.status.getD 0 = 0 → error = 0 →
        failed = true
        ∧ (cs.WriteNextCallback SEND_BUFFER_FULL next_request next_response failed error
            next_server request call).2.response.status = some 0) := by
  by_cases hretry : failed = true ∧ error = SEND_BUFFER_FULL
  · simp only [ChunkServerImpl.WriteNextCallback, if_pos hretry] at hdone
    omega
  · by_cases hfail : failed = true ∨ next_response.status.getD 0 ≠ 0
    · have hstatus : (cs.WriteNextCallback SEND_BUFFER_FULL next_request next_response failed
          error next_server request call).2.response.status
          = some (if next_response.status.getD 0 ≠ 0 then next_response.status.getD 0
              else error) := by
        simp only [ChunkServerImpl.WriteNextCallback, if_neg hretry, if_pos hfail]
        by_cases h0 : next_response.status.getD 0 = 0 <;> simp [h0]
      refine ⟨hretry, hfail, ?_, hstatus, ?_, ?_⟩
      · simp only [ChunkServerImpl.WriteNextCallback, if_neg hretry, if_pos hfail]
      · rw [hstatus]
        by_cases h0 : next_response.status.getD 0 = 0
        · simp [h0]
        · simp [h0]
      · intro h0 he
        refine ⟨?_, ?_⟩
        · rcases hfail with h | h
          · exact h
          · exact absurd h0 h
        · rw [hstatus]
          simp [h0, he]
    · simp only [ChunkServerImpl.WriteNextCallback, if_neg hretry, if_neg hfail] at hdone
      omega

/-- Witness of `WriteNextCallback_completed_status`: the forward is reported failed with
the transport error code 7 and the child's status is 0; the upstream status left is 7. -/
theorem WriteNextCallback_completed_status_witness :
    (sampleServer.WriteNextCallback 31 sampleWrite (childResponse 0) true 7 "peerA"
        sampleWrite queuedWriteCall).2.response.status = some 7
    ∧ (sampleServer.WriteNextCallback 31 sampleWrite (childResponse 0) true 7 "peerA"
        sampleWrite queuedWriteCall).2.response.status ≠ some 0
    ∧ (sampleServer.WriteNextCallback 31 sampleWrite (childResponse 0) true 7 "peerA"
        sampleWrite queuedWriteCall).1 = sampleServer :=
  have h := WriteNextCallback_completed_status sampleServer 31 sampleWrite (childResponse 0)
    true 7 "peerA" sampleWrite queuedWriteCall (by decide)
  ⟨h.2.2.2.1.trans (by decide), h.2.2.2.2.1.2 (Or.inr (by decide)), h.2.2.1⟩

end bfs
